import Mathlib

/-!
# image8bit: a shallow embedding of `src/image8bit.c`

The C module stores an 8-bit gray-level image as a record of `width`, `height`,
`maxval` and a raster-scan pixel array.  Here the record is a Lean structure, the
pixel array is a `List Nat`, and every function of the module becomes a Lean
function.

Modelling conventions:

* `int` values are integers (`Int`).  Where the program can take an `int` sum,
  negation or increment out of the 32-bit range (the sums of `ImageValidRect`, the
  counters and accumulators of `ImageBlur`), the result is reduced to 32-bit two's
  complement by `wrapInt`, as the compiled program does.  The other `int`
  expressions of the module stay in range on every well-formed image (whose pixel
  count fits in an `int`) and are written exactly.
* `uint8` values are natural numbers; every conversion of an `int` to `uint8`
  is written explicitly as `toUint8` (reduction modulo 256).
* `double` values are IEEE 754 binary64 numbers: a finite one is the rational number
  it denotes, `none` stands for an infinity or a NaN.  Every arithmetic operation
  rounds its exact result to the nearest binary64 number, ties to even (`roundD`,
  `fl`).  A `double` parameter is given as a rational number, which the function
  receives rounded to the nearest binary64 number.
* The conversion of a `double` to `int` (`toInt32`) truncates toward zero when the
  result fits, and gives `INT_MIN` otherwise (the value the x86-64 conversion
  instruction returns where C leaves the conversion undefined); the conversion to
  `uint8` keeps the low byte of that `int`.
* A failed `assert`, an access outside the pixel array, or a loop that never ends
  makes the function return `none`.
* `malloc`/`calloc` are taken to succeed, so the `NULL` branches of the C code
  are not represented.
* A `for` loop whose bound is an image dimension takes the bound from the image
  on entry; no function of the module ever changes a dimension.
-/

namespace Image8bit

/-! ## Data model -/

/-- Maximum value that can be stored in a pixel (`const uint8 PixMax = 255`). -/
def PixMax : Nat := 255

/-- The record `struct image`: dimensions, maximum gray level, raster-scan pixels. -/
structure Image where
  width : Int
  height : Int
  maxval : Int
  pixel : List Nat
deriving DecidableEq

/-- Conversion of an `int` to `uint8`: reduction modulo 256. -/
def toUint8 (v : Int) : Nat := (v % 256).toNat

/-- Truncation of a rational number toward zero. -/
def truncQ (q : ℚ) : Int := if 0 ≤ q then ⌊q⌋ else ⌈q⌉

/-- The largest `int`. -/
def INT_MAX : Int := 2147483647

/-- The smallest `int`. -/
def INT_MIN : Int := -2147483648

/-- The value an `int` operation leaves when its exact result is `v`: reduction to
32-bit two's complement. -/
def wrapInt (v : Int) : Int := (v + 2147483648) % 4294967296 - 2147483648

/-! ## Arithmetic of `double` -/

/-- The integer nearest to `r`, a tie going to the even one. -/
def roundEven (r : ℚ) : Int :=
  if r - ⌊r⌋ < 1 / 2 then ⌊r⌋
  else if 1 / 2 < r - ⌊r⌋ then ⌊r⌋ + 1
  else if ⌊r⌋ % 2 = 0 then ⌊r⌋ else ⌊r⌋ + 1

/-- The binary exponent that fixes the spacing of the binary64 numbers around `q`:
the floor of `log₂ |q|`, and -1022 throughout the subnormal range. -/
def binade (q : ℚ) : Int := max (Int.log 2 |q|) (-1022)

/-- Rounding to the binary64 grid around `q` (53 significant bits), to nearest, ties
to even, with the exponent unbounded above. -/
def roundD (q : ℚ) : ℚ :=
  (roundEven (q / (2 : ℚ) ^ (binade q - 52)) : ℚ) * (2 : ℚ) ^ (binade q - 52)

/-- The `double` that an operation with exact result `q` delivers: `roundD q`, or an
infinity (`none`) when that reaches `2^1024`. -/
def fl (q : ℚ) : Option ℚ :=
  if |roundD q| < (2 : ℚ) ^ (1024 : ℕ) then some (roundD q) else none

/-- Addition of two `double`s. -/
def dadd (a b : Option ℚ) : Option ℚ := a.bind fun x => b.bind fun y => fl (x + y)

/-- Subtraction of two `double`s. -/
def dsub (a b : Option ℚ) : Option ℚ := a.bind fun x => b.bind fun y => fl (x - y)

/-- Multiplication of two `double`s. -/
def dmul (a b : Option ℚ) : Option ℚ := a.bind fun x => b.bind fun y => fl (x * y)

/-- Division of two finite `double`s; a zero divisor gives an infinity or a NaN. -/
def ddiv (x y : ℚ) : Option ℚ := if y = 0 then none else fl (x / y)

/-- Conversion of a `double` to `int`: truncation toward zero, and `INT_MIN` when the
value is not finite or its truncation is outside the `int` range. -/
def toInt32 (d : Option ℚ) : Int :=
  match d with
  | none => INT_MIN
  | some q => if INT_MIN ≤ truncQ q ∧ truncQ q ≤ INT_MAX then truncQ q else INT_MIN

/-! ## Loops -/

/-- The iterations `i, i+1, ..., i+k-1` of a `for` loop over a state; a failing
iteration aborts the whole loop. -/
def forLoopFrom {σ : Type} (body : Nat → σ → Option σ) : Nat → Nat → σ → Option σ
  | 0, _, s => some s
  | k + 1, i, s => (body i s).bind (forLoopFrom body k (i + 1))

/-- The loop `for (int i = 0; i < n; i++) body`, threading a state. -/
def forLoop {σ : Type} (n : Nat) (body : Nat → σ → Option σ) (s : σ) : Option σ :=
  forLoopFrom body n 0 s

/-- The iterations `i, ..., i+k-1` of a `for` loop without state whose body may
`return`: `none` is an abort, `some (some r)` is `return r` from the enclosing
function, `some none` means that the loop ran to its end. -/
def searchFrom {ρ : Type} (body : Nat → Option (Option ρ)) : Nat → Nat → Option (Option ρ)
  | 0, _ => some none
  | k + 1, i =>
    match body i with
    | none => none
    | some (some r) => some (some r)
    | some none => searchFrom body k (i + 1)

/-- The loop `for (int i = 0; i < n; i++) body` for a body that may `return`. -/
def searchLoop {ρ : Type} (n : Nat) (body : Nat → Option (Option ρ)) : Option (Option ρ) :=
  searchFrom body n 0

/-- The iterations of `for (int j = lo; j <= hi; j++)` from the counter value `j`, with
the increment in `int` arithmetic.  The first argument bounds the number of tests of
`j <= hi`; `none` at 0 means that the loop has not ended. -/
def intLoopFrom {σ : Type} (hi : Int) (body : Int → σ → Option σ) :
    Nat → Int → σ → Option σ
  | 0, _, _ => none
  | k + 1, j, s =>
    if j ≤ hi then (body j s).bind (intLoopFrom hi body k (wrapInt (j + 1))) else some s

/-- The loop `for (int j = lo; j <= hi; j++) body`.  A counter has 2^32 values, so a
loop that has not ended after 2^32 + 1 tests never ends: the result is then `none`. -/
def intLoop {σ : Type} (lo hi : Int) (body : Int → σ → Option σ) (s : σ) : Option σ :=
  intLoopFrom hi body 4294967297 lo s

/-! ## Image management -/

/-- The function `ImageCreate`: a new black image; the three assertions guard the
arguments. -/
def ImageCreate (width height : Int) (maxval : Nat) : Option Image :=
  if 0 ≤ width ∧ 0 ≤ height ∧ (0 < maxval ∧ maxval ≤ PixMax) then
    some ⟨width, height, maxval, List.replicate (width * height).toNat 0⟩
  else none

/-- The function `ImageWidth`. -/
def ImageWidth (img : Image) : Int := img.width

/-- The function `ImageHeight`. -/
def ImageHeight (img : Image) : Int := img.height

/-- The function `ImageMaxval`. -/
def ImageMaxval (img : Image) : Int := img.maxval

/-- The function `ImageStats`: `min` and `max` are the values that `*min` and `*max` hold on
entry; the result is the pair they hold on return. -/
def ImageStats (img : Image) (min max : Nat) : Option (Nat × Nat) :=
  forLoop (ImageHeight img * ImageWidth img).toNat
    (fun i mm =>
      (img.pixel[i]?).bind fun p =>
        let mn := if mm.1 > p then p else mm.1
        let mx := if mm.2 < p then p else mm.2
        some (mn, mx))
    (min, max)

/-- The function `ImageValidPos`: is `(x,y)` inside the image? -/
def ImageValidPos (img : Image) (x y : Int) : Bool :=
  (decide (0 ≤ x) && decide (x < ImageWidth img)) &&
    (decide (0 ≤ y) && decide (y < ImageHeight img))

/-- The function `ImageValidRect`: is the rectangle `(x,y,w,h)` completely inside the
image?  The sums `x+w` and `y+h` are `int` sums. -/
def ImageValidRect (img : Image) (x y w h : Int) : Bool :=
  if w ≤ 0 ∨ h ≤ 0 then false
  else ImageValidPos img x y && decide (wrapInt (x + w) ≤ ImageWidth img) &&
    decide (wrapInt (y + h) ≤ ImageHeight img)

/-! ## Pixel get and set -/

/-- The function `G`: the linear index of `(x,y)`, guarded by its two assertions. -/
def G (img : Image) (x y : Int) : Option Int :=
  if x ≥ 0 ∧ y ≥ 0 then
    let index := x + y * ImageWidth img
    if 0 ≤ index ∧ index < ImageWidth img * ImageHeight img then some index else none
  else none

/-- The function `ImageGetPixel`. -/
def ImageGetPixel (img : Image) (x y : Int) : Option Nat :=
  if ImageValidPos img x y then
    (G img x y).bind fun k => img.pixel[k.toNat]?
  else none

/-- The function `ImageSetPixel`; `level` is the `uint8` argument after conversion. -/
def ImageSetPixel (img : Image) (x y : Int) (level : Nat) : Option Image :=
  if ImageValidPos img x y then
    (G img x y).bind fun k =>
      if k.toNat < img.pixel.length then
        some { img with pixel := img.pixel.set k.toNat level }
      else none
  else none

/-! ## Pixel transformations -/

/-- The function `ImageNegative`. -/
def ImageNegative (img : Image) : Option Image :=
  forLoop (ImageWidth img).toNat
    (fun x s => forLoop (ImageHeight img).toNat
      (fun y s =>
        (ImageGetPixel s x y).bind fun p =>
          ImageSetPixel s x y (toUint8 (Int.natAbs (ImageMaxval s - p)))) s)
    img

/-- The function `ImageThreshold`. -/
def ImageThreshold (img : Image) (thr : Nat) : Option Image :=
  forLoop (ImageWidth img).toNat
    (fun x s => forLoop (ImageHeight img).toNat
      (fun y s =>
        (ImageGetPixel s x y).bind fun p =>
          ImageSetPixel s x y (toUint8 ((if p ≥ thr then 1 else 0) * ImageMaxval s))) s)
    img

/-- The function `ImageBrighten`: the `double` value `p*factor + 0.5` is converted
straight to `uint8`, and only then compared with 255. -/
def ImageBrighten (img : Image) (factor : ℚ) : Option Image :=
  if 0 < roundD factor then
    forLoop (ImageWidth img).toNat
      (fun x s => forLoop (ImageHeight img).toNat
        (fun y s =>
          (ImageGetPixel s x y).bind fun p =>
            let new_brightness : Nat :=
              toUint8 (toInt32 (dadd (dmul (some (p : ℚ)) (fl factor)) (some (1 / 2))))
            let new_brightness : Nat :=
              if new_brightness > 255 then toUint8 (ImageMaxval s) else new_brightness
            ImageSetPixel s x y new_brightness) s)
      img
  else none

/-! ## Geometric transformations -/

/-- The function `ImageRotate`. -/
def ImageRotate (img : Image) : Option Image :=
  (ImageCreate (ImageHeight img) (ImageWidth img) (toUint8 (ImageMaxval img))).bind fun new_img =>
    forLoop (ImageWidth img).toNat
      (fun x s => forLoop (ImageHeight img).toNat
        (fun y s =>
          let width : Int := ImageHeight img - y - 1
          let height : Int := x
          (ImageGetPixel img width height).bind fun p => ImageSetPixel s x y p) s)
      new_img

/-- The function `ImageMirror`. -/
def ImageMirror (img : Image) : Option Image :=
  (ImageCreate (ImageWidth img) (ImageHeight img) (toUint8 (ImageMaxval img))).bind fun new_img =>
    forLoop (ImageWidth img).toNat
      (fun x s => forLoop (ImageHeight img).toNat
        (fun y s =>
          let width : Int := ImageWidth img - x - 1
          (ImageGetPixel img width y).bind fun p => ImageSetPixel s x y p) s)
      new_img

/-- The function `ImagePaste`. -/
def ImagePaste (img1 : Image) (x y : Int) (img2 : Image) : Option Image :=
  if ImageValidRect img1 x y (ImageWidth img2) (ImageHeight img2) then
    forLoop (ImageWidth img2).toNat
      (fun i s => forLoop (ImageHeight img2).toNat
        (fun j s =>
          let width : Int := i + x
          let height : Int := j + y
          (ImageGetPixel img2 i j).bind fun p => ImageSetPixel s width height p) s)
      img1
  else none

/-- The function `ImageBlend`. -/
def ImageBlend (img1 : Image) (x y : Int) (img2 : Image) (alpha : ℚ) : Option Image :=
  if ImageValidRect img1 x y img2.width img2.height then
    forLoop (ImageWidth img2).toNat
      (fun i s => forLoop (ImageHeight img2).toNat
        (fun j s =>
          let width : Int := i + x
          let height : Int := j + y
          (ImageGetPixel img2 i j).bind fun p2 =>
            (ImageGetPixel s width height).bind fun p1 =>
              let new_value : Int :=
                toInt32 (dadd (dadd (dmul (some (p2 : ℚ)) (fl alpha))
                  (dmul (some (p1 : ℚ)) (dsub (some 1) (fl alpha)))) (some (1 / 2)))
              let new_value : Int :=
                if new_value < 0 then 0
                else if new_value > ImageMaxval s then ImageMaxval s
                else new_value
              ImageSetPixel s width height (toUint8 new_value)) s)
      img1
  else none

/-- The function `ImageMatchSubImage`: 1 if `img2` matches the subimage of `img1` at
`(x,y)`, 0 at the first differing pixel. -/
def ImageMatchSubImage (img1 : Image) (x y : Int) (img2 : Image) : Option Int :=
  if ImageValidPos img1 x y then
    (searchLoop (ImageWidth img2).toNat fun i =>
      searchLoop (ImageHeight img2).toNat fun j =>
        let width : Int := i + x
        let height : Int := j + y
        (ImageGetPixel img2 i j).bind fun p2 =>
          (ImageGetPixel img1 width height).bind fun p1 =>
            if p2 ≠ p1 then some (some 0) else some none).map
      fun r => r.getD 1
  else none

/-- The function `ImageLocateSubImage`: `px`, `py` are the values of `*px`, `*py` on entry; the
result is the returned value together with `*px`, `*py` on return. -/
def ImageLocateSubImage (img1 : Image) (px py : Int) (img2 : Image) :
    Option (Int × Int × Int) :=
  (searchLoop (ImageWidth img1 - ImageWidth img2).toNat fun i =>
    searchLoop (ImageHeight img1 - ImageHeight img2).toNat fun j =>
      (ImageGetPixel img1 i j).bind fun a =>
        (ImageGetPixel img2 0 0).bind fun b =>
          if a = b then
            (ImageMatchSubImage img1 i j img2).bind fun m =>
              if m ≠ 0 then some (some ((1 : Int), (i : Int), (j : Int))) else some none
          else some none).map
    fun r => r.getD (0, px, py)

/-! ## Filtering -/

/-- The two inner loops of `ImageBlur` for the pixel `(x,y)`: the sum and the
count of the pixels of the window that lie inside the image.  Counters, coordinate
sums and both accumulators are `int`s. -/
def blurWindow (img : Image) (dx dy x y : Int) : Option (Int × Int) :=
  intLoop (wrapInt (-dy)) dy
    (fun i acc => intLoop (wrapInt (-dx)) dx
      (fun j acc =>
        if !(ImageValidPos img (wrapInt (j + x)) (wrapInt (i + y))) then some acc
        else (ImageGetPixel img (wrapInt (j + x)) (wrapInt (i + y))).bind fun p =>
          some (wrapInt (acc.1 + p), wrapInt (acc.2 + 1))) acc)
    (0, 0)

/-- The function `ImageBlur`: the means are written to a temporary image and copied
back.  The mean is a `double` division; its `int` conversion is stored back in the
`double` variable, which `ImageSetPixel` receives converted to `uint8`. -/
def ImageBlur (img : Image) (dx dy : Int) : Option Image :=
  (ImageCreate (ImageWidth img) (ImageHeight img) (toUint8 (ImageMaxval img))).bind
    fun new_image =>
      (forLoop (ImageHeight img).toNat
        (fun y s => forLoop (ImageWidth img).toNat
          (fun x s =>
            (blurWindow img dx dy x y).bind fun acc =>
              let pixel_mean_sum := acc.1
              let pixel_element_count := acc.2
              let blur_pixel : Option ℚ :=
                dadd (ddiv (pixel_mean_sum : ℚ) (pixel_element_count : ℚ)) (some (1 / 2))
              let blur_pixel : Option ℚ := some ((toInt32 blur_pixel : Int) : ℚ)
              ImageSetPixel s x y (toUint8 (toInt32 blur_pixel))) s)
        new_image).bind
        fun new_image =>
          forLoop (ImageHeight img).toNat
            (fun y s => forLoop (ImageWidth img).toNat
              (fun x s =>
                (ImageGetPixel new_image x y).bind fun p => ImageSetPixel s x y p) s)
            img

/-! ## Specification-side definitions -/

/-- The structural invariant of the data model: non-negative dimensions and a pixel
array of exactly `width*height` entries. -/
def Image.Shaped (img : Image) : Prop :=
  0 ≤ img.width ∧ 0 ≤ img.height ∧ img.pixel.length = (img.width * img.height).toNat

/-- A well-formed image of the module: `Shaped`, `0 < maxval ≤ PixMax`, every stored
pixel is a `uint8`, and width, height and the pixel count (the argument of `calloc`,
the bound of every index) are `int`s. -/
def Image.WF (img : Image) : Prop :=
  img.Shaped ∧ 0 < img.maxval ∧ img.maxval ≤ 255 ∧ (∀ p ∈ img.pixel, p < 256) ∧
    img.width ≤ 2147483647 ∧ img.height ≤ 2147483647 ∧
    img.width * img.height ≤ 2147483647

/-- Every stored pixel value is at most `maxval`. -/
def Image.InRange (img : Image) : Prop :=
  ∀ p ∈ img.pixel, (p : Int) ≤ img.maxval

/-- Two images with the same dimensions, `maxval` and pixel-array length. -/
def SameShape (s s0 : Image) : Prop :=
  s.width = s0.width ∧ s.height = s0.height ∧ s.maxval = s0.maxval ∧
    s.pixel.length = s0.pixel.length

/-- The predicate `ValidRect` of the specification: `w > 0`, `h > 0`, `(x,y)` is a
valid position, `x + w ≤ width` and `y + h ≤ height`, as statements about integers. -/
def ValidRect (img : Image) (x y w h : Int) : Prop :=
  0 < w ∧ 0 < h ∧ (0 ≤ x ∧ x < img.width) ∧ (0 ≤ y ∧ y < img.height) ∧
    x + w ≤ img.width ∧ y + h ≤ img.height

/-- The finite binary64 numbers: `m * 2^e` with `|m| < 2^53` and `e ≥ -1074`, below
`2^1024` in absolute value. -/
def IsDouble (d : ℚ) : Prop :=
  (∃ m e : Int, |m| < 2 ^ 53 ∧ -1074 ≤ e ∧ d = (m : ℚ) * (2 : ℚ) ^ e) ∧
    |d| < (2 : ℚ) ^ (1024 : ℕ)

/-- Saturation of `t` to `[lo, hi]`, as the specification words it. -/
def clamp (t lo hi : Int) : Int := max lo (min t hi)

/-- The value that `ImageBlend` converts to `int`, as a binary64 number. -/
def blendDouble (p2 p1 : Nat) (alpha : ℚ) : Option ℚ :=
  dadd (dadd (dmul (some (p2 : ℚ)) (fl alpha))
    (dmul (some (p1 : ℚ)) (dsub (some 1) (fl alpha)))) (some (1 / 2))

/-- The `int` that the body of `ImageBlend` computes for source pixel `p2` and
destination pixel `p1`: the `double` value `p2*alpha + p1*(1-alpha) + 0.5`, each
operation rounded, converted to `int`. -/
def blendInt (p2 p1 : Nat) (alpha : ℚ) : Int :=
  toInt32 (dadd (dadd (dmul (some (p2 : ℚ)) (fl alpha))
    (dmul (some (p1 : ℚ)) (dsub (some 1) (fl alpha)))) (some (1 / 2)))

/-- The value that the body of `ImageBlend` stores for source pixel `p2`, destination
pixel `p1` and destination maximum `maxval`. -/
def blendLevel (p2 p1 : Nat) (alpha : ℚ) (maxval : Int) : Nat :=
  toUint8
    (if blendInt p2 p1 alpha < 0 then 0
     else if blendInt p2 p1 alpha > maxval then maxval
     else blendInt p2 p1 alpha)

/-- The gray level at `(x,y)` as an integer (0 outside the image). -/
def pixelAt (img : Image) (x y : Int) : Int := ((ImageGetPixel img x y).getD 0 : Nat)

/-- The valid positions of the window `[x-dx, x+dx] × [y-dy, y+dy]`. -/
def window (img : Image) (dx dy x y : Int) : Finset (Int × Int) :=
  (Finset.Icc (x - dx) (x + dx) ×ˢ Finset.Icc (y - dy) (y + dy)).filter
    fun p => ImageValidPos img p.1 p.2 = true

/-- The sum `S` of the pixel values at the valid positions of the window. -/
def windowSum (img : Image) (dx dy x y : Int) : Int :=
  ∑ p ∈ window img dx dy x y, pixelAt img p.1 p.2

/-- The number `n` of valid positions of the window. -/
def windowCount (img : Image) (dx dy x y : Int) : Int := (window img dx dy x y).card

/-- The plain search of the specification: `ImageMatchSubImage` is run on every
candidate, in the scan order of `ImageLocateSubImage`, without comparing the pixel
`(0,0)` of `img2` first. -/
def plainLocateSubImage (img1 : Image) (px py : Int) (img2 : Image) :
    Option (Int × Int × Int) :=
  (searchLoop (ImageWidth img1 - ImageWidth img2).toNat fun i =>
    searchLoop (ImageHeight img1 - ImageHeight img2).toNat fun j =>
      (ImageMatchSubImage img1 i j img2).bind fun m =>
        if m ≠ 0 then some (some ((1 : Int), (i : Int), (j : Int))) else some none).map
    fun r => r.getD (0, px, py)

/-! ## Concrete images used as test inputs -/

/-- A 3×3 black image. -/
def exBlack33 : Image := ⟨3, 3, 255, [0, 0, 0, 0, 0, 0, 0, 0, 0]⟩

/-- A 2×2 image of gray level 9. -/
def exGray22 : Image := ⟨2, 2, 255, [9, 9, 9, 9]⟩

/-- A 2×1 image with `maxval = 100`. -/
def exDst21 : Image := ⟨2, 1, 100, [50, 7]⟩

/-- A 1×1 image with `maxval = 255` and gray level 200. -/
def exSrc11 : Image := ⟨1, 1, 255, [200]⟩

/-- A 3×1 image. -/
def exRow31 : Image := ⟨3, 1, 255, [0, 3, 10]⟩

/-- A 1×1 black image with `maxval = 100`. -/
def exDst11 : Image := ⟨1, 1, 100, [0]⟩

/-- A 3×3 image that contains `exGray22` at position `(0,0)`. -/
def exHay33 : Image := ⟨3, 3, 255, [9, 9, 0, 9, 9, 0, 0, 0, 0]⟩

/-- A 1×1 black image. -/
def exOne11 : Image := ⟨1, 1, 255, [0]⟩

/-- The image without pixels, as `ImageCreate 0 0 255` returns it. -/
def exEmpty00 : Image := ⟨0, 0, 255, []⟩

/-- A 1×1 image with `maxval = 100` and gray level 45. -/
def exGray45 : Image := ⟨1, 1, 100, [45]⟩

/-- A one-row image of 16843010 pixels of level 255: their sum is `2^32 + 254`. -/
def exWideWhite : Image := ⟨16843010, 1, 255, List.replicate 16843010 255⟩

/-- A one-row image of 21474837 pixels of level 100 with `maxval = 100`: their sum
is `2^31 + 52`. -/
def exWideGray : Image := ⟨21474837, 1, 100, List.replicate 21474837 100⟩

/-! ## Loops, pixel access, arithmetic and the operations: auxiliary results -/

theorem forLoopFrom_inv {σ : Type} (body : Nat → σ → Option σ) (P : Nat → σ → Prop) :
    ∀ (k i : Nat) (s : σ), P i s →
      (∀ t, i ≤ t → t < i + k → ∀ s, P t s → ∃ s', body t s = some s' ∧ P (t + 1) s') →
      ∃ s', forLoopFrom body k i s = some s' ∧ P (i + k) s' := by
  intro k
  induction k with
  | zero => intro i s h _; exact ⟨s, rfl, by simpa using h⟩
  | succ k ih =>
    intro i s h hstep
    obtain ⟨s1, hb, hP⟩ := hstep i (le_refl i) (by omega) s h
    obtain ⟨s2, hl, hP2⟩ := ih (i + 1) s1 hP
      (fun t ht1 ht2 s hs => hstep t (by omega) (by omega) s hs)
    refine ⟨s2, ?_, ?_⟩
    · simp [forLoopFrom, hb, hl]
    · have : i + (k + 1) = i + 1 + k := by omega
      rw [this]; exact hP2

theorem forLoop_inv {σ : Type} (n : Nat) (body : Nat → σ → Option σ) (P : Nat → σ → Prop)
    (s : σ) (h0 : P 0 s)
    (hstep : ∀ t, t < n → ∀ s, P t s → ∃ s', body t s = some s' ∧ P (t + 1) s') :
    ∃ s', forLoop n body s = some s' ∧ P n s' := by
  have := forLoopFrom_inv body P n 0 s h0 (fun t _ ht s hs => hstep t (by omega) s hs)
  simpa [forLoop] using this

theorem forLoop2_inv {σ : Type} (n m : Nat) (body : Nat → Nat → σ → Option σ)
    (P : Nat → Nat → σ → Prop) (s : σ) (h0 : P 0 0 s)
    (hstep : ∀ i, i < n → ∀ j, j < m → ∀ s, P i j s →
      ∃ s', body i j s = some s' ∧ P i (j + 1) s')
    (hrow : ∀ i, i < n → ∀ s, P i m s → P (i + 1) 0 s) :
    ∃ s', forLoop n (fun i s => forLoop m (body i) s) s = some s' ∧ P n 0 s' := by
  apply forLoop_inv n _ (fun i s => P i 0 s) s h0
  intro i hi s hs
  obtain ⟨s', h1, h2⟩ := forLoop_inv m (body i) (fun j s => P i j s) s hs
    (fun j hj s hs => hstep i hi j hj s hs)
  exact ⟨s', h1, hrow i hi s' h2⟩

theorem lin_lt {W H x y : Int} (hx0 : 0 ≤ x) (hx : x < W) (hy0 : 0 ≤ y) (hy : y < H) :
    0 ≤ x + y * W ∧ x + y * W < W * H := by
  have h1 : 0 ≤ y * W := mul_nonneg hy0 (by omega)
  have h2 : (y + 1) * W ≤ H * W := mul_le_mul_of_nonneg_right (by omega) (by omega)
  constructor
  · omega
  · nlinarith

theorem lin_inj {W x y x' y' : Int} (hx0 : 0 ≤ x) (hx : x < W) (hx0' : 0 ≤ x') (hx' : x' < W)
    (h : x + y * W = x' + y' * W) : x = x' ∧ y = y' := by
  have hW : 0 < W := by omega
  have e1 : (x + y * W) % W = x := by
    rw [Int.add_mul_emod_self]; exact Int.emod_eq_of_lt hx0 hx
  have e2 : (x' + y' * W) % W = x' := by
    rw [Int.add_mul_emod_self]; exact Int.emod_eq_of_lt hx0' hx'
  have hxx : x = x' := by rw [← e1, ← e2, h]
  subst hxx
  have : y * W = y' * W := by omega
  exact ⟨rfl, (mul_right_cancel₀ (by omega) this)⟩

theorem validPos_iff (img : Image) (x y : Int) :
    ImageValidPos img x y = true ↔ (0 ≤ x ∧ x < img.width) ∧ (0 ≤ y ∧ y < img.height) := by
  simp [ImageValidPos, ImageWidth, ImageHeight]

theorem validPos_congr {s s0 : Image} (h : SameShape s s0) (x y : Int) :
    ImageValidPos s x y = ImageValidPos s0 x y := by
  simp [ImageValidPos, ImageWidth, ImageHeight, h.1, h.2.1]

theorem getPixel_eq {img : Image} (hs : img.Shaped) {x y : Int}
    (hx0 : 0 ≤ x) (hx : x < img.width) (hy0 : 0 ≤ y) (hy : y < img.height) :
    ∃ h : (x + y * img.width).toNat < img.pixel.length,
      ImageGetPixel img x y = some (img.pixel.get ⟨(x + y * img.width).toNat, h⟩) := by
  obtain ⟨h1, h2⟩ := lin_lt hx0 hx hy0 hy
  have hlt : (x + y * img.width).toNat < img.pixel.length := by
    rw [hs.2.2]; omega
  refine ⟨hlt, ?_⟩
  have hv : ImageValidPos img x y = true := (validPos_iff img x y).2 ⟨⟨hx0, hx⟩, hy0, hy⟩
  simp [ImageGetPixel, hv, G, ImageWidth, ImageHeight, hx0, hy0, h1, h2, List.getElem?_eq_getElem hlt]

theorem getPixel_none {img : Image} {x y : Int} (h : ImageValidPos img x y = false) :
    ImageGetPixel img x y = none := by
  simp [ImageGetPixel, h]

theorem getPixel_mem {img : Image} {x y : Int} {p : Nat} (h : ImageGetPixel img x y = some p) :
    p ∈ img.pixel := by
  unfold ImageGetPixel at h
  split at h
  · cases hG : G img x y with
    | none => simp [hG] at h
    | some k =>
      simp only [hG, Option.some_bind] at h
      exact List.getElem?_mem h
  · simp at h

theorem setPixel_spec {img : Image} (hs : img.Shaped) {x y : Int} (level : Nat)
    (hx0 : 0 ≤ x) (hx : x < img.width) (hy0 : 0 ≤ y) (hy : y < img.height) :
    ∃ img', ImageSetPixel img x y level = some img' ∧ SameShape img' img ∧
      ImageGetPixel img' x y = some level ∧
      ∀ u v, ¬ (u = x ∧ v = y) → ImageGetPixel img' u v = ImageGetPixel img u v := by
  obtain ⟨h1, h2⟩ := lin_lt hx0 hx hy0 hy
  have hlt : (x + y * img.width).toNat < img.pixel.length := by
    rw [hs.2.2]; omega
  have hv : ImageValidPos img x y = true := (validPos_iff img x y).2 ⟨⟨hx0, hx⟩, hy0, hy⟩
  refine ⟨{ img with pixel := img.pixel.set (x + y * img.width).toNat level }, ?_, ?_, ?_, ?_⟩
  · simp [ImageSetPixel, hv, G, ImageWidth, ImageHeight, hx0, hy0, h1, h2, hlt]
  · simp [SameShape]
  · simp [ImageGetPixel, ImageValidPos, G, ImageWidth, ImageHeight, hx0, hy0, hx, hy, h1, h2, hlt]
  · intro u v hne
    by_cases hv' : ImageValidPos img u v = true
    · obtain ⟨⟨hu0, hu⟩, hv0, hvh⟩ := (validPos_iff img u v).1 hv'
      obtain ⟨h3, h4⟩ := lin_lt hu0 hu hv0 hvh
      have hidx : (x + y * img.width).toNat ≠ (u + v * img.width).toNat := by
        intro he
        have : x + y * img.width = u + v * img.width := by omega
        obtain ⟨e1, e2⟩ := lin_inj hx0 hx hu0 hu this
        exact hne ⟨e1.symm, e2.symm⟩
      simp [ImageGetPixel, ImageValidPos, G, ImageWidth, ImageHeight, hu0, hu, hv0, hvh, h3, h4,
        List.getElem?_set_ne hidx]
    · have hv'' : ImageValidPos img u v = false := by simpa using hv'
      have : ImageValidPos { img with pixel := img.pixel.set (x + y * img.width).toNat level } u v
          = false := by
        simpa [ImageValidPos, ImageWidth, ImageHeight] using hv''
      rw [getPixel_none hv'', getPixel_none this]

theorem SameShape.shaped {s s0 : Image} (h : SameShape s s0) (hs : s0.Shaped) : s.Shaped := by
  obtain ⟨h1, h2, _, h4⟩ := h
  exact ⟨h1 ▸ hs.1, h2 ▸ hs.2.1, by rw [h4, h1, h2]; exact hs.2.2⟩

theorem SameShape.refl (s : Image) : SameShape s s := ⟨rfl, rfl, rfl, rfl⟩

theorem SameShape.trans {a b c : Image} (h1 : SameShape a b) (h2 : SameShape b c) :
    SameShape a c :=
  ⟨h1.1.trans h2.1, h1.2.1.trans h2.2.1, h1.2.2.1.trans h2.2.2.1, h1.2.2.2.trans h2.2.2.2⟩

/-- A nested loop that writes the value `F i j` at the position `(tx i j, ty i j)`,
distinct positions for distinct `(i,j)`: it completes, the written positions hold
`F`, every other position is untouched. -/
theorem rectLoop_spec (s0 : Image) (hs : s0.Shaped) (n m : Nat) (tx ty : Nat → Nat → Int)
    (body : Nat → Nat → Image → Option Image) (F : Nat → Nat → Nat)
    (hvalid : ∀ i, i < n → ∀ j, j < m →
      (0 ≤ tx i j ∧ tx i j < s0.width) ∧ (0 ≤ ty i j ∧ ty i j < s0.height))
    (hinj : ∀ i, i < n → ∀ j, j < m → ∀ i', i' < n → ∀ j', j' < m →
      tx i j = tx i' j' → ty i j = ty i' j' → i = i' ∧ j = j')
    (hbody : ∀ i, i < n → ∀ j, j < m → ∀ s, SameShape s s0 →
      ImageGetPixel s (tx i j) (ty i j) = ImageGetPixel s0 (tx i j) (ty i j) →
      body i j s = ImageSetPixel s (tx i j) (ty i j) (F i j)) :
    ∃ s', forLoop n (fun i s => forLoop m (body i) s) s0 = some s' ∧ SameShape s' s0 ∧
      (∀ i, i < n → ∀ j, j < m → ImageGetPixel s' (tx i j) (ty i j) = some (F i j)) ∧
      (∀ u v, (∀ i, i < n → ∀ j, j < m → ¬ (tx i j = u ∧ ty i j = v)) →
        ImageGetPixel s' u v = ImageGetPixel s0 u v) := by
  obtain ⟨s', hrun, hsh, hdone, hrest⟩ := forLoop2_inv n m body
    (fun i j s => SameShape s s0 ∧
      (∀ a, a < n → ∀ b, b < m → (a < i ∨ (a = i ∧ b < j)) →
        ImageGetPixel s (tx a b) (ty a b) = some (F a b)) ∧
      (∀ u v, (∀ a, a < n → ∀ b, b < m → (a < i ∨ (a = i ∧ b < j)) →
        ¬ (tx a b = u ∧ ty a b = v)) → ImageGetPixel s u v = ImageGetPixel s0 u v))
    s0 ⟨SameShape.refl s0, fun a _ b _ h => by omega, fun _ _ _ => rfl⟩
    (by
      intro i hi j hj s ⟨hsh, hdone, hrest⟩
      have hfresh : ImageGetPixel s (tx i j) (ty i j) = ImageGetPixel s0 (tx i j) (ty i j) := by
        apply hrest
        intro a ha b hb hab hpos
        obtain ⟨e1, e2⟩ := hinj a ha b hb i hi j hj hpos.1 hpos.2
        omega
      rw [hbody i hi j hj s hsh hfresh]
      obtain ⟨⟨hx0, hx⟩, hy0, hy⟩ := hvalid i hi j hj
      obtain ⟨s', hset, hsh', hget, hoth⟩ := setPixel_spec (hsh.shaped hs) (F i j) hx0
        (hsh.1 ▸ hx) hy0 (hsh.2.1 ▸ hy)
      refine ⟨s', hset, hsh'.trans hsh, ?_, ?_⟩
      · intro a ha b hb hab
        by_cases hij : a = i ∧ b = j
        · rw [hij.1, hij.2]; exact hget
        · rw [hoth]
          · exact hdone a ha b hb (by omega)
          · intro hpos
            exact hij (hinj a ha b hb i hi j hj hpos.1 hpos.2)
      · intro u v huv
        rw [hoth]
        · exact hrest u v (fun a ha b hb hab => huv a ha b hb (by omega))
        · intro hpos
          exact huv i hi j hj (Or.inr ⟨rfl, by omega⟩) ⟨hpos.1.symm, hpos.2.symm⟩)
    (by
      intro i hi s ⟨hsh, hdone, hrest⟩
      refine ⟨hsh, ?_, ?_⟩
      · intro a ha b hb hab
        exact hdone a ha b hb (by omega)
      · intro u v huv
        exact hrest u v (fun a ha b hb hab => huv a ha b hb (by omega)))
  refine ⟨s', hrun, hsh, ?_, ?_⟩
  · intro i hi j hj
    exact hdone i hi j hj (Or.inl hi)
  · intro u v huv
    exact hrest u v (fun a ha b hb _ => huv a ha b hb)

theorem getPixel_some {img : Image} (hs : img.Shaped) {x y : Int}
    (hx0 : 0 ≤ x) (hx : x < img.width) (hy0 : 0 ≤ y) (hy : y < img.height) :
    ∃ p, ImageGetPixel img x y = some p := by
  obtain ⟨h, e⟩ := getPixel_eq hs hx0 hx hy0 hy
  exact ⟨_, e⟩

/-- A nested loop over the whole image that replaces each pixel `p` by `g s p`, where
`g` depends on the image only through data the loop never changes. -/
theorem pointLoop_spec (img : Image) (hs : img.Shaped) (g : Image → Nat → Nat)
    (hg : ∀ s, SameShape s img → g s = g img) :
    ∃ img', forLoop (ImageWidth img).toNat
        (fun x s => forLoop (ImageHeight img).toNat
          (fun y s => (ImageGetPixel s x y).bind fun p => ImageSetPixel s x y (g s p)) s) img
        = some img' ∧ SameShape img' img ∧
      ∀ x y : Int, 0 ≤ x → x < img.width → 0 ≤ y → y < img.height →
        ∃ p, ImageGetPixel img x y = some p ∧ ImageGetPixel img' x y = some (g img p) := by
  obtain ⟨s', hrun, hsh, hdone, -⟩ := rectLoop_spec img hs img.width.toNat img.height.toNat
    (fun i _ => (i : Int)) (fun _ j => (j : Int))
    (fun x y s => (ImageGetPixel s x y).bind fun p => ImageSetPixel s x y (g s p))
    (fun i j => g img ((ImageGetPixel img i j).getD 0))
    (by intro i hi j hj; dsimp only; constructor <;> constructor <;> omega)
    (by intro i _ j _ i' _ j' _ h1 h2; dsimp only at h1 h2; constructor <;> omega)
    (by
      intro i hi j hj s hsh hfresh
      dsimp only at hfresh ⊢
      obtain ⟨p, e⟩ := getPixel_some hs (x := (i : Int)) (y := (j : Int))
        (by omega) (by omega) (by omega) (by omega)
      simp only [hfresh, e, Option.some_bind, Option.getD_some, hg s hsh])
  refine ⟨s', hrun, hsh, ?_⟩
  intro x y hx0 hx hy0 hy
  obtain ⟨p, e⟩ := getPixel_some hs hx0 hx hy0 hy
  refine ⟨p, e, ?_⟩
  have := hdone x.toNat (by omega) y.toNat (by omega)
  have hx' : ((x.toNat : Nat) : Int) = x := Int.toNat_of_nonneg hx0
  have hy' : ((y.toNat : Nat) : Int) = y := Int.toNat_of_nonneg hy0
  simp only [hx', hy'] at this
  rw [this, e]; rfl

theorem negative_spec (img : Image) (hs : img.Shaped) :
    ∃ img', ImageNegative img = some img' ∧ SameShape img' img ∧
      ∀ x y : Int, 0 ≤ x → x < img.width → 0 ≤ y → y < img.height →
        ∃ p, ImageGetPixel img x y = some p ∧
          ImageGetPixel img' x y = some (toUint8 (Int.natAbs (img.maxval - p))) :=
  pointLoop_spec img hs (fun s p => toUint8 (Int.natAbs (ImageMaxval s - p)))
    (by intro s h; funext p; simp only [ImageMaxval, h.2.2.1])

theorem threshold_spec (img : Image) (thr : Nat) (hs : img.Shaped) :
    ∃ img', ImageThreshold img thr = some img' ∧ SameShape img' img ∧
      ∀ x y : Int, 0 ≤ x → x < img.width → 0 ≤ y → y < img.height →
        ∃ p, ImageGetPixel img x y = some p ∧
          ImageGetPixel img' x y = some (toUint8 ((if p ≥ thr then 1 else 0) * img.maxval)) :=
  pointLoop_spec img hs (fun s p => toUint8 ((if p ≥ thr then 1 else 0) * ImageMaxval s))
    (by intro s h; funext p; simp only [ImageMaxval, h.2.2.1])

/-- Every entry of the pixel array is the pixel of a valid position. -/
theorem mem_pixel_get {img : Image} (hs : img.Shaped) {p : Nat} (hp : p ∈ img.pixel) :
    ∃ x y : Int, (0 ≤ x ∧ x < img.width) ∧ (0 ≤ y ∧ y < img.height) ∧
      ImageGetPixel img x y = some p := by
  obtain ⟨k, hk, rfl⟩ := List.getElem_of_mem hp
  obtain ⟨hW, hH, hlen⟩ := hs
  have hWpos : 0 < img.width := by
    rcases eq_or_lt_of_le hW with h | h
    · rw [hlen, ← h] at hk; simp at hk
    · exact h
  have hkI : (k : Int) < img.width * img.height := by
    have : 0 ≤ img.width * img.height := mul_nonneg hW hH
    omega
  have hx0 : 0 ≤ (k : Int) % img.width := Int.emod_nonneg _ (by omega)
  have hx : (k : Int) % img.width < img.width := Int.emod_lt_of_pos _ hWpos
  have hy0 : 0 ≤ (k : Int) / img.width := Int.ediv_nonneg (by omega) hW
  have hy : (k : Int) / img.width < img.height := by
    apply Int.ediv_lt_of_lt_mul hWpos
    rw [mul_comm]; exact hkI
  have hlin : (k : Int) % img.width + (k : Int) / img.width * img.width = k := by
    rw [mul_comm]; exact Int.emod_add_ediv _ _
  refine ⟨(k : Int) % img.width, (k : Int) / img.width, ⟨hx0, hx⟩, ⟨hy0, hy⟩, ?_⟩
  obtain ⟨h, e⟩ := getPixel_eq ⟨hW, hH, hlen⟩ hx0 hx hy0 hy
  rw [e]
  simp only [hlin, Int.toNat_ofNat, List.get_eq_getElem]

theorem inRange_of_get {img : Image} (hs : img.Shaped) (M : Int)
    (h : ∀ x y : Int, 0 ≤ x → x < img.width → 0 ≤ y → y < img.height →
      ∃ p, ImageGetPixel img x y = some p ∧ (p : Int) ≤ M) :
    ∀ p ∈ img.pixel, (p : Int) ≤ M := by
  intro p hp
  obtain ⟨x, y, ⟨hx0, hx⟩, ⟨hy0, hy⟩, e⟩ := mem_pixel_get hs hp
  obtain ⟨q, e', hq⟩ := h x y hx0 hx hy0 hy
  rw [e] at e'
  cases e'
  exact hq

theorem sum_range_eq_sum_Icc (f : Int → Int) (c d : Int) :
    ∑ t ∈ Finset.range (2 * d + 1).toNat, f (-d + (t : Int) + c) =
      ∑ u ∈ Finset.Icc (c - d) (c + d), f u := by
  rw [Int.Icc_eq_finset_map, Finset.sum_map]
  have e : (c + d + 1 - (c - d)).toNat = (2 * d + 1).toNat := by congr 1; ring
  rw [e]
  apply Finset.sum_congr rfl
  intro t _
  simp only [Function.Embedding.trans_apply, Nat.castEmbedding_apply, addLeftEmbedding_apply]
  congr 1; ring

theorem create_spec (w h : Int) (m : Int) (hw : 0 ≤ w) (hh : 0 ≤ h) (hm0 : 0 < m)
    (hm : m ≤ 255) :
    ImageCreate w h (toUint8 m) = some ⟨w, h, m, List.replicate (w * h).toNat 0⟩ := by
  have e : ((toUint8 m : Nat) : Int) = m := by
    unfold toUint8
    rw [Int.toNat_of_nonneg (Int.emod_nonneg _ (by norm_num))]
    omega
  have h1 : 0 < toUint8 m := by omega
  have h2 : toUint8 m ≤ 255 := by omega
  simp [ImageCreate, hw, hh, h1, h2, PixMax, e]

theorem toUint8_of_range {v : Int} (h0 : 0 ≤ v) (h : v < 256) : ((toUint8 v : Nat) : Int) = v := by
  unfold toUint8
  rw [Int.toNat_of_nonneg (Int.emod_nonneg _ (by norm_num))]
  omega

theorem truncQ_of_nonneg {q : ℚ} (h : 0 ≤ q) : truncQ q = ⌊q⌋ := by
  simp [truncQ, h]

theorem pixelAt_nonneg (img : Image) (x y : Int) : 0 ≤ pixelAt img x y := by
  unfold pixelAt; exact Int.ofNat_nonneg _

theorem pixelAt_le {img : Image} {B : Int} (hB0 : 0 ≤ B)
    (h : ∀ p ∈ img.pixel, (p : Int) ≤ B) (x y : Int) : pixelAt img x y ≤ B := by
  unfold pixelAt
  cases e : ImageGetPixel img x y with
  | none => simpa using hB0
  | some p => simpa using h p (getPixel_mem e)

theorem windowCount_pos (img : Image) (dx dy x y : Int) (hdx : 0 ≤ dx) (hdy : 0 ≤ dy)
    (hx0 : 0 ≤ x) (hx : x < img.width) (hy0 : 0 ≤ y) (hy : y < img.height) :
    0 < windowCount img dx dy x y := by
  unfold windowCount
  have : (x, y) ∈ window img dx dy x y := by
    simp only [window, Finset.mem_filter, Finset.mem_product, Finset.mem_Icc, validPos_iff]
    omega
  exact_mod_cast Finset.card_pos.2 ⟨_, this⟩

theorem windowSum_nonneg (img : Image) (dx dy x y : Int) : 0 ≤ windowSum img dx dy x y :=
  Finset.sum_nonneg fun _ _ => pixelAt_nonneg _ _ _

theorem windowSum_le {img : Image} {B : Int} (hB0 : 0 ≤ B)
    (h : ∀ p ∈ img.pixel, (p : Int) ≤ B) (dx dy x y : Int) :
    windowSum img dx dy x y ≤ B * windowCount img dx dy x y := by
  unfold windowSum windowCount
  have := Finset.sum_le_card_nsmul (window img dx dy x y) (fun p => pixelAt img p.1 p.2) B
    (fun p _ => pixelAt_le hB0 h p.1 p.2)
  simpa [mul_comm] using this

theorem searchFrom_first {ρ : Type} (body : Nat → Option (Option ρ)) :
    ∀ (k i : Nat), (∀ t, i ≤ t → t < i + k → body t ≠ none) →
      (searchFrom body k i = some none ∧ ∀ t, i ≤ t → t < i + k → body t = some none) ∨
      (∃ t0 r, i ≤ t0 ∧ t0 < i + k ∧ searchFrom body k i = some (some r) ∧
        body t0 = some (some r) ∧ ∀ t, i ≤ t → t < t0 → body t = some none) := by
  intro k
  induction k with
  | zero =>
    intro i _
    exact Or.inl ⟨rfl, fun t h1 h2 => by omega⟩
  | succ k ih =>
    intro i htot
    cases hb : body i with
    | none => exact absurd hb (htot i (le_refl i) (by omega))
    | some o =>
      cases o with
      | some r =>
        refine Or.inr ⟨i, r, le_refl i, by omega, ?_, hb, fun t h1 h2 => by omega⟩
        simp [searchFrom, hb]
      | none =>
        have hs : searchFrom body (k + 1) i = searchFrom body k (i + 1) := by
          simp [searchFrom, hb]
        rcases ih (i + 1) (fun t h1 h2 => htot t (by omega) (by omega)) with ⟨h1, h2⟩ | h
        · refine Or.inl ⟨hs.trans h1, ?_⟩
          intro t ht1 ht2
          rcases Nat.eq_or_lt_of_le ht1 with e | e
          · rw [← e]; exact hb
          · exact h2 t (by omega) (by omega)
        · obtain ⟨t0, r, h1, h2, h3, h4, h5⟩ := h
          refine Or.inr ⟨t0, r, by omega, by omega, hs.trans h3, h4, ?_⟩
          intro t ht1 ht2
          rcases Nat.eq_or_lt_of_le ht1 with e | e
          · rw [← e]; exact hb
          · exact h5 t (by omega) ht2

theorem searchLoop_first {ρ : Type} (n : Nat) (body : Nat → Option (Option ρ))
    (htot : ∀ t, t < n → body t ≠ none) :
    (searchLoop n body = some none ∧ ∀ t, t < n → body t = some none) ∨
    (∃ t0 r, t0 < n ∧ searchLoop n body = some (some r) ∧
      body t0 = some (some r) ∧ ∀ t, t < t0 → body t = some none) := by
  rcases searchFrom_first body n 0 (fun t _ h => htot t (by omega)) with ⟨h1, h2⟩ | h
  · exact Or.inl ⟨h1, fun t ht => h2 t (Nat.zero_le t) (by omega)⟩
  · obtain ⟨t0, r, _, h2, h3, h4, h5⟩ := h
    exact Or.inr ⟨t0, r, by omega, h3, h4, fun t ht => h5 t (Nat.zero_le t) ht⟩

/-- A search loop whose body returns `r0` exactly when `Q` fails. -/
theorem searchLoop_pred {ρ : Type} (n : Nat) (body : Nat → Option (Option ρ)) (r0 : ρ)
    (Q : Nat → Prop)
    (hQ : ∀ t, t < n → (Q t ∧ body t = some none) ∨ (¬ Q t ∧ body t = some (some r0))) :
    (searchLoop n body = some none ∧ ∀ t, t < n → Q t) ∨
    (searchLoop n body = some (some r0) ∧ ∃ t, t < n ∧ ¬ Q t) := by
  have htot : ∀ t, t < n → body t ≠ none := by
    intro t ht
    rcases hQ t ht with ⟨_, h⟩ | ⟨_, h⟩ <;> simp [h]
  rcases searchLoop_first n body htot with ⟨h1, h2⟩ | ⟨t0, r, h1, h2, h3, _⟩
  · refine Or.inl ⟨h1, fun t ht => ?_⟩
    rcases hQ t ht with ⟨h, _⟩ | ⟨_, h⟩
    · exact h
    · rw [h2 t ht] at h; cases h
  · rcases hQ t0 h1 with ⟨_, h⟩ | ⟨hq, h⟩
    · rw [h3] at h; cases h
    · rw [h3] at h
      cases h
      exact Or.inr ⟨h2, t0, h1, hq⟩

theorem searchLoop2_first {ρ : Type} (n m : Nat) (body : Nat → Nat → Option (Option ρ))
    (htot : ∀ i, i < n → ∀ j, j < m → body i j ≠ none) :
    (searchLoop n (fun i => searchLoop m (body i)) = some none ∧
      ∀ i, i < n → ∀ j, j < m → body i j = some none) ∨
    (∃ i0 j0 r, i0 < n ∧ j0 < m ∧
      searchLoop n (fun i => searchLoop m (body i)) = some (some r) ∧
      body i0 j0 = some (some r) ∧
      ∀ i, i < n → ∀ j, j < m → (i < i0 ∨ (i = i0 ∧ j < j0)) → body i j = some none) := by
  have hrow : ∀ i, i < n → searchLoop m (body i) ≠ none := by
    intro i hi
    rcases searchLoop_first m (body i) (htot i hi) with ⟨h, _⟩ | ⟨_, _, _, h, _⟩ <;> simp [h]
  rcases searchLoop_first n (fun i => searchLoop m (body i)) hrow with
    ⟨h1, h2⟩ | ⟨i0, r, hi0, h1, h2, h3⟩
  · refine Or.inl ⟨h1, fun i hi j hj => ?_⟩
    rcases searchLoop_first m (body i) (htot i hi) with ⟨_, h⟩ | ⟨_, _, _, h, _⟩
    · exact h j hj
    · rw [h2 i hi] at h; cases h
  · rcases searchLoop_first m (body i0) (htot i0 hi0) with ⟨h, _⟩ | ⟨j0, r', hj0, h4, h5, h6⟩
    · rw [h2] at h; cases h
    · rw [h2] at h4
      cases h4
      refine Or.inr ⟨i0, j0, r, hi0, hj0, h1, h5, ?_⟩
      intro i hi j hj hlt
      rcases hlt with hlt | ⟨rfl, hlt⟩
      · rcases searchLoop_first m (body i) (htot i hi) with ⟨_, h⟩ | ⟨_, _, _, h, _⟩
        · exact h j hj
        · have := h3 i hlt
          simp only at this
          rw [this] at h; cases h
      · exact h6 j hlt

/-- A nested search loop whose body returns `r0` exactly when `Q` fails. -/
theorem searchLoop2_pred {ρ : Type} (n m : Nat) (body : Nat → Nat → Option (Option ρ)) (r0 : ρ)
    (Q : Nat → Nat → Prop)
    (hQ : ∀ i, i < n → ∀ j, j < m →
      (Q i j ∧ body i j = some none) ∨ (¬ Q i j ∧ body i j = some (some r0))) :
    (searchLoop n (fun i => searchLoop m (body i)) = some none ∧
      ∀ i, i < n → ∀ j, j < m → Q i j) ∨
    (searchLoop n (fun i => searchLoop m (body i)) = some (some r0) ∧
      ∃ i j, i < n ∧ j < m ∧ ¬ Q i j) := by
  have htot : ∀ i, i < n → ∀ j, j < m → body i j ≠ none := by
    intro i hi j hj
    rcases hQ i hi j hj with ⟨_, h⟩ | ⟨_, h⟩ <;> simp [h]
  rcases searchLoop2_first n m body htot with ⟨h1, h2⟩ | ⟨i0, j0, r, hi0, hj0, h1, h2, _⟩
  · refine Or.inl ⟨h1, fun i hi j hj => ?_⟩
    rcases hQ i hi j hj with ⟨h, _⟩ | ⟨_, h⟩
    · exact h
    · rw [h2 i hi j hj] at h; cases h
  · rcases hQ i0 hi0 j0 hj0 with ⟨_, h⟩ | ⟨hq, h⟩
    · rw [h2] at h; cases h
    · rw [h2] at h
      cases h
      exact Or.inr ⟨h1, i0, j0, hi0, hj0, hq⟩

/-- The function `ImageMatchSubImage` on a position where `img2` fits inside `img1`. -/
theorem match_spec (img1 img2 : Image) (h1 : img1.Shaped) (h2 : img2.Shaped) (x y : Int)
    (hx0 : 0 ≤ x) (hx : x < img1.width) (hy0 : 0 ≤ y) (hy : y < img1.height)
    (hxw : x + img2.width ≤ img1.width) (hyh : y + img2.height ≤ img1.height) :
    (ImageMatchSubImage img1 x y img2 = some 1 ∧
      ∀ i j : Int, 0 ≤ i → i < img2.width → 0 ≤ j → j < img2.height →
        ImageGetPixel img2 i j = ImageGetPixel img1 (i + x) (j + y)) ∨
    (ImageMatchSubImage img1 x y img2 = some 0 ∧
      ∃ i j : Int, (0 ≤ i ∧ i < img2.width) ∧ (0 ≤ j ∧ j < img2.height) ∧
        ImageGetPixel img2 i j ≠ ImageGetPixel img1 (i + x) (j + y)) := by
  have hv : ImageValidPos img1 x y = true := (validPos_iff _ _ _).2 ⟨⟨hx0, hx⟩, hy0, hy⟩
  rcases searchLoop2_pred (ImageWidth img2).toNat (ImageHeight img2).toNat
    (fun i j =>
      (ImageGetPixel img2 i j).bind fun p2 =>
        (ImageGetPixel img1 ((i : Int) + x) ((j : Int) + y)).bind fun p1 =>
          if p2 ≠ p1 then some (some (0 : Int)) else some none)
    (0 : Int)
    (fun i j => ImageGetPixel img2 i j = ImageGetPixel img1 ((i : Int) + x) ((j : Int) + y))
    (by
      intro i hi j hj
      simp only [ImageWidth, ImageHeight] at hi hj
      obtain ⟨p2, e2⟩ := getPixel_some h2 (x := (i : Int)) (y := (j : Int))
        (by omega) (by omega) (by omega) (by omega)
      obtain ⟨p1, e1⟩ := getPixel_some h1 (x := (i : Int) + x) (y := (j : Int) + y)
        (by omega) (by omega) (by omega) (by omega)
      simp only [e1, e2, Option.some_bind, Option.some.injEq]
      by_cases hp : p2 = p1
      · exact Or.inl ⟨hp, by simp [hp]⟩
      · exact Or.inr ⟨hp, by simp [hp]⟩)
    with ⟨e, hall⟩ | ⟨e, i, j, hi, hj, hne⟩
  · left
    refine ⟨?_, ?_⟩
    · unfold ImageMatchSubImage
      rw [if_pos hv]
      exact (congrArg (Option.map fun r => r.getD 1) e).trans rfl
    · intro i j hi0 hi hj0 hj
      have := hall i.toNat (by simp only [ImageWidth]; omega) j.toNat
        (by simp only [ImageHeight]; omega)
      simp only [Int.toNat_of_nonneg hi0, Int.toNat_of_nonneg hj0] at this
      exact this
  · right
    refine ⟨?_, ?_⟩
    · unfold ImageMatchSubImage
      rw [if_pos hv]
      exact (congrArg (Option.map fun r => r.getD 1) e).trans rfl
    · simp only [ImageWidth, ImageHeight] at hi hj
      exact ⟨i, j, ⟨by omega, by omega⟩, ⟨by omega, by omega⟩, hne⟩

/-- The function `ImageLocateSubImage` for a non-empty `img2`: either no candidate matches and the
result is 0 with `(px,py)` untouched, or the result is 1 with the first matching
candidate in the scan order. -/
theorem locate_spec (img1 img2 : Image) (px py : Int) (h1 : img1.Shaped) (h2 : img2.Shaped)
    (hw : 0 < img2.width) (hh : 0 < img2.height) :
    (ImageLocateSubImage img1 px py img2 = some (0, px, py) ∧
      ∀ x' y' : Int, 0 ≤ x' → x' < img1.width - img2.width →
        0 ≤ y' → y' < img1.height - img2.height →
        ImageMatchSubImage img1 x' y' img2 = some 0) ∨
    (∃ qx qy : Int, (0 ≤ qx ∧ qx < img1.width - img2.width) ∧
      (0 ≤ qy ∧ qy < img1.height - img2.height) ∧
      ImageLocateSubImage img1 px py img2 = some (1, qx, qy) ∧
      ImageMatchSubImage img1 qx qy img2 = some 1 ∧
      ∀ x' y' : Int, 0 ≤ x' → x' < img1.width - img2.width →
        0 ≤ y' → y' < img1.height - img2.height →
        (x' < qx ∨ (x' = qx ∧ y' < qy)) → ImageMatchSubImage img1 x' y' img2 = some 0) := by
  have hcand : ∀ i : Nat, i < (ImageWidth img1 - ImageWidth img2).toNat →
      ∀ j : Nat, j < (ImageHeight img1 - ImageHeight img2).toNat →
      (ImageMatchSubImage img1 i j img2 = some 1 ∧
        ((ImageGetPixel img1 i j).bind fun a =>
          (ImageGetPixel img2 0 0).bind fun b =>
            if a = b then
              (ImageMatchSubImage img1 i j img2).bind fun m =>
                if m ≠ 0 then some (some ((1 : Int), (i : Int), (j : Int))) else some none
            else some none) = some (some (1, (i : Int), (j : Int)))) ∨
      (ImageMatchSubImage img1 i j img2 = some 0 ∧
        ((ImageGetPixel img1 i j).bind fun a =>
          (ImageGetPixel img2 0 0).bind fun b =>
            if a = b then
              (ImageMatchSubImage img1 i j img2).bind fun m =>
                if m ≠ 0 then some (some ((1 : Int), (i : Int), (j : Int))) else some none
            else some none) = some none) := by
    intro i hi j hj
    simp only [ImageWidth, ImageHeight] at hi hj
    obtain ⟨a, ea⟩ := getPixel_some h1 (x := (i : Int)) (y := (j : Int))
      (by omega) (by omega) (by omega) (by omega)
    obtain ⟨b, eb⟩ := getPixel_some h2 (x := (0 : Int)) (y := (0 : Int))
      (by omega) (by omega) (by omega) (by omega)
    rcases match_spec img1 img2 h1 h2 i j (by omega) (by omega) (by omega) (by omega)
      (by omega) (by omega) with ⟨e, hall⟩ | ⟨e, _⟩
    · left
      have hab := hall 0 0 (le_refl 0) hw (le_refl 0) hh
      rw [zero_add, zero_add, ea, eb] at hab
      have hab' : a = b := by cases hab; rfl
      refine ⟨e, ?_⟩
      simp [ea, eb, e, hab']
    · right
      refine ⟨e, ?_⟩
      simp [ea, eb, e]
  rcases searchLoop2_first (ImageWidth img1 - ImageWidth img2).toNat
    (ImageHeight img1 - ImageHeight img2).toNat
    (fun i j =>
      (ImageGetPixel img1 i j).bind fun a =>
        (ImageGetPixel img2 0 0).bind fun b =>
          if a = b then
            (ImageMatchSubImage img1 i j img2).bind fun m =>
              if m ≠ 0 then some (some ((1 : Int), (i : Int), (j : Int))) else some none
          else some none)
    (by
      intro i hi j hj
      rcases hcand i hi j hj with ⟨_, h⟩ | ⟨_, h⟩ <;> simp only [h] <;> simp)
    with ⟨e, hall⟩ | ⟨i0, j0, r, hi0, hj0, e, hr, hbefore⟩
  · left
    refine ⟨?_, ?_⟩
    · unfold ImageLocateSubImage
      exact (congrArg (Option.map fun r => r.getD (0, px, py)) e).trans rfl
    · intro x' y' hx0 hx hy0 hy
      have hi : x'.toNat < (ImageWidth img1 - ImageWidth img2).toNat := by
        simp only [ImageWidth]; omega
      have hj : y'.toNat < (ImageHeight img1 - ImageHeight img2).toNat := by
        simp only [ImageHeight]; omega
      have hnone := hall x'.toNat hi y'.toNat hj
      rcases hcand x'.toNat hi y'.toNat hj with ⟨_, h⟩ | ⟨h, _⟩
      · simp only at hnone; rw [hnone] at h; cases h
      · simpa only [Int.toNat_of_nonneg hx0, Int.toNat_of_nonneg hy0] using h
  · right
    have hr' : r = (1, (i0 : Int), (j0 : Int)) ∧
        ImageMatchSubImage img1 i0 j0 img2 = some 1 := by
      rcases hcand i0 hi0 j0 hj0 with ⟨hm, h⟩ | ⟨_, h⟩
      · rw [hr] at h
        simp only [Option.some.injEq] at h
        exact ⟨h, hm⟩
      · rw [hr] at h; cases h
    obtain ⟨rfl, hm⟩ := hr'
    simp only [ImageWidth, ImageHeight] at hi0 hj0
    refine ⟨i0, j0, ⟨by omega, by omega⟩, ⟨by omega, by omega⟩, ?_, hm, ?_⟩
    · unfold ImageLocateSubImage
      exact (congrArg (Option.map fun r => r.getD (0, px, py)) e).trans rfl
    · intro x' y' hx0 hx hy0 hy hlt
      have hi : x'.toNat < (ImageWidth img1 - ImageWidth img2).toNat := by
        simp only [ImageWidth]; omega
      have hj : y'.toNat < (ImageHeight img1 - ImageHeight img2).toNat := by
        simp only [ImageHeight]; omega
      have hnone := hbefore x'.toNat hi y'.toNat hj (by omega)
      rcases hcand x'.toNat hi y'.toNat hj with ⟨_, h⟩ | ⟨h, _⟩
      · simp only at hnone; rw [hnone] at h; cases h
      · simpa only [Int.toNat_of_nonneg hx0, Int.toNat_of_nonneg hy0] using h

theorem exDst21_WF : exDst21.WF := by
  unfold Image.WF Image.Shaped exDst21; decide

theorem exSrc11_WF : exSrc11.WF := by
  unfold Image.WF Image.Shaped exSrc11; decide

theorem exRow31_WF : exRow31.WF := by
  unfold Image.WF Image.Shaped exRow31; decide

/-- A result of the same shape whose pixel at every valid position is `f` of the
original pixel is in range when `f` maps stored values into `[0, maxval]`. -/
theorem inRange_of_pointwise {img img' : Image} (hs : img.Shaped) (hsh : SameShape img' img)
    (f : Nat → Nat)
    (hpx : ∀ x y : Int, 0 ≤ x → x < img.width → 0 ≤ y → y < img.height →
      ∃ p, ImageGetPixel img x y = some p ∧ ImageGetPixel img' x y = some (f p))
    (hf : ∀ p ∈ img.pixel, ((f p : Nat) : Int) ≤ img.maxval) : img'.InRange := by
  unfold Image.InRange
  rw [hsh.2.2.1]
  apply inRange_of_get (hsh.shaped hs)
  intro x y hx0 hx hy0 hy
  rw [hsh.1] at hx
  rw [hsh.2.1] at hy
  obtain ⟨p, e, e'⟩ := hpx x y hx0 hx hy0 hy
  exact ⟨_, e', hf p (getPixel_mem e)⟩

theorem getPixel_eq_getElem? {img : Image} (hs : img.Shaped) {x y : Int}
    (hx0 : 0 ≤ x) (hx : x < img.width) (hy0 : 0 ≤ y) (hy : y < img.height) :
    ImageGetPixel img x y = img.pixel[(x + y * img.width).toNat]? := by
  obtain ⟨h, e⟩ := getPixel_eq hs hx0 hx hy0 hy
  rw [e, List.getElem?_eq_getElem h]
  rfl

/-- Every index of the pixel array is the linear index of a valid position. -/
theorem index_position {img : Image} (hs : img.Shaped) {k : Nat} (hk : k < img.pixel.length) :
    ∃ x y : Int, (0 ≤ x ∧ x < img.width) ∧ (0 ≤ y ∧ y < img.height) ∧
      (x + y * img.width).toNat = k := by
  obtain ⟨hW, hH, hlen⟩ := hs
  have hWpos : 0 < img.width := by
    rcases eq_or_lt_of_le hW with h | h
    · rw [hlen, ← h] at hk; simp at hk
    · exact h
  have hkI : (k : Int) < img.width * img.height := by
    have : 0 ≤ img.width * img.height := mul_nonneg hW hH
    omega
  have hx0 : 0 ≤ (k : Int) % img.width := Int.emod_nonneg _ (by omega)
  have hx : (k : Int) % img.width < img.width := Int.emod_lt_of_pos _ hWpos
  have hy0 : 0 ≤ (k : Int) / img.width := Int.ediv_nonneg (by omega) hW
  have hy : (k : Int) / img.width < img.height := by
    apply Int.ediv_lt_of_lt_mul hWpos
    rw [mul_comm]; exact hkI
  have hlin : (k : Int) % img.width + (k : Int) / img.width * img.width = k := by
    rw [mul_comm]; exact Int.emod_add_ediv _ _
  exact ⟨(k : Int) % img.width, (k : Int) / img.width, ⟨hx0, hx⟩, ⟨hy0, hy⟩, by rw [hlin]; rfl⟩

/-- Two images of the same shape that agree at every valid position are equal. -/
theorem image_ext {a b : Image} (hsh : SameShape a b) (hb : b.Shaped)
    (h : ∀ x y : Int, 0 ≤ x → x < b.width → 0 ≤ y → y < b.height →
      ImageGetPixel a x y = ImageGetPixel b x y) : a = b := by
  have ha : a.Shaped := hsh.shaped hb
  obtain ⟨aw, ah, am, ap⟩ := a
  obtain ⟨bw, bh, bm, bp⟩ := b
  obtain ⟨h1, h2, h3, h4⟩ := hsh
  simp only at h1 h2 h3 h4
  subst h1 h2 h3
  have hp : ap = bp := by
    apply List.ext_getElem?
    intro k
    by_cases hk : k < bp.length
    · obtain ⟨x, y, ⟨hx0, hx⟩, ⟨hy0, hy⟩, e⟩ := index_position hb hk
      have e1 := getPixel_eq_getElem? ha hx0 hx hy0 hy
      have e2 := getPixel_eq_getElem? hb hx0 hx hy0 hy
      simp only [e] at e1 e2
      rw [← e1, ← e2]
      exact h x y hx0 hx hy0 hy
    · rw [List.getElem?_eq_none (by omega), List.getElem?_eq_none (by omega)]
  rw [hp]

theorem created_shaped (w h m : Int) (hw : 0 ≤ w) (hh : 0 ≤ h) :
    (⟨w, h, m, List.replicate (w * h).toNat 0⟩ : Image).Shaped :=
  ⟨hw, hh, by simp⟩

theorem mirror_spec (img : Image) (hs : img.Shaped) (hm0 : 0 < img.maxval)
    (hm : img.maxval ≤ 255) :
    ∃ r, ImageMirror img = some r ∧ SameShape r img ∧
      ∀ x y : Int, 0 ≤ x → x < img.width → 0 ≤ y → y < img.height →
        ∃ p, ImageGetPixel img (img.width - 1 - x) y = some p ∧
          ImageGetPixel r x y = some p := by
  have hnew := created_shaped img.width img.height img.maxval hs.1 hs.2.1
  obtain ⟨r, hrun, hsh, hdone, -⟩ := rectLoop_spec
    ⟨img.width, img.height, img.maxval, List.replicate (img.width * img.height).toNat 0⟩ hnew
    img.width.toNat img.height.toNat (fun i _ => (i : Int)) (fun _ j => (j : Int))
    (fun x y s =>
      (ImageGetPixel img (img.width - (x : Int) - 1) y).bind fun p => ImageSetPixel s x y p)
    (fun i j => (ImageGetPixel img (img.width - (i : Int) - 1) j).getD 0)
    (by intro i hi j hj; dsimp only; constructor <;> constructor <;> omega)
    (by intro i _ j _ i' _ j' _ h1 h2; dsimp only at h1 h2; constructor <;> omega)
    (by
      intro i hi j hj s _ _
      dsimp only
      obtain ⟨p, e⟩ := getPixel_some hs (x := img.width - (i : Int) - 1) (y := (j : Int))
        (by omega) (by omega) (by omega) (by omega)
      simp only [e, Option.some_bind, Option.getD_some])
  have hsh' : SameShape r img :=
    ⟨hsh.1, hsh.2.1, hsh.2.2.1, by rw [hsh.2.2.2, hs.2.2]; simp⟩
  refine ⟨r, ?_, hsh', ?_⟩
  · simp only [ImageMirror, ImageWidth, ImageHeight, ImageMaxval]
    rw [create_spec _ _ _ hs.1 hs.2.1 hm0 hm]
    exact hrun
  · intro x y hx0 hx hy0 hy
    obtain ⟨p, e⟩ := getPixel_some hs (x := img.width - 1 - x) (y := y)
      (by omega) (by omega) (by omega) (by omega)
    refine ⟨p, e, ?_⟩
    have := hdone x.toNat (by omega) y.toNat (by omega)
    have hx' : ((x.toNat : Nat) : Int) = x := Int.toNat_of_nonneg hx0
    have hy' : ((y.toNat : Nat) : Int) = y := Int.toNat_of_nonneg hy0
    simp only [hx', hy'] at this
    rw [show img.width - x - 1 = img.width - 1 - x by ring] at this
    rw [this, e]; rfl

theorem searchFrom_const_none {ρ : Type} :
    ∀ (k i : Nat), searchFrom (fun _ => (some none : Option (Option ρ))) k i = some none := by
  intro k
  induction k with
  | zero => intro i; rfl
  | succ k ih => intro i; simp only [searchFrom]; exact ih (i + 1)

/-- A nested search loop with an empty outer or inner range ends without running its
body. -/
theorem searchLoop2_empty {ρ : Type} (n m : Nat) (h : n = 0 ∨ m = 0)
    (body : Nat → Nat → Option (Option ρ)) :
    searchLoop n (fun i => searchLoop m (body i)) = some none := by
  rcases h with h | h
  · subst h; rfl
  · subst h
    exact searchFrom_const_none n 0

theorem exHay33_WF : exHay33.WF := by
  unfold Image.WF Image.Shaped exHay33; decide

theorem exGray22_WF : exGray22.WF := by
  unfold Image.WF Image.Shaped exGray22; decide

theorem negLevel_eq {p : Nat} {M : Int} (hp : (p : Int) ≤ M) (hM : M ≤ 255) :
    toUint8 (Int.natAbs (M - p)) = (M - p).toNat := by
  have h := toUint8_of_range (v := ((Int.natAbs (M - p) : Nat) : Int)) (Int.ofNat_nonneg _)
    (by omega)
  omega

theorem thrLevel_eq (p thr : Nat) {M : Int} (hM0 : 0 ≤ M) (hM : M ≤ 255) :
    toUint8 ((if p ≥ thr then 1 else 0) * M) = if p ≥ thr then M.toNat else 0 := by
  split_ifs
  · have h := toUint8_of_range hM0 (show M < 256 by omega)
    rw [one_mul]; omega
  · rw [zero_mul]; rfl

theorem window_zero (img : Image) (x y : Int)
    (hx0 : 0 ≤ x) (hx : x < img.width) (hy0 : 0 ≤ y) (hy : y < img.height) :
    window img 0 0 x y = {(x, y)} := by
  have hv : ImageValidPos img x y = true := (validPos_iff _ _ _).2 ⟨⟨hx0, hx⟩, hy0, hy⟩
  simp only [window, sub_zero, add_zero, Finset.Icc_self, Finset.singleton_product_singleton]
  rw [Finset.filter_singleton, if_pos hv]

theorem searchFrom_congr {ρ : Type} (body body' : Nat → Option (Option ρ)) :
    ∀ (k i : Nat), (∀ t, i ≤ t → t < i + k → body t = body' t) →
      searchFrom body k i = searchFrom body' k i := by
  intro k
  induction k with
  | zero => intro i _; rfl
  | succ k ih =>
    intro i h
    simp only [searchFrom]
    rw [h i (le_refl i) (by omega), ih (i + 1) (fun t h1 h2 => h t (by omega) (by omega))]

theorem searchLoop2_congr {ρ : Type} (n m : Nat) (body body' : Nat → Nat → Option (Option ρ))
    (h : ∀ i, i < n → ∀ j, j < m → body i j = body' i j) :
    searchLoop n (fun i => searchLoop m (body i)) =
      searchLoop n (fun i => searchLoop m (body' i)) := by
  apply searchFrom_congr
  intro i _ hi
  exact searchFrom_congr _ _ m 0 (fun j _ hj => h i (by omega) j (by omega))

/-- On a candidate of the scan, the body of `ImageLocateSubImage` (comparison of the
first pixels, then the full match) gives what the full match alone gives. -/
theorem locate_body_eq (img1 img2 : Image) (h1 : img1.Shaped) (h2 : img2.Shaped)
    (hw : 0 < img2.width) (hh : 0 < img2.height) (i j : Nat)
    (hi : i < (ImageWidth img1 - ImageWidth img2).toNat)
    (hj : j < (ImageHeight img1 - ImageHeight img2).toNat) :
    ((ImageGetPixel img1 i j).bind fun a =>
      (ImageGetPixel img2 0 0).bind fun b =>
        if a = b then
          (ImageMatchSubImage img1 i j img2).bind fun m =>
            if m ≠ 0 then some (some ((1 : Int), (i : Int), (j : Int))) else some none
        else some none) =
    ((ImageMatchSubImage img1 i j img2).bind fun m =>
      if m ≠ 0 then some (some ((1 : Int), (i : Int), (j : Int))) else some none) := by
  simp only [ImageWidth, ImageHeight] at hi hj
  obtain ⟨a, ea⟩ := getPixel_some h1 (x := (i : Int)) (y := (j : Int))
    (by omega) (by omega) (by omega) (by omega)
  obtain ⟨b, eb⟩ := getPixel_some h2 (x := (0 : Int)) (y := (0 : Int))
    (by omega) (by omega) (by omega) (by omega)
  rcases match_spec img1 img2 h1 h2 i j (by omega) (by omega) (by omega) (by omega)
    (by omega) (by omega) with ⟨e, hall⟩ | ⟨e, _⟩
  · have hab := hall 0 0 (le_refl 0) hw (le_refl 0) hh
    rw [zero_add, zero_add, ea, eb] at hab
    have hab' : a = b := by cases hab; rfl
    simp [ea, eb, e, hab']
  · simp [ea, eb, e]

/-- The function `ImageRotate` on a square image. -/
theorem rotate_square_spec (img : Image) (hs : img.Shaped) (hm0 : 0 < img.maxval)
    (hm : img.maxval ≤ 255) (hsq : img.width = img.height) :
    ∃ r, ImageRotate img = some r ∧ r.Shaped ∧
      r.width = img.height ∧ r.height = img.width ∧ r.maxval = img.maxval ∧
      ∀ x y : Int, 0 ≤ x → x < img.width → 0 ≤ y → y < img.height →
        ∃ p, ImageGetPixel img (img.height - 1 - y) x = some p ∧
          ImageGetPixel r x y = some p := by
  have hnew := created_shaped img.height img.width img.maxval hs.2.1 hs.1
  obtain ⟨r, hrun, hsh, hdone, -⟩ := rectLoop_spec
    ⟨img.height, img.width, img.maxval, List.replicate (img.height * img.width).toNat 0⟩ hnew
    img.width.toNat img.height.toNat (fun i _ => (i : Int)) (fun _ j => (j : Int))
    (fun x y s =>
      (ImageGetPixel img (img.height - (y : Int) - 1) x).bind fun p => ImageSetPixel s x y p)
    (fun i j => (ImageGetPixel img (img.height - (j : Int) - 1) i).getD 0)
    (by intro i hi j hj; dsimp only; constructor <;> constructor <;> omega)
    (by intro i _ j _ i' _ j' _ h1 h2; dsimp only at h1 h2; constructor <;> omega)
    (by
      intro i hi j hj s _ _
      dsimp only
      obtain ⟨p, e⟩ := getPixel_some hs (x := img.height - (j : Int) - 1) (y := (i : Int))
        (by omega) (by omega) (by omega) (by omega)
      simp only [e, Option.some_bind, Option.getD_some])
  refine ⟨r, ?_, hsh.shaped hnew, hsh.1, hsh.2.1, hsh.2.2.1, ?_⟩
  · simp only [ImageRotate, ImageWidth, ImageHeight, ImageMaxval]
    rw [create_spec _ _ _ hs.2.1 hs.1 hm0 hm]
    exact hrun
  · intro x y hx0 hx hy0 hy
    obtain ⟨p, e⟩ := getPixel_some hs (x := img.height - 1 - y) (y := x)
      (by omega) (by omega) (by omega) (by omega)
    refine ⟨p, e, ?_⟩
    have := hdone x.toNat (by omega) y.toNat (by omega)
    have hx' : ((x.toNat : Nat) : Int) = x := Int.toNat_of_nonneg hx0
    have hy' : ((y.toNat : Nat) : Int) = y := Int.toNat_of_nonneg hy0
    simp only [hx', hy'] at this
    rw [show img.height - y - 1 = img.height - 1 - y by ring] at this
    rw [this, e]; rfl

theorem exOne11_WF : exOne11.WF := by
  unfold Image.WF Image.Shaped exOne11; decide

theorem exEmpty00_WF : exEmpty00.WF := by
  unfold Image.WF Image.Shaped exEmpty00; decide

theorem roundEven_nearest (r : ℚ) (z : ℤ) :
    |((roundEven r : ℤ) : ℚ) - r| ≤ |(z : ℚ) - r| := by
  have hf1 : ((⌊r⌋ : ℤ) : ℚ) ≤ r := Int.floor_le r
  have hf2 : r < ((⌊r⌋ : ℤ) : ℚ) + 1 := Int.lt_floor_add_one r
  have h1 : (z : ℚ) - r ≤ |(z : ℚ) - r| := le_abs_self _
  have h2 : r - (z : ℚ) ≤ |(z : ℚ) - r| := by
    have := neg_le_abs ((z : ℚ) - r); linarith
  have hz : (z : ℚ) ≤ ((⌊r⌋ : ℤ) : ℚ) ∨ ((⌊r⌋ : ℤ) : ℚ) + 1 ≤ (z : ℚ) := by
    rcases le_or_lt z ⌊r⌋ with h | h
    · exact Or.inl (by exact_mod_cast h)
    · exact Or.inr (by exact_mod_cast h)
  unfold roundEven
  split_ifs with c1 c2 c3
  · rw [abs_le]; rcases hz with h | h <;> constructor <;> linarith
  · push_cast; rw [abs_le]; rcases hz with h | h <;> constructor <;> linarith
  · have hd : r - ((⌊r⌋ : ℤ) : ℚ) = 1 / 2 := le_antisymm (not_lt.1 c2) (not_lt.1 c1)
    rw [abs_le]; rcases hz with h | h <;> constructor <;> linarith
  · have hd : r - ((⌊r⌋ : ℤ) : ℚ) = 1 / 2 := le_antisymm (not_lt.1 c2) (not_lt.1 c1)
    push_cast; rw [abs_le]; rcases hz with h | h <;> constructor <;> linarith

theorem ulp_pos (q : ℚ) : (0 : ℚ) < (2 : ℚ) ^ (binade q - 52) := zpow_pos (by norm_num) _

theorem two_zpow_binade_le {q : ℚ} (hq : q ≠ 0) (h : -1022 < binade q) :
    (2 : ℚ) ^ binade q ≤ |q| := by
  have hb : binade q = Int.log 2 |q| := by
    unfold binade at h ⊢
    omega
  rw [hb]
  have := Int.zpow_log_le_self (R := ℚ) (b := 2) (by norm_num) (abs_pos.2 hq)
  simpa using this

/-- The rounded value is at least as near to `q` as any point of the grid around `q`. -/
theorem roundD_grid (q : ℚ) (w : ℤ) :
    |roundD q - q| ≤ |(w : ℚ) * (2 : ℚ) ^ (binade q - 52) - q| := by
  have hu := ulp_pos q
  have e1 : roundD q - q =
      (((roundEven (q / (2 : ℚ) ^ (binade q - 52)) : ℤ) : ℚ) - q / (2 : ℚ) ^ (binade q - 52)) *
        (2 : ℚ) ^ (binade q - 52) := by
    unfold roundD; field_simp
  have e2 : (w : ℚ) * (2 : ℚ) ^ (binade q - 52) - q =
      ((w : ℚ) - q / (2 : ℚ) ^ (binade q - 52)) * (2 : ℚ) ^ (binade q - 52) := by
    field_simp
  rw [e1, e2, abs_mul, abs_mul]
  exact mul_le_mul_of_nonneg_right (roundEven_nearest _ w) (abs_nonneg _)

theorem roundD_zero : roundD 0 = 0 := by
  unfold roundD roundEven; simp

/-- Round to nearest: no binary64 number is nearer to `q` than `roundD q`. -/
theorem roundD_nearest (q d : ℚ)
    (hd : ∃ m e : Int, |m| < 2 ^ 53 ∧ -1074 ≤ e ∧ d = (m : ℚ) * (2 : ℚ) ^ e) :
    |roundD q - q| ≤ |d - q| := by
  obtain ⟨m, e, hm, he, rfl⟩ := hd
  by_cases hq : q = 0
  · subst hq; rw [roundD_zero]; simp
  by_cases hge : binade q - 52 ≤ e
  · -- `d` lies on the grid around `q`
    have hk : e = ((e - (binade q - 52)).toNat : ℤ) + (binade q - 52) := by omega
    have hpow : (2 : ℚ) ^ e =
        (2 : ℚ) ^ (e - (binade q - 52)).toNat * (2 : ℚ) ^ (binade q - 52) := by
      conv_lhs => rw [hk]
      rw [zpow_add₀ (by norm_num : (2 : ℚ) ≠ 0), zpow_natCast]
    have := roundD_grid q (m * 2 ^ (e - (binade q - 52)).toNat)
    rw [hpow, ← mul_assoc]
    push_cast at this
    exact this
  · -- `d` is below the binade of `q`
    have hb : -1022 < binade q := by omega
    have h2 := two_zpow_binade_le hq hb
    have hmq : |(m : ℚ)| < (2 : ℚ) ^ (53 : ℤ) := by
      have : ((|m| : ℤ) : ℚ) < ((2 ^ 53 : ℤ) : ℚ) := by exact_mod_cast hm
      rw [Int.cast_abs] at this
      rw [show (2 : ℚ) ^ (53 : ℤ) = ((2 ^ 53 : ℤ) : ℚ) by norm_num]
      exact this
    have hpe : (0 : ℚ) < (2 : ℚ) ^ e := zpow_pos (by norm_num) _
    have hd : |(m : ℚ) * (2 : ℚ) ^ e| < (2 : ℚ) ^ binade q := by
      rw [abs_mul, abs_of_pos hpe]
      calc |(m : ℚ)| * (2 : ℚ) ^ e < (2 : ℚ) ^ (53 : ℤ) * (2 : ℚ) ^ e :=
            mul_lt_mul_of_pos_right hmq hpe
        _ = (2 : ℚ) ^ (53 + e) := by rw [zpow_add₀ (by norm_num : (2 : ℚ) ≠ 0)]
        _ ≤ (2 : ℚ) ^ binade q := zpow_le_zpow_right₀ (by norm_num) (by omega)
    have hE : (4503599627370496 : ℚ) * (2 : ℚ) ^ (binade q - 52) = (2 : ℚ) ^ binade q := by
      rw [show (4503599627370496 : ℚ) = (2 : ℚ) ^ (52 : ℤ) by norm_num,
        ← zpow_add₀ (by norm_num : (2 : ℚ) ≠ 0)]
      congr 1; omega
    rcases lt_or_gt_of_ne hq with hneg | hpos
    · have hg := roundD_grid q (-(2 ^ 52))
      push_cast at hg
      rw [neg_mul, hE] at hg
      rw [abs_of_neg hneg] at h2
      have h3 : |(-(2 : ℚ) ^ binade q) - q| = -q - (2 : ℚ) ^ binade q := by
        rw [abs_of_nonneg (by linarith)]; ring
      have h4 : -q - |(m : ℚ) * (2 : ℚ) ^ e| ≤ |(m : ℚ) * (2 : ℚ) ^ e - q| := by
        have a1 := le_abs_self ((m : ℚ) * (2 : ℚ) ^ e - q)
        have a2 := neg_abs_le ((m : ℚ) * (2 : ℚ) ^ e)
        linarith
      rw [h3] at hg
      linarith
    · have hg := roundD_grid q (2 ^ 52)
      push_cast at hg
      rw [hE] at hg
      rw [abs_of_pos hpos] at h2
      have h3 : |(2 : ℚ) ^ binade q - q| = q - (2 : ℚ) ^ binade q := by
        rw [abs_of_nonpos (by linarith)]; ring
      have h4 : q - |(m : ℚ) * (2 : ℚ) ^ e| ≤ |(m : ℚ) * (2 : ℚ) ^ e - q| := by
        have a1 := neg_le_abs ((m : ℚ) * (2 : ℚ) ^ e - q)
        have a2 := le_abs_self ((m : ℚ) * (2 : ℚ) ^ e)
        linarith
      rw [h3] at hg
      linarith

theorem roundD_exact {d : ℚ} (hd : IsDouble d) : roundD d = d := by
  have := roundD_nearest d d hd.1
  rw [sub_self, abs_zero] at this
  have h0 := abs_nonneg (roundD d - d)
  have : roundD d - d = 0 := abs_eq_zero.1 (le_antisymm this h0)
  linarith

theorem roundD_le {q c : ℚ} (hc : IsDouble c) (h : q ≤ c) : roundD q ≤ c := by
  by_contra hlt
  push_neg at hlt
  have := roundD_nearest q c hc.1
  rw [abs_of_pos (by linarith), abs_of_nonneg (by linarith)] at this
  linarith

theorem le_roundD {q c : ℚ} (hc : IsDouble c) (h : c ≤ q) : c ≤ roundD q := by
  by_contra hlt
  push_neg at hlt
  have := roundD_nearest q c hc.1
  rw [abs_of_neg (by linarith), abs_of_nonpos (by linarith)] at this
  linarith

theorem fl_exact {d : ℚ} (hd : IsDouble d) : fl d = some d := by
  unfold fl
  rw [roundD_exact hd, if_pos hd.2]

/-- Rounding keeps a value between two binary64 numbers that enclose it. -/
theorem fl_between {q lo hi : ℚ} (hlo : IsDouble lo) (hhi : IsDouble hi) (h1 : lo ≤ q)
    (h2 : q ≤ hi) : ∃ r, fl q = some r ∧ lo ≤ r ∧ r ≤ hi := by
  have a1 := le_roundD hlo h1
  have a2 := roundD_le hhi h2
  refine ⟨roundD q, ?_, a1, a2⟩
  unfold fl
  rw [if_pos]
  have b1 := abs_lt.1 hlo.2
  have b2 := abs_lt.1 hhi.2
  rw [abs_lt]
  constructor <;> linarith [b1.1, b2.2]

/-- The number `m / 2^k` is a binary64 number when `|m| < 2^53` and `k ≤ 1074`. -/
theorem isDouble_div_two_pow (m : ℤ) (k : ℕ) (hm : |m| < 2 ^ 53) (hk : k ≤ 1074) :
    IsDouble ((m : ℚ) / (2 : ℚ) ^ k) := by
  have hmq : |(m : ℚ)| < (2 : ℚ) ^ (53 : ℕ) := by
    have : ((|m| : ℤ) : ℚ) < ((2 ^ 53 : ℤ) : ℚ) := by exact_mod_cast hm
    rw [Int.cast_abs] at this
    simpa using this
  constructor
  · refine ⟨m, -(k : ℤ), hm, by omega, ?_⟩
    rw [zpow_neg, zpow_natCast, div_eq_mul_inv]
  · have hp : (1 : ℚ) ≤ (2 : ℚ) ^ k := one_le_pow₀ (by norm_num)
    rw [abs_div, abs_of_pos (by linarith : (0 : ℚ) < (2 : ℚ) ^ k)]
    calc |(m : ℚ)| / (2 : ℚ) ^ k ≤ |(m : ℚ)| := div_le_self (abs_nonneg _) hp
      _ < (2 : ℚ) ^ (53 : ℕ) := hmq
      _ ≤ (2 : ℚ) ^ (1024 : ℕ) := pow_le_pow_right₀ (by norm_num) (by norm_num)

theorem isDouble_int (m : ℤ) (hm : |m| < 2 ^ 53) : IsDouble (m : ℚ) := by
  have := isDouble_div_two_pow m 0 hm (by norm_num)
  simpa using this

theorem wrapInt_of_range {v : Int} (h1 : -2147483648 ≤ v) (h2 : v ≤ 2147483647) :
    wrapInt v = v := by
  unfold wrapInt; omega

theorem wrapInt_range (v : Int) : -2147483648 ≤ wrapInt v ∧ wrapInt v ≤ 2147483647 := by
  unfold wrapInt; omega

/-- A rectangle that is inside an image with `int` dimensions passes the test of
`ImageValidRect`. -/
theorem validRect_of_spec {img : Image} {x y w h : Int} (hW : img.width ≤ 2147483647)
    (hH : img.height ≤ 2147483647) (hr : ValidRect img x y w h) :
    ImageValidRect img x y w h = true := by
  obtain ⟨hw, hh, ⟨hx0, hx⟩, ⟨hy0, hy⟩, hxw, hyh⟩ := hr
  have e1 : wrapInt (x + w) = x + w := wrapInt_of_range (by omega) (by omega)
  have e2 : wrapInt (y + h) = y + h := wrapInt_of_range (by omega) (by omega)
  have hn : ¬ (w ≤ 0 ∨ h ≤ 0) := by omega
  simp [ImageValidRect, hn, e1, e2, validPos_iff, ImageWidth, ImageHeight, hx0, hx, hy0, hy,
    hxw, hyh]

theorem validRect_iff_of_noOverflow (img : Image) (x y w h : Int) (h1 : x + w ≤ 2147483647)
    (h2 : y + h ≤ 2147483647) : ImageValidRect img x y w h = true ↔ ValidRect img x y w h := by
  unfold ImageValidRect ValidRect
  split
  · rename_i hn; simp; omega
  · rename_i hn
    simp only [Bool.and_eq_true, decide_eq_true_eq, validPos_iff, ImageWidth, ImageHeight]
    constructor
    · rintro ⟨⟨⟨⟨hx0, hx⟩, hy0, hy⟩, hxw⟩, hyh⟩
      rw [wrapInt_of_range (by omega) h1] at hxw
      rw [wrapInt_of_range (by omega) h2] at hyh
      exact ⟨by omega, by omega, ⟨hx0, hx⟩, ⟨hy0, hy⟩, hxw, hyh⟩
    · rintro ⟨hw, hh, ⟨hx0, hx⟩, ⟨hy0, hy⟩, hxw, hyh⟩
      rw [wrapInt_of_range (by omega) h1, wrapInt_of_range (by omega) h2]
      exact ⟨⟨⟨⟨hx0, hx⟩, hy0, hy⟩, hxw⟩, hyh⟩

theorem validRect_nonpos (img : Image) (x y w h : Int) (hwh : w ≤ 0 ∨ h ≤ 0) :
    ImageValidRect img x y w h = false := by
  unfold ImageValidRect
  rw [if_pos hwh]

theorem truncQ_intCast (n : ℤ) : truncQ (n : ℚ) = n := by
  unfold truncQ
  split_ifs <;> simp

theorem toInt32_intCast {n : ℤ} (h1 : -2147483648 ≤ n) (h2 : n ≤ 2147483647) :
    toInt32 (some (n : ℚ)) = n := by
  simp only [toInt32, truncQ_intCast, INT_MIN, INT_MAX]
  rw [if_pos ⟨h1, h2⟩]

theorem isDouble_nat {p : ℕ} (hp : p < 2147483648) : IsDouble (p : ℚ) := by
  have := isDouble_int (p : ℤ) (by rw [abs_of_nonneg (Int.ofNat_nonneg p)]; omega)
  simpa using this

theorem isDouble_nat_add_half {p : ℕ} (hp : p < 2147483648) :
    IsDouble ((p : ℚ) + 1 / 2) := by
  have := isDouble_div_two_pow (2 * (p : ℤ) + 1) 1
    (by rw [abs_of_nonneg (by omega)]; omega) (by norm_num)
  have e : (((2 * (p : ℤ) + 1 : ℤ) : ℚ)) / (2 : ℚ) ^ 1 = (p : ℚ) + 1 / 2 := by
    push_cast; ring
  rwa [e] at this

theorem toInt32_nat_add_half {p : ℕ} (hp : p < 2147483648) :
    toInt32 (some ((p : ℚ) + 1 / 2)) = (p : ℤ) := by
  have h0 : (0 : ℚ) ≤ (p : ℚ) := Nat.cast_nonneg p
  have ht : truncQ ((p : ℚ) + 1 / 2) = (p : ℤ) := by
    rw [truncQ_of_nonneg (by linarith), Int.floor_eq_iff]
    push_cast
    constructor <;> linarith
  simp only [toInt32, ht, INT_MIN, INT_MAX]
  rw [if_pos ⟨by omega, by omega⟩]

/-- With `alpha = 1` the `double` computation of `ImageBlend` is exact and gives the
source pixel. -/
theorem blendInt_one (p2 p1 : ℕ) (hp : p2 < 2147483648) : blendInt p2 p1 1 = (p2 : ℤ) := by
  have f1 : fl 1 = some 1 := by
    have := fl_exact (isDouble_int 1 (by norm_num)); simpa using this
  have f0 : fl 0 = some 0 := by
    have := fl_exact (isDouble_int 0 (by norm_num)); simpa using this
  have fp : fl (p2 : ℚ) = some (p2 : ℚ) := fl_exact (isDouble_nat hp)
  have fh : fl ((p2 : ℚ) + 1 / 2) = some ((p2 : ℚ) + 1 / 2) :=
    fl_exact (isDouble_nat_add_half hp)
  unfold blendInt
  simp only [dadd, dsub, dmul, f1, Option.some_bind, mul_one, sub_self, fp, f0, mul_zero,
    add_zero, fh]
  exact toInt32_nat_add_half hp

theorem blendLevel_clamp (p2 p1 : Nat) (alpha : ℚ) {M : Int} (hM0 : 0 ≤ M) (hM : M ≤ 255) :
    ((blendLevel p2 p1 alpha M : Nat) : Int) = clamp (blendInt p2 p1 alpha) 0 M := by
  unfold blendLevel clamp
  split_ifs with h1 h2
  · rw [toUint8_of_range (le_refl 0) (by norm_num)]; omega
  · rw [toUint8_of_range hM0 (by omega)]; omega
  · rw [toUint8_of_range (by omega) (by omega)]; omega

theorem blendLevel_one (p2 p1 : Nat) {M : Int} (hp : p2 < 2147483648) (hM0 : 0 ≤ M)
    (hM : M ≤ 255) : ((blendLevel p2 p1 1 M : Nat) : Int) = min (p2 : Int) M := by
  rw [blendLevel_clamp p2 p1 1 hM0 hM, blendInt_one p2 p1 hp]
  unfold clamp
  omega

theorem blend_spec (dst src : Image) (x y : Int) (alpha : ℚ) (hd : dst.Shaped)
    (hsrc : src.Shaped) (hW : dst.width ≤ 2147483647) (hH : dst.height ≤ 2147483647)
    (hrect : ValidRect dst x y src.width src.height) :
    ∃ dst', ImageBlend dst x y src alpha = some dst' ∧ SameShape dst' dst ∧
      (∀ i j : Int, 0 ≤ i → i < src.width → 0 ≤ j → j < src.height →
        ∃ p2 p1, ImageGetPixel src i j = some p2 ∧ ImageGetPixel dst (x + i) (y + j) = some p1 ∧
          ImageGetPixel dst' (x + i) (y + j) = some (blendLevel p2 p1 alpha dst.maxval)) ∧
      (∀ u v : Int, ¬ (x ≤ u ∧ u < x + src.width ∧ y ≤ v ∧ v < y + src.height) →
        ImageGetPixel dst' u v = ImageGetPixel dst u v) := by
  have hcode := validRect_of_spec hW hH hrect
  obtain ⟨hw, hh, ⟨hx0, hx⟩, ⟨hy0, hy⟩, hxw, hyh⟩ := hrect
  obtain ⟨s', hrun, hsh, hdone, hrest⟩ := rectLoop_spec dst hd src.width.toNat src.height.toNat
    (fun i _ => (i : Int) + x) (fun _ j => (j : Int) + y)
    (fun i j s =>
      (ImageGetPixel src i j).bind fun p2 =>
        (ImageGetPixel s ((i : Int) + x) ((j : Int) + y)).bind fun p1 =>
          ImageSetPixel s ((i : Int) + x) ((j : Int) + y)
            (toUint8
              (if blendInt p2 p1 alpha < 0 then 0
               else if blendInt p2 p1 alpha > ImageMaxval s then ImageMaxval s
               else blendInt p2 p1 alpha)))
    (fun i j => blendLevel ((ImageGetPixel src i j).getD 0)
      ((ImageGetPixel dst ((i : Int) + x) ((j : Int) + y)).getD 0) alpha dst.maxval)
    (by intro i hi j hj; dsimp only; constructor <;> constructor <;> omega)
    (by intro i _ j _ i' _ j' _ h1 h2; dsimp only at h1 h2; constructor <;> omega)
    (by
      intro i hi j hj s hsh hfresh
      dsimp only at hfresh ⊢
      obtain ⟨p2, e2⟩ := getPixel_some hsrc (x := (i : Int)) (y := (j : Int))
        (by omega) (by omega) (by omega) (by omega)
      obtain ⟨p1, e1⟩ := getPixel_some hd (x := (i : Int) + x) (y := (j : Int) + y)
        (by omega) (by omega) (by omega) (by omega)
      simp only [hfresh, e1, e2, Option.some_bind, Option.getD_some, blendLevel, ImageMaxval,
        hsh.2.2.1])
  refine ⟨s', ?_, hsh, ?_, ?_⟩
  · simp only [ImageBlend, hcode, if_true, ImageWidth, ImageHeight]
    exact hrun
  · intro i j hi0 hi hj0 hj
    obtain ⟨p2, e2⟩ := getPixel_some hsrc hi0 hi hj0 hj
    obtain ⟨p1, e1⟩ := getPixel_some hd (x := x + i) (y := y + j)
      (by omega) (by omega) (by omega) (by omega)
    refine ⟨p2, p1, e2, e1, ?_⟩
    have := hdone i.toNat (by omega) j.toNat (by omega)
    have hi' : ((i.toNat : Nat) : Int) = i := Int.toNat_of_nonneg hi0
    have hj' : ((j.toNat : Nat) : Int) = j := Int.toNat_of_nonneg hj0
    simp only [hi', hj'] at this
    rw [add_comm i x, add_comm j y] at this
    rw [this, e2, e1]; rfl
  · intro u v huv
    apply hrest
    intro i hi j hj hpos
    apply huv
    omega

theorem paste_spec (dst src : Image) (x y : Int) (hd : dst.Shaped) (hsrc : src.Shaped)
    (hW : dst.width ≤ 2147483647) (hH : dst.height ≤ 2147483647)
    (hrect : ValidRect dst x y src.width src.height) :
    ∃ dst', ImagePaste dst x y src = some dst' ∧ SameShape dst' dst ∧
      (∀ i j : Int, 0 ≤ i → i < src.width → 0 ≤ j → j < src.height →
        ∃ p, ImageGetPixel src i j = some p ∧ ImageGetPixel dst' (x + i) (y + j) = some p) ∧
      (∀ u v : Int, ¬ (x ≤ u ∧ u < x + src.width ∧ y ≤ v ∧ v < y + src.height) →
        ImageGetPixel dst' u v = ImageGetPixel dst u v) := by
  have hcode := validRect_of_spec hW hH hrect
  obtain ⟨hw, hh, ⟨hx0, hx⟩, ⟨hy0, hy⟩, hxw, hyh⟩ := hrect
  obtain ⟨s', hrun, hsh, hdone, hrest⟩ := rectLoop_spec dst hd src.width.toNat src.height.toNat
    (fun i _ => (i : Int) + x) (fun _ j => (j : Int) + y)
    (fun i j s =>
      (ImageGetPixel src i j).bind fun p =>
        ImageSetPixel s ((i : Int) + x) ((j : Int) + y) p)
    (fun i j => (ImageGetPixel src i j).getD 0)
    (by intro i hi j hj; dsimp only; constructor <;> constructor <;> omega)
    (by intro i _ j _ i' _ j' _ h1 h2; dsimp only at h1 h2; constructor <;> omega)
    (by
      intro i hi j hj s _ _
      dsimp only
      obtain ⟨p, e⟩ := getPixel_some hsrc (x := (i : Int)) (y := (j : Int))
        (by omega) (by omega) (by omega) (by omega)
      simp only [e, Option.some_bind, Option.getD_some])
  refine ⟨s', ?_, hsh, ?_, ?_⟩
  · simp only [ImagePaste, ImageWidth, ImageHeight, hcode, if_true]
    exact hrun
  · intro i j hi0 hi hj0 hj
    obtain ⟨p, e⟩ := getPixel_some hsrc hi0 hi hj0 hj
    refine ⟨p, e, ?_⟩
    have := hdone i.toNat (by omega) j.toNat (by omega)
    have hi' : ((i.toNat : Nat) : Int) = i := Int.toNat_of_nonneg hi0
    have hj' : ((j.toNat : Nat) : Int) = j := Int.toNat_of_nonneg hj0
    simp only [hi', hj'] at this
    rw [add_comm i x, add_comm j y] at this
    rw [this, e]; rfl
  · intro u v huv
    apply hrest
    intro i hi j hj hpos
    apply huv
    omega

theorem intLoopFrom_eq_forLoopFrom {σ : Type} (hi base : Int) (body : Int → σ → Option σ)
    (hhi : hi < 2147483647) :
    ∀ (n fuel i : Nat) (s : σ), -2147483648 ≤ base + (i : Int) →
      base + (i : Int) + (n : Int) = hi + 1 → n < fuel →
      intLoopFrom hi body fuel (base + (i : Int)) s =
        forLoopFrom (fun t s => body (base + (t : Int)) s) n i s := by
  intro n
  induction n with
  | zero =>
    intro fuel i s _ h2 h3
    obtain ⟨k, rfl⟩ : ∃ k, fuel = k + 1 := ⟨fuel - 1, by omega⟩
    have : ¬ base + (i : Int) ≤ hi := by push_cast at h2; omega
    simp [intLoopFrom, forLoopFrom, this]
  | succ n ih =>
    intro fuel i s h1 h2 h3
    obtain ⟨k, rfl⟩ : ∃ k, fuel = k + 1 := ⟨fuel - 1, by omega⟩
    have hle : base + (i : Int) ≤ hi := by push_cast at h2; omega
    have hw : wrapInt (base + (i : Int) + 1) = base + ((i + 1 : Nat) : Int) := by
      rw [wrapInt_of_range (by omega) (by omega)]; push_cast; ring
    simp only [intLoopFrom, forLoopFrom, if_pos hle, hw]
    congr 1
    funext s'
    exact ih k (i + 1) s' (by push_cast; omega) (by push_cast at h2 ⊢; omega) (by omega)

theorem intLoop_eq_forLoop {σ : Type} (lo hi : Int) (body : Int → σ → Option σ) (s : σ)
    (hlo : -2147483648 ≤ lo) (hle : lo ≤ hi + 1) (hhi : hi < 2147483647) :
    intLoop lo hi body s =
      forLoop (hi - lo + 1).toNat (fun t s => body (lo + (t : Int)) s) s := by
  have := intLoopFrom_eq_forLoopFrom hi lo body hhi (hi - lo + 1).toNat 4294967297 0 s
    (by simpa using hlo) (by push_cast; omega) (by omega)
  simpa [intLoop, forLoop] using this

theorem intLoopFrom_diverges {σ : Type} (body : Int → σ → Option σ) :
    ∀ (fuel : Nat) (j : Int) (s : σ), j ≤ 2147483647 →
      intLoopFrom 2147483647 body fuel j s = none := by
  intro fuel
  induction fuel with
  | zero => intro j s _; rfl
  | succ k ih =>
    intro j s hj
    simp only [intLoopFrom, if_pos hj]
    cases body j s with
    | none => rfl
    | some s' =>
      simp only [Option.some_bind]
      exact ih _ _ (by have := wrapInt_range (j + 1); omega)

theorem wrapInt_wrapInt_add (a b : Int) : wrapInt (wrapInt a + b) = wrapInt (a + b) := by
  unfold wrapInt; omega

theorem wrapInt_idem (a : Int) : wrapInt (wrapInt a) = wrapInt a := by
  unfold wrapInt; omega

theorem forLoopFrom_acc_wrap (g : Nat → Int × Int)
    (body : Nat → Int × Int → Option (Int × Int)) (N : Nat)
    (hbody : ∀ t acc, t < N → wrapInt acc.1 = acc.1 → wrapInt acc.2 = acc.2 →
      body t acc = some (wrapInt (acc.1 + (g t).1), wrapInt (acc.2 + (g t).2))) :
    ∀ (k i : Nat) (acc : Int × Int), i + k ≤ N → wrapInt acc.1 = acc.1 →
      wrapInt acc.2 = acc.2 →
      forLoopFrom body k i acc =
        some (wrapInt (acc.1 + ∑ t ∈ Finset.range k, (g (i + t)).1),
          wrapInt (acc.2 + ∑ t ∈ Finset.range k, (g (i + t)).2)) := by
  intro k
  induction k with
  | zero => intro i acc _ h1 h2; simp [forLoopFrom, h1, h2]
  | succ k ih =>
    intro i acc hN h1 h2
    have e : ∀ t, i + 1 + t = i + (t + 1) := fun t => by omega
    simp only [forLoopFrom]
    rw [hbody i acc (by omega) h1 h2]
    simp only [Option.some_bind]
    rw [ih (i + 1) _ (by omega) (wrapInt_idem _) (wrapInt_idem _)]
    simp only [Finset.sum_range_succ', e, Nat.add_zero, wrapInt_wrapInt_add]
    congr 3 <;> ring

theorem forLoop_acc_wrap (g : Nat → Int × Int)
    (body : Nat → Int × Int → Option (Int × Int)) (k : Nat)
    (hbody : ∀ t acc, t < k → wrapInt acc.1 = acc.1 → wrapInt acc.2 = acc.2 →
      body t acc = some (wrapInt (acc.1 + (g t).1), wrapInt (acc.2 + (g t).2)))
    (acc : Int × Int) (h1 : wrapInt acc.1 = acc.1) (h2 : wrapInt acc.2 = acc.2) :
    forLoop k body acc =
      some (wrapInt (acc.1 + ∑ t ∈ Finset.range k, (g t).1),
        wrapInt (acc.2 + ∑ t ∈ Finset.range k, (g t).2)) := by
  have := forLoopFrom_acc_wrap g body k hbody k 0 acc (by omega) h1 h2
  simpa [forLoop] using this

theorem window_sums (img : Image) (dx dy x y : Int) :
    ∑ t ∈ Finset.range (2 * dy + 1).toNat, ∑ u ∈ Finset.Icc (x - dx) (x + dx),
        (if ImageValidPos img u (-dy + (t : Int) + y) = true
          then pixelAt img u (-dy + (t : Int) + y) else 0) = windowSum img dx dy x y ∧
    ∑ t ∈ Finset.range (2 * dy + 1).toNat, ∑ u ∈ Finset.Icc (x - dx) (x + dx),
        (if ImageValidPos img u (-dy + (t : Int) + y) = true then (1 : Int) else 0) =
      windowCount img dx dy x y := by
  rw [sum_range_eq_sum_Icc (fun v => ∑ u ∈ Finset.Icc (x - dx) (x + dx),
        (if ImageValidPos img u v = true then pixelAt img u v else 0)) y dy,
    sum_range_eq_sum_Icc (fun v => ∑ u ∈ Finset.Icc (x - dx) (x + dx),
        (if ImageValidPos img u v = true then (1 : Int) else 0)) y dy]
  simp only [windowSum, windowCount, window]
  rw [Finset.sum_filter, Finset.card_filter, Finset.sum_product_right]
  refine ⟨rfl, ?_⟩
  push_cast
  rw [Finset.sum_product_right]

/-- The two `int` accumulators of the blur window, when no loop counter and no
coordinate leaves the `int` range: the sum and the count of the valid window
positions, each reduced to 32 bits. -/
theorem blurWindow_eq_wrap (img : Image) (hs : img.Shaped) (dx dy x y : Int)
    (hdx : 0 ≤ dx) (hdy : 0 ≤ dy)
    (hx0 : 0 ≤ x) (hx : x < img.width) (hy0 : 0 ≤ y) (hy : y < img.height)
    (hbx : dx + img.width ≤ 2147483647) (hby : dy + img.height ≤ 2147483647) :
    blurWindow img dx dy x y =
      some (wrapInt (windowSum img dx dy x y), wrapInt (windowCount img dx dy x y)) := by
  obtain ⟨hS, hC⟩ := window_sums img dx dy x y
  have hinner : ∀ (a : Nat) (acc : Int × Int), a < (2 * dy + 1).toNat →
      wrapInt acc.1 = acc.1 → wrapInt acc.2 = acc.2 →
      intLoop (wrapInt (-dx)) dx
        (fun j (acc : Int × Int) =>
          if !(ImageValidPos img (wrapInt (j + x)) (wrapInt (-dy + (a : Int) + y))) then some acc
          else (ImageGetPixel img (wrapInt (j + x)) (wrapInt (-dy + (a : Int) + y))).bind
            fun p => some (wrapInt (acc.1 + p), wrapInt (acc.2 + 1))) acc =
      some (wrapInt (acc.1 + ∑ u ∈ Finset.Icc (x - dx) (x + dx),
              (if ImageValidPos img u (-dy + a + y) = true then pixelAt img u (-dy + a + y) else 0)),
            wrapInt (acc.2 + ∑ u ∈ Finset.Icc (x - dx) (x + dx),
              (if ImageValidPos img u (-dy + a + y) = true then 1 else 0))) := by
    intro a acc ha h1 h2
    have hwy : wrapInt (-dy + (a : Int) + y) = -dy + (a : Int) + y :=
      wrapInt_of_range (by omega) (by omega)
    rw [wrapInt_of_range (by omega : -2147483648 ≤ -dx) (by omega), hwy,
      intLoop_eq_forLoop _ _ _ _ (by omega) (by omega) (by omega)]
    have en : (dx - -dx + 1).toNat = (2 * dx + 1).toNat := by congr 1; ring
    rw [en, ← sum_range_eq_sum_Icc (fun u =>
          if ImageValidPos img u (-dy + a + y) = true then pixelAt img u (-dy + a + y) else 0)
          x dx,
      ← sum_range_eq_sum_Icc (fun u =>
          if ImageValidPos img u (-dy + a + y) = true then (1 : Int) else 0) x dx]
    rw [forLoop_acc_wrap (fun b =>
      (if ImageValidPos img (-dx + (b : Int) + x) (-dy + a + y) = true
        then pixelAt img (-dx + (b : Int) + x) (-dy + a + y) else 0,
       if ImageValidPos img (-dx + (b : Int) + x) (-dy + a + y) = true then 1 else 0))
      _ _ _ acc h1 h2]
    intro b acc hb a1 a2
    dsimp only
    rw [wrapInt_of_range (by omega : -2147483648 ≤ -dx + (b : Int) + x) (by omega)]
    by_cases hv : ImageValidPos img (-dx + (b : Int) + x) (-dy + a + y) = true
    · obtain ⟨⟨hx0', hx'⟩, hy0', hy'⟩ := (validPos_iff _ _ _).1 hv
      obtain ⟨p, e⟩ := getPixel_some hs hx0' hx' hy0' hy'
      simp only [hv, Bool.not_true, Bool.false_eq_true, if_false, e, Option.some_bind,
        if_true, pixelAt, Option.getD_some]
    · simp [hv, a1, a2]
  unfold blurWindow
  rw [wrapInt_of_range (by omega : -2147483648 ≤ -dy) (by omega),
    intLoop_eq_forLoop _ _ _ _ (by omega) (by omega) (by omega)]
  have en : (dy - -dy + 1).toNat = (2 * dy + 1).toNat := by congr 1; ring
  rw [en]
  rw [forLoop_acc_wrap (fun a =>
      (∑ u ∈ Finset.Icc (x - dx) (x + dx),
          (if ImageValidPos img u (-dy + (a : Int) + y) = true
            then pixelAt img u (-dy + (a : Int) + y) else 0),
       ∑ u ∈ Finset.Icc (x - dx) (x + dx),
          (if ImageValidPos img u (-dy + (a : Int) + y) = true then 1 else 0)))
    _ _ (fun a acc ha => hinner a acc ha) (0, 0) (by decide) (by decide)]
  dsimp only
  rw [hS, hC, zero_add, zero_add]

/-- A window loop whose bound `dx` is `INT_MAX` never ends. -/
theorem blurWindow_dx_max (img : Image) (dy x y : Int) (hdy : 0 ≤ dy)
    (hdy' : dy ≤ 2147483647) : blurWindow img 2147483647 dy x y = none := by
  unfold blurWindow intLoop
  have hlo : wrapInt (-dy) ≤ dy := by
    rw [wrapInt_of_range (by omega) (by omega)]; omega
  show intLoopFrom dy _ (4294967296 + 1) _ _ = none
  rw [intLoopFrom, if_pos hlo, intLoopFrom_diverges _ _ _ _ (by decide)]
  rfl

theorem mean_round {S n B : Int} (hS : 0 ≤ S) (hn : 0 < n) (hB : S ≤ B * n) :
    truncQ ((S : ℚ) / (n : ℚ) + 1 / 2) = ⌊(S : ℚ) / (n : ℚ) + 1 / 2⌋ ∧
      0 ≤ ⌊(S : ℚ) / (n : ℚ) + 1 / 2⌋ ∧ ⌊(S : ℚ) / (n : ℚ) + 1 / 2⌋ ≤ B := by
  have hnq : (0 : ℚ) < n := by exact_mod_cast hn
  have hSq : (0 : ℚ) ≤ S := by exact_mod_cast hS
  have hq0 : (0 : ℚ) ≤ (S : ℚ) / (n : ℚ) := div_nonneg hSq hnq.le
  have hqB : (S : ℚ) / (n : ℚ) ≤ B := by
    rw [div_le_iff₀ hnq]; exact_mod_cast hB
  refine ⟨truncQ_of_nonneg (by linarith), Int.floor_nonneg.2 (by linarith), ?_⟩
  have : ⌊(S : ℚ) / (n : ℚ) + 1 / 2⌋ < B + 1 := by
    rw [Int.floor_lt]; push_cast; linarith
  omega

/-- The mean of the blur, computed in binary64 from an `int` sum and an `int` count of
at most `255` per element, converts to the exact mean rounded half up. -/
theorem mean_double {S n : Int} (hS : 0 ≤ S) (hn : 0 < n) (hn' : n ≤ 2147483647)
    (hB : S ≤ 255 * n) :
    toInt32 (dadd (ddiv (S : ℚ) (n : ℚ)) (some (1 / 2))) = ⌊(S : ℚ) / (n : ℚ) + 1 / 2⌋ := by
  obtain ⟨-, hk0, hk255⟩ := mean_round hS hn hB
  have hnq : (0 : ℚ) < n := by exact_mod_cast hn
  have hSq : (0 : ℚ) ≤ S := by exact_mod_cast hS
  have hq0 : (0 : ℚ) ≤ (S : ℚ) / (n : ℚ) := div_nonneg hSq hnq.le
  have hk1 : ((⌊(S : ℚ) / (n : ℚ) + 1 / 2⌋ : Int) : ℚ) ≤ (S : ℚ) / (n : ℚ) + 1 / 2 :=
    Int.floor_le _
  have hk2 : (S : ℚ) / (n : ℚ) + 1 / 2 < ((⌊(S : ℚ) / (n : ℚ) + 1 / 2⌋ : Int) : ℚ) + 1 :=
    Int.lt_floor_add_one _
  generalize ⌊(S : ℚ) / (n : ℚ) + 1 / 2⌋ = k at hk0 hk255 hk1 hk2 ⊢
  -- the quotient stays a representable distance below the next half-integer
  have hlt : (S : ℚ) < ((k : ℚ) + 1 / 2) * n := by
    rw [← div_lt_iff₀ hnq]; linarith
  have hgapZ : 2 * S + 1 ≤ (2 * k + 1) * n := by
    have : ((2 * S : Int) : ℚ) < (((2 * k + 1) * n : Int) : ℚ) := by
      push_cast; linarith
    have := Int.cast_lt.1 this
    omega
  have hgap : (2 : ℚ) * S + 1 ≤ (2 * k + 1) * n := by exact_mod_cast hgapZ
  have hnq' : (n : ℚ) ≤ 2147483647 := by exact_mod_cast hn'
  have hqc : (S : ℚ) / (n : ℚ) ≤ (k : ℚ) + 1 / 2 - 1 / 4294967296 := by
    rw [div_le_iff₀ hnq]
    have e : ((k : ℚ) + 1 / 2 - 1 / 4294967296) * n =
        ((2 * k + 1) * n) / 2 - (n : ℚ) / 4294967296 := by ring
    rw [e]
    linarith
  have hc : IsDouble ((k : ℚ) + 1 / 2 - 1 / 4294967296) := by
    have := isDouble_div_two_pow ((2 * k + 1) * 2147483648 - 1) 32
      (by rw [abs_lt]; constructor <;> omega) (by norm_num)
    have e : (((2 * k + 1) * 2147483648 - 1 : Int) : ℚ) / (2 : ℚ) ^ 32 =
        (k : ℚ) + 1 / 2 - 1 / 4294967296 := by push_cast; ring
    rwa [e] at this
  have hc' : IsDouble ((k : ℚ) + 1 - 1 / 4294967296) := by
    have := isDouble_div_two_pow ((k + 1) * 4294967296 - 1) 32
      (by rw [abs_lt]; constructor <;> omega) (by norm_num)
    have e : (((k + 1) * 4294967296 - 1 : Int) : ℚ) / (2 : ℚ) ^ 32 =
        (k : ℚ) + 1 - 1 / 4294967296 := by push_cast; ring
    rwa [e] at this
  have hkd : IsDouble (k : ℚ) := isDouble_int k (by rw [abs_lt]; constructor <;> omega)
  obtain ⟨lo, hlo, hloq, hklo⟩ : ∃ lo : ℚ, IsDouble lo ∧ lo ≤ (S : ℚ) / (n : ℚ) ∧
      (k : ℚ) ≤ lo + 1 / 2 := by
    by_cases hk : k = 0
    · refine ⟨0, ?_, hq0, ?_⟩
      · simpa using isDouble_int 0 (by norm_num)
      · rw [hk]; norm_num
    · refine ⟨(k : ℚ) - 1 / 2, ?_, by linarith, by linarith⟩
      have := isDouble_div_two_pow (2 * k - 1) 1
        (by rw [abs_lt]; constructor <;> omega) (by norm_num)
      have e : ((2 * k - 1 : Int) : ℚ) / (2 : ℚ) ^ 1 = (k : ℚ) - 1 / 2 := by push_cast; ring
      rwa [e] at this
  obtain ⟨r1, e1, l1, u1⟩ := fl_between hlo hc hloq hqc
  obtain ⟨r2, e2, l2, u2⟩ := fl_between hkd hc' (by linarith : (k : ℚ) ≤ r1 + 1 / 2)
    (by linarith : r1 + 1 / 2 ≤ (k : ℚ) + 1 - 1 / 4294967296)
  have hk0q : (0 : ℚ) ≤ k := by exact_mod_cast hk0
  have ht : truncQ r2 = k := by
    rw [truncQ_of_nonneg (by linarith), Int.floor_eq_iff]
    constructor <;> linarith
  simp only [ddiv, if_neg hnq.ne', e1, dadd, Option.some_bind, e2, toInt32, ht, INT_MIN,
    INT_MAX]
  rw [if_pos ⟨by omega, by omega⟩]

theorem windowCount_le (img : Image) (hs : img.Shaped) (dx dy x y : Int) :
    windowCount img dx dy x y ≤ img.width * img.height := by
  unfold windowCount
  have hsub : window img dx dy x y ⊆
      Finset.Icc 0 (img.width - 1) ×ˢ Finset.Icc 0 (img.height - 1) := by
    intro p hp
    simp only [window, Finset.mem_filter, Finset.mem_product, Finset.mem_Icc,
      validPos_iff] at hp
    simp only [Finset.mem_product, Finset.mem_Icc]
    omega
  have hcard := Finset.card_le_card hsub
  rw [Finset.card_product, Int.card_Icc, Int.card_Icc] at hcard
  have h1 : (img.width - 1 + 1 - 0).toNat = img.width.toNat := by congr 1; ring
  have h2 : (img.height - 1 + 1 - 0).toNat = img.height.toNat := by congr 1; ring
  rw [h1, h2] at hcard
  have : ((window img dx dy x y).card : Int) ≤ ((img.width.toNat * img.height.toNat : Nat) : Int) := by
    exact_mod_cast hcard
  push_cast at this
  rw [Int.toNat_of_nonneg hs.1, Int.toNat_of_nonneg hs.2.1] at this
  exact this

/-- A negative quotient in `[-k, -k + 1/2]`, as an overflowed sum produces, converts to
`-k + 1` after the addition of one half. -/
theorem mean_double_neg {S n k : Int} (hn : 0 < n) (hk : 0 < k) (hk' : k ≤ 1000)
    (h1 : -(k * n) ≤ S) (h2 : 2 * S ≤ -((2 * k - 1) * n)) :
    toInt32 (dadd (ddiv (S : ℚ) (n : ℚ)) (some (1 / 2))) = -k + 1 := by
  have hnq : (0 : ℚ) < n := by exact_mod_cast hn
  have h1q : -((k : ℚ) * n) ≤ S := by exact_mod_cast h1
  have h2q : (2 : ℚ) * S ≤ -((2 * k - 1) * n) := by exact_mod_cast h2
  have hlo : -(k : ℚ) ≤ (S : ℚ) / (n : ℚ) := by
    rw [le_div_iff₀ hnq]; linarith
  have hhi : (S : ℚ) / (n : ℚ) ≤ -(k : ℚ) + 1 / 2 := by
    rw [div_le_iff₀ hnq]
    have e : (-(k : ℚ) + 1 / 2) * n = -((2 * k - 1) * n) / 2 := by ring
    rw [e]; linarith
  have d1 : IsDouble (-(k : ℚ)) := by
    simpa using isDouble_int (-k) (by rw [abs_lt]; constructor <;> omega)
  have d2 : IsDouble (-(k : ℚ) + 1 / 2) := by
    have := isDouble_div_two_pow (-(2 * k) + 1) 1
      (by rw [abs_lt]; constructor <;> omega) (by norm_num)
    have e : ((-(2 * k) + 1 : Int) : ℚ) / (2 : ℚ) ^ 1 = -(k : ℚ) + 1 / 2 := by
      push_cast; ring
    rwa [e] at this
  have d3 : IsDouble (-(k : ℚ) + 1) := by
    have := isDouble_int (-k + 1) (by rw [abs_lt]; constructor <;> omega)
    simpa using this
  obtain ⟨r1, e1, l1, u1⟩ := fl_between d1 d2 hlo hhi
  obtain ⟨r2, e2, l2, u2⟩ := fl_between d2 d3 (by linarith : -(k : ℚ) + 1 / 2 ≤ r1 + 1 / 2)
    (by linarith : r1 + 1 / 2 ≤ -(k : ℚ) + 1)
  have hkq : (1 : ℚ) ≤ k := by exact_mod_cast hk
  have ht : truncQ r2 = -k + 1 := by
    unfold truncQ
    by_cases h0 : 0 ≤ r2
    · have hk1 : (k : ℚ) = 1 := by linarith
      have hr : r2 = 0 := by linarith
      have hkz : k = 1 := by exact_mod_cast hk1
      rw [if_pos h0, hr, hkz]; simp
    · rw [if_neg h0, Int.ceil_eq_iff]
      push_cast
      constructor <;> linarith
  simp only [ddiv, if_neg hnq.ne', e1, dadd, Option.some_bind, e2, toInt32, ht, INT_MIN,
    INT_MAX]
  rw [if_pos ⟨by omega, by omega⟩]

/-- The effect of `ImageBlur` when no loop counter and no coordinate leaves the `int`
range: the stored level is computed from the two accumulators reduced to 32 bits. -/
theorem blur_body_wrap (img : Image) (hs : img.Shaped) (hm0 : 0 < img.maxval)
    (hm : img.maxval ≤ 255) (dx dy : Int) (hdx : 0 ≤ dx) (hdy : 0 ≤ dy)
    (hbx : dx + img.width ≤ 2147483647) (hby : dy + img.height ≤ 2147483647) :
    ∃ img', ImageBlur img dx dy = some img' ∧ SameShape img' img ∧
      ∀ x y : Int, 0 ≤ x → x < img.width → 0 ≤ y → y < img.height →
        ImageGetPixel img' x y = some (toUint8 (toInt32 (some ((toInt32
          (dadd (ddiv ((wrapInt (windowSum img dx dy x y) : Int) : ℚ)
            ((wrapInt (windowCount img dx dy x y) : Int) : ℚ)) (some (1 / 2))) : Int) : ℚ)))) := by
  have hnew : (⟨img.width, img.height, img.maxval,
      List.replicate (img.width * img.height).toNat 0⟩ : Image).Shaped :=
    ⟨hs.1, hs.2.1, by simp⟩
  -- first pass: the means are written to the temporary image
  obtain ⟨tmp, hrun1, hsh1, hdone1, -⟩ := rectLoop_spec
    ⟨img.width, img.height, img.maxval, List.replicate (img.width * img.height).toNat 0⟩ hnew
    img.height.toNat img.width.toNat (fun _ j => (j : Int)) (fun i _ => (i : Int))
    (fun y x s =>
      (blurWindow img dx dy x y).bind fun acc =>
        ImageSetPixel s x y (toUint8 (toInt32 (some ((toInt32
          (dadd (ddiv (acc.1 : ℚ) (acc.2 : ℚ)) (some (1 / 2))) : Int) : ℚ)))))
    (fun i j => toUint8 (toInt32 (some ((toInt32
          (dadd (ddiv ((wrapInt (windowSum img dx dy j i) : Int) : ℚ)
            ((wrapInt (windowCount img dx dy j i) : Int) : ℚ)) (some (1 / 2))) : Int) : ℚ))))
    (by intro i hi j hj; dsimp only; constructor <;> constructor <;> omega)
    (by intro i _ j _ i' _ j' _ h1 h2; dsimp only at h1 h2; constructor <;> omega)
    (by
      intro i hi j hj s _ _
      dsimp only
      rw [blurWindow_eq_wrap img hs dx dy j i hdx hdy (by omega) (by omega) (by omega)
        (by omega) hbx hby]
      simp only [Option.some_bind])
  -- second pass: the temporary image is copied back
  obtain ⟨res, hrun2, hsh2, hdone2, -⟩ := rectLoop_spec img hs
    img.height.toNat img.width.toNat (fun _ j => (j : Int)) (fun i _ => (i : Int))
    (fun y x s => (ImageGetPixel tmp x y).bind fun p => ImageSetPixel s x y p)
    (fun i j => toUint8 (toInt32 (some ((toInt32
          (dadd (ddiv ((wrapInt (windowSum img dx dy j i) : Int) : ℚ)
            ((wrapInt (windowCount img dx dy j i) : Int) : ℚ)) (some (1 / 2))) : Int) : ℚ))))
    (by intro i hi j hj; dsimp only; constructor <;> constructor <;> omega)
    (by intro i _ j _ i' _ j' _ h1 h2; dsimp only at h1 h2; constructor <;> omega)
    (by
      intro i hi j hj s _ _
      dsimp only
      rw [hdone1 i hi j hj]
      simp only [Option.some_bind])
  refine ⟨res, ?_, hsh2, ?_⟩
  · unfold ImageBlur
    simp only [ImageWidth, ImageHeight, ImageMaxval]
    rw [create_spec _ _ _ hs.1 hs.2.1 hm0 hm]
    simp only [Option.some_bind]
    rw [hrun1]
    simp only [Option.some_bind]
    exact hrun2
  · intro x y hx0 hx hy0 hy
    have := hdone2 y.toNat (by omega) x.toNat (by omega)
    have hx' : ((x.toNat : Nat) : Int) = x := Int.toNat_of_nonneg hx0
    have hy' : ((y.toNat : Nat) : Int) = y := Int.toNat_of_nonneg hy0
    simp only [hx', hy'] at this
    exact this

/-- The effect of `ImageBlur` when, in addition, `B` times the window count fits an
`int` for a bound `B` on the pixels: the stored level is the exact mean rounded half
up. -/
theorem blur_body_spec (img : Image) (hs : img.Shaped) (hm0 : 0 < img.maxval)
    (hm : img.maxval ≤ 255) (B : Int) (hB1 : 1 ≤ B) (hB : B ≤ 255)
    (hpix : ∀ p ∈ img.pixel, (p : Int) ≤ B) (dx dy : Int)
    (hdx : 0 ≤ dx) (hdy : 0 ≤ dy)
    (hbx : dx + img.width ≤ 2147483647) (hby : dy + img.height ≤ 2147483647)
    (hn : ∀ x y : Int, 0 ≤ x → x < img.width → 0 ≤ y → y < img.height →
      B * windowCount img dx dy x y ≤ 2147483647) :
    ∃ img', ImageBlur img dx dy = some img' ∧ SameShape img' img ∧
      ∀ x y : Int, 0 ≤ x → x < img.width → 0 ≤ y → y < img.height →
        ImageGetPixel img' x y = some
          (⌊(windowSum img dx dy x y : ℚ) / (windowCount img dx dy x y : ℚ) + 1 / 2⌋).toNat := by
  obtain ⟨img', hrun, hsh, hpx⟩ := blur_body_wrap img hs hm0 hm dx dy hdx hdy hbx hby
  refine ⟨img', hrun, hsh, ?_⟩
  intro x y hx0 hx hy0 hy
  rw [hpx x y hx0 hx hy0 hy]
  have hC := hn x y hx0 hx hy0 hy
  have hC0 := windowCount_pos img dx dy x y hdx hdy hx0 hx hy0 hy
  have hS0 := windowSum_nonneg img dx dy x y
  have hSle := windowSum_le (by omega : (0 : Int) ≤ B) hpix dx dy x y
  have hCB : windowCount img dx dy x y ≤ B * windowCount img dx dy x y := by nlinarith
  have hS255 : windowSum img dx dy x y ≤ 255 * windowCount img dx dy x y := by nlinarith
  obtain ⟨-, hk0, hk255⟩ := mean_round hS0 hC0 hS255
  rw [wrapInt_of_range (by omega) (by omega), wrapInt_of_range (by omega) (by omega),
    mean_double hS0 hC0 (by omega) hS255, toInt32_intCast (by omega) (by omega)]
  congr 1
  unfold toUint8
  congr 1
  omega

/-- On a one-row image whose pixels all equal `v`, the window of half-width
`width - 1` holds every pixel of the row. -/
theorem constRow_window (N : Nat) (v : Nat) (m : Int) (x : Int) (hx0 : 0 ≤ x)
    (hx : x < (N : Int)) :
    windowCount ⟨(N : Int), 1, m, List.replicate N v⟩ ((N : Int) - 1) 0 x 0 = (N : Int) ∧
    windowSum ⟨(N : Int), 1, m, List.replicate N v⟩ ((N : Int) - 1) 0 x 0 =
      (v : Int) * (N : Int) := by
  have hs : (⟨(N : Int), 1, m, List.replicate N v⟩ : Image).Shaped :=
    ⟨Int.ofNat_nonneg _, by norm_num, by simp⟩
  have hwin : window ⟨(N : Int), 1, m, List.replicate N v⟩ ((N : Int) - 1) 0 x 0 =
      Finset.Icc (0 : Int) ((N : Int) - 1) ×ˢ Finset.Icc (0 : Int) 0 := by
    ext p
    simp only [window, Finset.mem_filter, Finset.mem_product, Finset.mem_Icc, validPos_iff]
    omega
  have hcard : ((Finset.Icc (0 : Int) ((N : Int) - 1) ×ˢ Finset.Icc (0 : Int) 0).card : Int)
      = (N : Int) := by
    rw [Finset.card_product, Int.card_Icc, Int.card_Icc]
    have : ((N : Int) - 1 + 1 - 0).toNat = N := by
      have e : (N : Int) - 1 + 1 - 0 = (N : Int) := by ring
      rw [e]; exact Int.toNat_natCast N
    rw [this]
    norm_num
  constructor
  · unfold windowCount
    rw [hwin, hcard]
  · unfold windowSum
    rw [hwin]
    have hpx : ∀ p ∈ Finset.Icc (0 : Int) ((N : Int) - 1) ×ˢ Finset.Icc (0 : Int) 0,
        pixelAt ⟨(N : Int), 1, m, List.replicate N v⟩ p.1 p.2 = (v : Int) := by
      intro p hp
      simp only [Finset.mem_product, Finset.mem_Icc] at hp
      have hp2 : p.2 = 0 := by omega
      unfold pixelAt
      rw [getPixel_eq_getElem? hs (by omega) (by dsimp only; omega) (by omega)
        (by dsimp only; omega)]
      dsimp only
      rw [List.getElem?_replicate, if_pos (by rw [hp2]; omega)]
      rfl
    rw [Finset.sum_congr rfl hpx, Finset.sum_const, nsmul_eq_mul, hcard, mul_comm]

theorem blendInt_eq (p2 p1 : Nat) (alpha : ℚ) :
    blendInt p2 p1 alpha = toInt32 (blendDouble p2 p1 alpha) := rfl

theorem binade_eq {q : ℚ} {e : ℤ} (he : -1022 ≤ e) (h1 : (2 : ℚ) ^ e ≤ |q|)
    (h2 : |q| < (2 : ℚ) ^ (e + 1)) : binade q = e := by
  have hpos : (0 : ℚ) < |q| := lt_of_lt_of_le (zpow_pos (by norm_num) _) h1
  have a1 : e ≤ Int.log 2 |q| := by
    rw [← Int.zpow_le_iff_le_log (by norm_num) hpos]; exact_mod_cast h1
  have a2 : Int.log 2 |q| < e + 1 := by
    rw [← Int.lt_zpow_iff_log_lt (by norm_num) hpos]; exact_mod_cast h2
  unfold binade
  omega

theorem roundEven_of_lt {r : ℚ} {z : ℤ} (h1 : (z : ℚ) - 1 / 2 < r) (h2 : r < (z : ℚ) + 1 / 2) :
    roundEven r = z := by
  have h := roundEven_nearest r z
  have hz : |(z : ℚ) - r| < 1 / 2 := by rw [abs_lt]; constructor <;> linarith
  have h3 := abs_le.1 (le_trans h (le_of_lt hz))
  have h4 := abs_lt.1 (lt_of_le_of_lt h hz)
  have a1 : ((roundEven r : Int) : ℚ) < ((z + 1 : Int) : ℚ) := by push_cast; linarith [h4.2]
  have a2 : ((z - 1 : Int) : ℚ) < ((roundEven r : Int) : ℚ) := by push_cast; linarith [h4.1]
  have b1 := Int.cast_lt.1 a1
  have b2 := Int.cast_lt.1 a2
  omega

theorem roundEven_tie_even {z : ℤ} (hz : z % 2 = 0) : roundEven ((z : ℚ) + 1 / 2) = z := by
  have hf : ⌊(z : ℚ) + 1 / 2⌋ = z := by
    rw [Int.floor_eq_iff]; constructor <;> linarith
  unfold roundEven
  rw [hf]
  have e : (z : ℚ) + 1 / 2 - z = 1 / 2 := by ring
  rw [e, if_neg (lt_irrefl _), if_neg (lt_irrefl _), if_pos hz]

/-- Evaluation of a rounding from the binade of the argument and the rounded
significand. -/
theorem fl_eval {q : ℚ} (e z : ℤ) (he : -1022 ≤ e) (h1 : (2 : ℚ) ^ e ≤ |q|)
    (h2 : |q| < (2 : ℚ) ^ (e + 1)) (hz : roundEven (q / (2 : ℚ) ^ (e - 52)) = z)
    (h3 : |(z : ℚ) * (2 : ℚ) ^ (e - 52)| < (2 : ℚ) ^ (1024 : ℕ)) :
    fl q = some ((z : ℚ) * (2 : ℚ) ^ (e - 52)) := by
  unfold fl roundD
  rw [binade_eq he h1 h2, hz, if_pos h3]

theorem fl_of_double (m : ℤ) (k : ℕ) (q : ℚ) (hm : |m| < 2 ^ 53) (hk : k ≤ 1074)
    (hq : q = (m : ℚ) / (2 : ℚ) ^ k) : fl q = some q := by
  rw [hq]; exact fl_exact (isDouble_div_two_pow m k hm hk)

theorem isDouble_small_int (n : ℤ) (h1 : -9000000000 ≤ n) (h2 : n ≤ 9000000000) :
    IsDouble (n : ℚ) := isDouble_int n (by rw [abs_lt]; constructor <;> omega)

theorem truncQ_abs_le {v : ℚ} {B : ℤ} (h1 : -(B : ℚ) ≤ v) (h2 : v ≤ B) :
    -B ≤ truncQ v ∧ truncQ v ≤ B := by
  unfold truncQ
  split_ifs with h0
  · constructor
    · have : (0 : ℤ) ≤ ⌊v⌋ := Int.floor_nonneg.2 h0
      have hB : (0 : ℚ) ≤ B := le_trans h0 h2
      have hB' : (0 : ℤ) ≤ B := by exact_mod_cast hB
      omega
    · have := Int.floor_le v
      have : ((⌊v⌋ : ℤ) : ℚ) ≤ (B : ℚ) := by linarith
      exact_mod_cast this
  · push_neg at h0
    constructor
    · have := Int.le_ceil v
      have : ((-B : ℤ) : ℚ) ≤ ((⌈v⌉ : ℤ) : ℚ) := by push_cast; linarith
      exact_mod_cast this
    · have : ⌈v⌉ ≤ 0 := Int.ceil_le.2 (by exact_mod_cast h0.le)
      have hB : (0 : ℚ) ≤ B := by linarith
      have hB' : (0 : ℤ) ≤ B := by exact_mod_cast hB
      omega

theorem mul_bounds {p a A : ℚ} (hp0 : 0 ≤ p) (hp : p ≤ 255) (ha : -A ≤ a) (ha' : a ≤ A) :
    -(255 * A) ≤ p * a ∧ p * a ≤ 255 * A := by
  have hA : 0 ≤ A := by linarith
  constructor <;> nlinarith [mul_nonneg hp0 hA, mul_nonneg hp0 (sub_nonneg.2 ha'),
    mul_nonneg hp0 (by linarith : (0 : ℚ) ≤ a + A), mul_nonneg (sub_nonneg.2 hp) hA]

/-- For `|alpha| ≤ 10^6` the value that `ImageBlend` converts is a finite binary64
number of magnitude at most `510000256`: its conversion to `int` is in range. -/
theorem blendDouble_bounded {p2 p1 : ℕ} (h2 : p2 < 256) (h1 : p1 < 256) {alpha : ℚ}
    (ha : |alpha| ≤ 1000000) :
    ∃ v, blendDouble p2 p1 alpha = some v ∧ -510000256 ≤ v ∧ v ≤ 510000256 := by
  obtain ⟨ha1, ha2⟩ := abs_le.1 ha
  have q2 : (0 : ℚ) ≤ p2 := Nat.cast_nonneg _
  have q2' : (p2 : ℚ) ≤ 255 := by
    have : p2 ≤ 255 := by omega
    exact_mod_cast this
  have q1 : (0 : ℚ) ≤ p1 := Nat.cast_nonneg _
  have q1' : (p1 : ℚ) ≤ 255 := by
    have : p1 ≤ 255 := by omega
    exact_mod_cast this
  have d : ∀ n : ℤ, -9000000000 ≤ n → n ≤ 9000000000 → IsDouble (n : ℚ) :=
    isDouble_small_int
  obtain ⟨a, ea, la, ua⟩ := fl_between (d (-1000000) (by norm_num) (by norm_num))
    (d 1000000 (by norm_num) (by norm_num)) (by push_cast; linarith) (by push_cast; linarith)
  push_cast at la ua
  obtain ⟨b1, b2⟩ := mul_bounds q2 q2' la ua
  obtain ⟨m2, em2, lm2, um2⟩ := fl_between (d (-255000000) (by norm_num) (by norm_num))
    (d 255000000 (by norm_num) (by norm_num)) (q := (p2 : ℚ) * a)
    (by push_cast; linarith) (by push_cast; linarith)
  push_cast at lm2 um2
  obtain ⟨b, eb, lb, ub⟩ := fl_between (d (-1000001) (by norm_num) (by norm_num))
    (d 1000001 (by norm_num) (by norm_num)) (q := 1 - a)
    (by push_cast; linarith) (by push_cast; linarith)
  push_cast at lb ub
  obtain ⟨c1, c2⟩ := mul_bounds q1 q1' lb ub
  obtain ⟨m1, em1, lm1, um1⟩ := fl_between (d (-255000255) (by norm_num) (by norm_num))
    (d 255000255 (by norm_num) (by norm_num)) (q := (p1 : ℚ) * b)
    (by push_cast; linarith) (by push_cast; linarith)
  push_cast at lm1 um1
  obtain ⟨s, es, ls, us⟩ := fl_between (d (-510000255) (by norm_num) (by norm_num))
    (d 510000255 (by norm_num) (by norm_num)) (q := m2 + m1)
    (by push_cast; linarith) (by push_cast; linarith)
  push_cast at ls us
  obtain ⟨v, ev, lv, uv⟩ := fl_between (d (-510000256) (by norm_num) (by norm_num))
    (d 510000256 (by norm_num) (by norm_num)) (q := s + 1 / 2)
    (by push_cast; linarith) (by push_cast; linarith)
  push_cast at lv uv
  refine ⟨v, ?_, lv, uv⟩
  simp only [blendDouble, dadd, dmul, dsub, Option.some_bind, ea, em2, eb, em1, es, ev]

/-- For `alpha = m / 2^k` with `k ≤ 20` and `|alpha| ≤ 10^6` every operation of the
blend is exact in binary64. -/
theorem blendDouble_dyadic {p2 p1 : ℕ} (h2 : p2 < 256) (h1 : p1 < 256) (m : ℤ) (k : ℕ)
    (hk : k ≤ 20) (ha : |(m : ℚ) / (2 : ℚ) ^ k| ≤ 1000000) :
    blendDouble p2 p1 ((m : ℚ) / (2 : ℚ) ^ k) =
      some ((m : ℚ) / (2 : ℚ) ^ k * (p2 : ℚ) + (1 - (m : ℚ) / (2 : ℚ) ^ k) * (p1 : ℚ) + 1 / 2) := by
  have hK : (2 : ℤ) ^ k ≤ 2 ^ 20 := pow_le_pow_right₀ (by norm_num) hk
  have hK0 : (0 : ℤ) < 2 ^ k := pow_pos (by norm_num) k
  have hKq : (0 : ℚ) < (2 : ℚ) ^ k := pow_pos (by norm_num) k
  have hm : |m| ≤ 1000000 * 2 ^ k := by
    rw [abs_div, abs_of_pos hKq, div_le_iff₀ hKq] at ha
    exact_mod_cast ha
  obtain ⟨hm1, hm2⟩ := abs_le.1 hm
  generalize hM : (2 : ℤ) ^ k = M at hK hK0 hm1 hm2
  have hMq : (2 : ℚ) ^ k = (M : ℚ) := by rw [← hM]; push_cast; rfl
  have f1 : fl ((m : ℚ) / (2 : ℚ) ^ k) = some ((m : ℚ) / (2 : ℚ) ^ k) :=
    fl_of_double m k _ (by rw [abs_lt]; constructor <;> norm_num <;> omega) (by omega) rfl
  have P2 : (p2 : ℤ) ≤ 255 := by omega
  have P1 : (p1 : ℤ) ≤ 255 := by omega
  have P2' : (0 : ℤ) ≤ p2 := Int.ofNat_nonneg _
  have P1' : (0 : ℤ) ≤ p1 := Int.ofNat_nonneg _
  have e2 : -(255 * (1000000 * M)) ≤ (p2 : ℤ) * m ∧ (p2 : ℤ) * m ≤ 255 * (1000000 * M) := by
    constructor <;> nlinarith
  have e1 : -(255 * (1000001 * M)) ≤ (p1 : ℤ) * (M - m) ∧
      (p1 : ℤ) * (M - m) ≤ 255 * (1000001 * M) := by
    constructor <;> nlinarith
  have f2 : fl ((p2 : ℚ) * ((m : ℚ) / (2 : ℚ) ^ k)) = some ((p2 : ℚ) * ((m : ℚ) / (2 : ℚ) ^ k)) :=
    fl_of_double ((p2 : ℤ) * m) k _ (by rw [abs_lt]; constructor <;> norm_num <;> omega)
      (by omega) (by push_cast; ring)
  have f3 : fl (1 - (m : ℚ) / (2 : ℚ) ^ k) = some (1 - (m : ℚ) / (2 : ℚ) ^ k) :=
    fl_of_double (M - m) k _ (by rw [abs_lt]; constructor <;> norm_num <;> omega)
      (by omega) (by push_cast; rw [hMq]; field_simp)
  have f4 : fl ((p1 : ℚ) * (1 - (m : ℚ) / (2 : ℚ) ^ k)) =
      some ((p1 : ℚ) * (1 - (m : ℚ) / (2 : ℚ) ^ k)) :=
    fl_of_double ((p1 : ℤ) * (M - m)) k _
      (by rw [abs_lt]; constructor <;> norm_num <;> omega)
      (by omega) (by push_cast; rw [hMq]; field_simp)
  have f5 : fl ((p2 : ℚ) * ((m : ℚ) / (2 : ℚ) ^ k) + (p1 : ℚ) * (1 - (m : ℚ) / (2 : ℚ) ^ k)) =
      some ((p2 : ℚ) * ((m : ℚ) / (2 : ℚ) ^ k) + (p1 : ℚ) * (1 - (m : ℚ) / (2 : ℚ) ^ k)) :=
    fl_of_double ((p2 : ℤ) * m + (p1 : ℤ) * (M - m)) k _
      (by rw [abs_lt]; constructor <;> norm_num <;> omega)
      (by omega) (by push_cast; rw [hMq]; field_simp)
  have f6 : fl ((p2 : ℚ) * ((m : ℚ) / (2 : ℚ) ^ k) + (p1 : ℚ) * (1 - (m : ℚ) / (2 : ℚ) ^ k)
      + 1 / 2) =
      some ((p2 : ℚ) * ((m : ℚ) / (2 : ℚ) ^ k) + (p1 : ℚ) * (1 - (m : ℚ) / (2 : ℚ) ^ k)
        + 1 / 2) :=
    fl_of_double (2 * ((p2 : ℤ) * m + (p1 : ℤ) * (M - m)) + M) (k + 1) _
      (by rw [abs_lt]; constructor <;> norm_num <;> omega)
      (by omega) (by push_cast; rw [pow_succ, hMq]; field_simp; ring)
  simp only [blendDouble, dadd, dmul, dsub, Option.some_bind, f1, f2, f3, f4, f5, f6]
  congr 1
  ring

theorem blend_1x1 (M M2 : Int) (p1 p2 : Nat) (alpha : ℚ) :
    ImageBlend ⟨1, 1, M, [p1]⟩ 0 0 ⟨1, 1, M2, [p2]⟩ alpha =
      some ⟨1, 1, M, [blendLevel p2 p1 alpha M]⟩ := by
  simp [ImageBlend, ImageValidRect, forLoop, forLoopFrom, ImageGetPixel, ImageSetPixel,
    ImageValidPos, G, ImageWidth, ImageHeight, ImageMaxval, wrapInt, blendLevel, blendInt]

theorem brighten_1x1 (M : Int) (p : Nat) (factor : ℚ) (h : 0 < roundD factor) :
    ImageBrighten ⟨1, 1, M, [p]⟩ factor =
      some ⟨1, 1, M,
        [toUint8 (toInt32 (dadd (dmul (some (p : ℚ)) (fl factor)) (some (1 / 2))))]⟩ := by
  have h8 : ∀ v : Int, ¬ toUint8 v > 255 := by
    intro v; unfold toUint8; omega
  simp [ImageBrighten, forLoop, forLoopFrom, ImageGetPixel, ImageSetPixel,
    ImageValidPos, G, ImageWidth, ImageHeight, ImageMaxval, h]
  intro hh
  exact absurd hh (h8 _)

theorem exGray45_WF : exGray45.WF := by
  unfold Image.WF Image.Shaped exGray45; decide

theorem constRow_WF (N : Nat) (v : Nat) (m : Int) (hm0 : 0 < m) (hm : m ≤ 255) (hv : v < 256)
    (hN : (N : Int) ≤ 2147483647) :
    (⟨(N : Int), 1, m, List.replicate N v⟩ : Image).WF := by
  refine ⟨⟨Int.ofNat_nonneg _, by norm_num, ?_⟩, hm0, hm, ?_, hN, by norm_num, ?_⟩
  · show (List.replicate N v).length = ((N : Int) * 1).toNat
    rw [List.length_replicate, mul_one, Int.toNat_natCast]
  · intro p hp
    have := (List.mem_replicate.1 hp).2
    omega
  · show (N : Int) * 1 ≤ 2147483647
    omega

theorem exWideWhite_WF : exWideWhite.WF :=
  constRow_WF 16843010 255 255 (by norm_num) (by norm_num) (by norm_num) (by norm_num)

theorem exWideGray_WF : exWideGray.WF :=
  constRow_WF 21474837 100 100 (by norm_num) (by norm_num) (by norm_num) (by norm_num)

theorem exWideGray_InRange : exWideGray.InRange := by
  intro p hp
  have := (List.mem_replicate.1 hp).2
  rw [this]
  show ((100 : Nat) : Int) ≤ 100
  norm_num

theorem blendDouble_example :
    blendDouble 0 45 (5404319552844595 / 18014398509481984) =
      some (9007199254740991 / 281474976710656) := by
  have f1 : fl (5404319552844595 / 18014398509481984 : ℚ) =
      some (5404319552844595 / 18014398509481984) :=
    fl_of_double 5404319552844595 54 _ (by norm_num) (by norm_num) (by norm_num)
  have f2 : fl (0 : ℚ) = some 0 :=
    fl_of_double 0 0 _ (by norm_num) (by norm_num) (by norm_num)
  have f3 : fl (1 - 5404319552844595 / 18014398509481984 : ℚ) =
      some (3152519739159347 / 4503599627370496) := by
    rw [fl_eval (-1) 6305039478318694 (by norm_num) (by norm_num [abs_of_pos])
      (by norm_num [abs_of_pos]) ?_ (by norm_num [abs_of_pos])]
    · norm_num
    · have e : (1 - 5404319552844595 / 18014398509481984 : ℚ) / (2 : ℚ) ^ ((-1 : ℤ) - 52) =
          ((6305039478318694 : ℤ) : ℚ) + 1 / 2 := by norm_num
      rw [e]
      exact roundEven_tie_even (by norm_num)
  have f4 : fl (45 * (3152519739159347 / 4503599627370496) : ℚ) =
      some (8866461766385663 / 281474976710656) := by
    rw [fl_eval 4 8866461766385663 (by norm_num) (by norm_num [abs_of_pos])
      (by norm_num [abs_of_pos]) ?_ (by norm_num [abs_of_pos])]
    · norm_num
    · apply roundEven_of_lt <;> norm_num
  have f5 : fl (0 + 8866461766385663 / 281474976710656 : ℚ) =
      some (8866461766385663 / 281474976710656) := by
    rw [zero_add]
    exact fl_of_double 8866461766385663 48 _ (by norm_num) (by norm_num) (by norm_num)
  have f6 : fl (8866461766385663 / 281474976710656 + 1 / 2 : ℚ) =
      some (9007199254740991 / 281474976710656) := by
    have e : (8866461766385663 / 281474976710656 + 1 / 2 : ℚ) =
        9007199254740991 / 281474976710656 := by norm_num
    rw [e]
    exact fl_of_double 9007199254740991 48 _ (by norm_num) (by norm_num) (by norm_num)
  simp only [blendDouble, dadd, dmul, dsub, Option.some_bind, f1, Nat.cast_zero, zero_mul, f2,
    f3, Nat.cast_ofNat, f4, f5, f6]

theorem blur_dx_max_1x1 : ImageBlur exOne11 2147483647 0 = none := by
  have h := blurWindow_dx_max exOne11 0 0 0 (le_refl 0) (by norm_num)
  unfold exOne11 at h
  simp [ImageBlur, ImageCreate, forLoop, forLoopFrom, exOne11, ImageWidth, ImageHeight,
    ImageMaxval, toUint8, h]

/-- Rounding error: a value of magnitude at most `2^k` (`k ≤ 52`) is rounded to a
binary64 number at distance at most `2^k / 2^53`, of magnitude at most `2^k`. -/
theorem fl_err {q : ℚ} (k : ℕ) (hk : k ≤ 52) (hq : |q| ≤ (2 : ℚ) ^ k) :
    ∃ r, fl q = some r ∧ |r - q| ≤ (2 : ℚ) ^ k / (2 : ℚ) ^ 53 ∧ |r| ≤ (2 : ℚ) ^ k := by
  have hK : (0 : ℚ) < (2 : ℚ) ^ k := pow_pos (by norm_num) k
  have hU : (0 : ℚ) < (2 : ℚ) ^ (52 - k) := pow_pos (by norm_num) _
  have hKU : (2 : ℚ) ^ k * (2 : ℚ) ^ (52 - k) = (2 : ℚ) ^ 52 := by
    rw [← pow_add]; congr 1; omega
  obtain ⟨hq1, hq2⟩ := abs_le.1 hq
  -- the grid point nearest to `q`
  have hf1 : ((⌊q * (2 : ℚ) ^ (52 - k) + 1 / 2⌋ : ℤ) : ℚ) ≤ q * (2 : ℚ) ^ (52 - k) + 1 / 2 :=
    Int.floor_le _
  have hf2 : q * (2 : ℚ) ^ (52 - k) + 1 / 2 <
      ((⌊q * (2 : ℚ) ^ (52 - k) + 1 / 2⌋ : ℤ) : ℚ) + 1 := Int.lt_floor_add_one _
  generalize ⌊q * (2 : ℚ) ^ (52 - k) + 1 / 2⌋ = m at hf1 hf2
  have hqU1 : q * (2 : ℚ) ^ (52 - k) ≤ (2 : ℚ) ^ 52 := by
    rw [← hKU]; exact mul_le_mul_of_nonneg_right hq2 hU.le
  have hqU2 : -((2 : ℚ) ^ 52) ≤ q * (2 : ℚ) ^ (52 - k) := by
    rw [← hKU, ← neg_mul]; exact mul_le_mul_of_nonneg_right hq1 hU.le
  have hm : |m| < 2 ^ 53 := by
    have a1 : (m : ℚ) < ((2 ^ 53 : ℤ) : ℚ) := by push_cast; norm_num at hqU1 ⊢; linarith
    have a2 : ((-(2 ^ 53) : ℤ) : ℚ) < (m : ℚ) := by push_cast; norm_num at hqU2 ⊢; linarith
    rw [abs_lt]
    exact ⟨by exact_mod_cast a2, by exact_mod_cast a1⟩
  have hd := isDouble_div_two_pow m (52 - k) hm (by omega)
  have hnear := roundD_nearest q _ hd.1
  have hdist : |(m : ℚ) / (2 : ℚ) ^ (52 - k) - q| ≤ (2 : ℚ) ^ k / (2 : ℚ) ^ 53 := by
    have e : (m : ℚ) / (2 : ℚ) ^ (52 - k) - q =
        ((m : ℚ) - q * (2 : ℚ) ^ (52 - k)) / (2 : ℚ) ^ (52 - k) := by
      field_simp
      ring
    have e2 : (2 : ℚ) ^ k / (2 : ℚ) ^ 53 = (1 / 2) / (2 : ℚ) ^ (52 - k) := by
      rw [div_eq_div_iff (by positivity) (by positivity), pow_succ, ← hKU]; ring
    rw [e, e2, abs_div, abs_of_pos hU]
    apply div_le_div_of_nonneg_right _ hU.le
    rw [abs_le]; constructor <;> linarith
  have hKd : IsDouble ((2 : ℚ) ^ k) := by
    have := isDouble_int ((2 : ℤ) ^ k) (by
      rw [abs_of_pos (pow_pos (by norm_num) k)]
      exact pow_lt_pow_right₀ (by norm_num) (by omega))
    simpa using this
  have hKd' : IsDouble (-(2 : ℚ) ^ k) := by
    have := isDouble_int (-(2 : ℤ) ^ k) (by
      rw [abs_neg, abs_of_pos (pow_pos (by norm_num) k)]
      exact pow_lt_pow_right₀ (by norm_num) (by omega))
    simpa using this
  have hr1 := roundD_le hKd hq2
  have hr2 := le_roundD hKd' hq1
  have hrabs : |roundD q| ≤ (2 : ℚ) ^ k := abs_le.2 ⟨hr2, hr1⟩
  refine ⟨roundD q, ?_, le_trans hnear hdist, hrabs⟩
  unfold fl
  rw [if_pos]
  calc |roundD q| ≤ (2 : ℚ) ^ k := hrabs
    _ < (2 : ℚ) ^ (1024 : ℕ) := pow_lt_pow_right₀ (by norm_num) (by omega)

/-- Truncation toward zero agrees on two values that are nearer to each other than
the second is to any integer. -/
theorem truncQ_eq_of_close {v E δ : ℚ} (h : |v - E| ≤ δ) (hz : ∀ z : ℤ, δ < |E - (z : ℚ)|) :
    truncQ v = truncQ E := by
  obtain ⟨h1, h2⟩ := abs_le.1 h
  have hfl1 : ((⌊E⌋ : ℤ) : ℚ) ≤ E := Int.floor_le E
  have hfl2 : E < ((⌊E⌋ : ℤ) : ℚ) + 1 := Int.lt_floor_add_one E
  have a := hz ⌊E⌋
  rw [abs_of_nonneg (by linarith)] at a
  have b := hz (⌊E⌋ + 1)
  rw [abs_of_neg (by push_cast; linarith)] at b
  push_cast at b
  have c := hz 0
  have hfv : ⌊v⌋ = ⌊E⌋ := by
    rw [Int.floor_eq_iff]; constructor <;> linarith
  have hcE : ⌈E⌉ = ⌊E⌋ + 1 := by
    rw [Int.ceil_eq_iff]; push_cast; constructor <;> linarith
  have hcv : ⌈v⌉ = ⌊E⌋ + 1 := by
    rw [Int.ceil_eq_iff]; push_cast; constructor <;> linarith
  unfold truncQ
  by_cases hE : 0 ≤ E
  · have : 0 ≤ v := by
      rw [Int.cast_zero, sub_zero, abs_of_nonneg hE] at c; linarith
    rw [if_pos hE, if_pos this, hfv]
  · push_neg at hE
    have : ¬ 0 ≤ v := by
      rw [Int.cast_zero, sub_zero, abs_of_neg hE] at c; push_neg; linarith
    rw [if_neg (not_le.2 hE), if_neg this, hcv, hcE]

theorem abs_mul_le {p a A : ℚ} (hp0 : 0 ≤ p) (hp : p ≤ 255) (ha : |a| ≤ A) :
    |p * a| ≤ 255 * A := by
  rw [abs_mul, abs_of_nonneg hp0]
  exact mul_le_mul hp ha (abs_nonneg _) (by norm_num)

/-- For `|alpha| ≤ 10^6` the binary64 value of the blend is within `2^-20` of the exact
value `alpha*p2 + (1-alpha)*p1 + 1/2`. -/
theorem blendDouble_err {p2 p1 : ℕ} (h2 : p2 < 256) (h1 : p1 < 256) {alpha : ℚ}
    (ha : |alpha| ≤ 1000000) :
    ∃ v, blendDouble p2 p1 alpha = some v ∧
      |v - (alpha * (p2 : ℚ) + (1 - alpha) * (p1 : ℚ) + 1 / 2)| ≤ 1 / 1048576 := by
  have q2 : (0 : ℚ) ≤ p2 := Nat.cast_nonneg _
  have q2' : (p2 : ℚ) ≤ 255 := by
    have : p2 ≤ 255 := by omega
    exact_mod_cast this
  have q1 : (0 : ℚ) ≤ p1 := Nat.cast_nonneg _
  have q1' : (p1 : ℚ) ≤ 255 := by
    have : p1 ≤ 255 := by omega
    exact_mod_cast this
  obtain ⟨a, ea, da, ba⟩ := fl_err (q := alpha) 20 (by norm_num) (by norm_num; linarith)
  have hm2 := abs_mul_le q2 q2' ba
  obtain ⟨m2, em2, dm2, bm2⟩ := fl_err (q := (p2 : ℚ) * a) 28 (by norm_num)
    (by norm_num at hm2 ⊢; linarith)
  have hb0 : |1 - a| ≤ (2 : ℚ) ^ 21 := by
    have := abs_sub (1 : ℚ) a
    norm_num at ba this ⊢
    linarith
  obtain ⟨b, eb, db, bb⟩ := fl_err (q := 1 - a) 21 (by norm_num) hb0
  have hm1 := abs_mul_le q1 q1' bb
  obtain ⟨m1, em1, dm1, bm1⟩ := fl_err (q := (p1 : ℚ) * b) 29 (by norm_num)
    (by norm_num at hm1 ⊢; linarith)
  have hs0 : |m2 + m1| ≤ (2 : ℚ) ^ 30 := by
    have := abs_add m2 m1
    norm_num at bm2 bm1 this ⊢
    linarith
  obtain ⟨s, es, ds, bs⟩ := fl_err (q := m2 + m1) 30 (by norm_num) hs0
  have hv0 : |s + 1 / 2| ≤ (2 : ℚ) ^ 31 := by
    have := abs_add s (1 / 2)
    rw [abs_of_pos (by norm_num : (0 : ℚ) < 1 / 2)] at this
    norm_num at bs this ⊢
    linarith
  obtain ⟨v, ev, dv, -⟩ := fl_err (q := s + 1 / 2) 31 (by norm_num) hv0
  refine ⟨v, ?_, ?_⟩
  · simp only [blendDouble, dadd, dmul, dsub, Option.some_bind, ea, em2, eb, em1, es, ev]
  · -- the errors of the six roundings add up
    have t1 : |(p2 : ℚ) * (a - alpha)| ≤ 255 * ((2 : ℚ) ^ 20 / (2 : ℚ) ^ 53) :=
      abs_mul_le q2 q2' da
    have hbα : |b - (1 - alpha)| ≤ (2 : ℚ) ^ 21 / (2 : ℚ) ^ 53 + (2 : ℚ) ^ 20 / (2 : ℚ) ^ 53 := by
      have e : b - (1 - alpha) = (b - (1 - a)) + -(a - alpha) := by ring
      rw [e]
      have := abs_add (b - (1 - a)) (-(a - alpha))
      rw [abs_neg] at this
      linarith
    have t2 := abs_mul_le q1 q1' hbα
    have e : v - (alpha * (p2 : ℚ) + (1 - alpha) * (p1 : ℚ) + 1 / 2) =
        (v - (s + 1 / 2)) + (s - (m2 + m1)) + (m2 - (p2 : ℚ) * a) + (m1 - (p1 : ℚ) * b) +
          (p2 : ℚ) * (a - alpha) + (p1 : ℚ) * (b - (1 - alpha)) := by ring
    rw [e]
    obtain ⟨x1, y1⟩ := abs_le.1 dv
    obtain ⟨x2, y2⟩ := abs_le.1 ds
    obtain ⟨x3, y3⟩ := abs_le.1 dm2
    obtain ⟨x4, y4⟩ := abs_le.1 dm1
    obtain ⟨x5, y5⟩ := abs_le.1 t1
    obtain ⟨x6, y6⟩ := abs_le.1 t2
    norm_num at x1 y1 x2 y2 x3 y3 x4 y4 x5 y5 x6 y6
    rw [abs_le]
    constructor <;> linarith

theorem blendDouble_example_big :
    blendDouble 200 0 10000000000 = some (4000000000001 / 2) := by
  have f1 : fl (10000000000 : ℚ) = some 10000000000 :=
    fl_of_double 10000000000 0 _ (by norm_num) (by norm_num) (by norm_num)
  have g : fl (2000000000000 : ℚ) = some 2000000000000 :=
    fl_of_double 2000000000000 0 _ (by norm_num) (by norm_num) (by norm_num)
  have f2 : fl (((200 : ℕ) : ℚ) * 10000000000) = some 2000000000000 := by
    rw [show ((200 : ℕ) : ℚ) * 10000000000 = 2000000000000 by norm_num]
    exact g
  have f3 : fl ((1 : ℚ) - 10000000000) = some (-9999999999) := by
    rw [show (1 : ℚ) - 10000000000 = -9999999999 by norm_num]
    exact fl_of_double (-9999999999) 0 _ (by norm_num) (by norm_num) (by norm_num)
  have f4 : fl (((0 : ℕ) : ℚ) * -9999999999) = some 0 := by
    rw [show ((0 : ℕ) : ℚ) * -9999999999 = 0 by norm_num]
    exact fl_of_double 0 0 _ (by norm_num) (by norm_num) (by norm_num)
  have f5 : fl ((2000000000000 : ℚ) + 0) = some 2000000000000 := by
    rw [add_zero]; exact g
  have f6 : fl ((2000000000000 : ℚ) + 1 / 2) = some (4000000000001 / 2) := by
    rw [show (2000000000000 : ℚ) + 1 / 2 = 4000000000001 / 2 by norm_num]
    exact fl_of_double 4000000000001 1 _ (by norm_num) (by norm_num) (by norm_num)
  unfold blendDouble dadd dmul dsub
  rw [f1, Option.some_bind, Option.some_bind, f2, Option.some_bind, Option.some_bind,
    Option.some_bind, Option.some_bind, f3, Option.some_bind, f4, Option.some_bind, f5,
    Option.some_bind, Option.some_bind, f6]

/-! ## The claims -/

/-- C1 fails on the code: `exGray22` is pasted into `exBlack33` at `(1,1)`, a valid
rectangle that touches the right and bottom edges; it matches there, yet
`ImageLocateSubImage` returns 0 and leaves `(px,py)` untouched, because its loops stop
before the candidate `width1 - width2` (and `height1 - height2`). -/
theorem C1_locate_misses_edge_paste :
    ImageValidRect exBlack33 1 1 exGray22.width exGray22.height = true ∧
    ImagePaste exBlack33 1 1 exGray22 = some ⟨3, 3, 255, [0, 0, 0, 0, 9, 9, 0, 9, 9]⟩ ∧
    ImageMatchSubImage ⟨3, 3, 255, [0, 0, 0, 0, 9, 9, 0, 9, 9]⟩ 1 1 exGray22 = some 1 ∧
    ImageLocateSubImage ⟨3, 3, 255, [0, 0, 0, 0, 9, 9, 0, 9, 9]⟩ (-1) (-1) exGray22 =
      some (0, -1, -1) := by
  decide

/-- C2 fails on the code: on a 1×1 image with `maxval = 100` and pixel 100,
`ImageBrighten` with factor 2 stores 200, above `maxval`, where saturation gives 100. -/
theorem C2_brighten_exceeds_maxval :
    ImageBrighten ⟨1, 1, 100, [100]⟩ 2 = some ⟨1, 1, 100, [200]⟩ := by
  have r1 : roundD (2 : ℚ) = 2 := by
    have := roundD_exact (isDouble_int 2 (by norm_num))
    simpa using this
  have f1 : fl (2 : ℚ) = some 2 :=
    fl_of_double 2 0 _ (by norm_num) (by norm_num) (by norm_num)
  have f2 : fl ((100 : ℚ) * 2) = some 200 := by
    have := fl_of_double 200 0 200 (by norm_num) (by norm_num) (by norm_num)
    rw [show (100 : ℚ) * 2 = 200 by norm_num]; exact this
  have f3 : fl ((200 : ℚ) + 1 / 2) = some ((200 : ℚ) + 1 / 2) :=
    fl_of_double 401 1 _ (by norm_num) (by norm_num) (by norm_num)
  have t : toInt32 (some ((200 : ℚ) + 1 / 2)) = 200 := by
    have := toInt32_nat_add_half (p := 200) (by norm_num)
    simpa using this
  rw [brighten_1x1 100 100 2 (by rw [r1]; norm_num)]
  simp only [dadd, dmul, Option.some_bind, f1, Nat.cast_ofNat, f2, f3, t]
  rfl

/-- C3 fails on the code: `ImageRotate` aborts on a 2×1 image (the read at `(0,1)`
is outside the source). -/
theorem C3_rotate_aborts_on_2x1 : ImageRotate ⟨2, 1, 255, [1, 2]⟩ = none := by
  decide

/-- C4 fails on the code: four successive rotations of a 1×2 image produce no image,
the first `ImageRotate` already aborts. -/
theorem C4_rotate_four_times_aborts_on_1x2 :
    ImageRotate ⟨1, 2, 255, [3, 4]⟩ = none ∧
    (((ImageRotate ⟨1, 2, 255, [3, 4]⟩).bind ImageRotate).bind ImageRotate).bind ImageRotate
      = none := by
  decide

/-- C5 fails on the code: `ImageStats` only lowers `*min` and raises `*max` from the
values they hold on entry.  On a 1×1 image with pixel 5 entered with `min = max = 0` it
returns `min = 0`; on a fresh `ImageCreate 1 1 255` entered with `min = 7`, `max = 9` it
returns `max = 9`. -/
theorem C5_stats_depends_on_entry_values :
    ImageStats ⟨1, 1, 255, [5]⟩ 0 0 = some (0, 5) ∧
    ((ImageCreate 1 1 255).bind fun img => ImageStats img 7 9) = some (0, 9) := by
  decide

/-- C6 as stated fails.  First, the destination pixel 45 is blended with the source
pixel 0 and `alpha = 5404319552844595 / 2^54`, the binary64 number nearest to 0.3: the
exact value `alpha*0 + (1-alpha)*45 + 1/2` is just above 32 and truncates to 32; the
code rounds `1 - alpha` and the product to binary64, obtains `32 - 2^-48` and stores 31.
Second, with `alpha = 10^10`, source pixel 200 and destination pixel 0 the value
`2*10^12 + 0.5` does not fit an `int`; the conversion leaves `INT_MIN`, which the clamp
turns into 0, where the saturated value is `maxval(dst) = 100`. -/
theorem C6_blend_rounding_counterexample :
    (exGray45.WF ∧ exOne11.WF ∧ ValidRect exGray45 0 0 exOne11.width exOne11.height ∧
      ImageGetPixel exOne11 0 0 = some 0 ∧ ImageGetPixel exGray45 (0 + 0) (0 + 0) = some 45 ∧
      ImageBlend exGray45 0 0 exOne11 (5404319552844595 / 18014398509481984) =
        some ⟨1, 1, 100, [31]⟩ ∧
      clamp (truncQ ((5404319552844595 / 18014398509481984 : ℚ) * ((0 : Nat) : ℚ) +
        (1 - 5404319552844595 / 18014398509481984) * ((45 : Nat) : ℚ) + 1 / 2)) 0
          exGray45.maxval = 32) ∧
    (exDst11.WF ∧ exSrc11.WF ∧ ValidRect exDst11 0 0 exSrc11.width exSrc11.height ∧
      ImageGetPixel exSrc11 0 0 = some 200 ∧ ImageGetPixel exDst11 (0 + 0) (0 + 0) = some 0 ∧
      ImageBlend exDst11 0 0 exSrc11 10000000000 = some ⟨1, 1, 100, [0]⟩ ∧
      clamp (truncQ ((10000000000 : ℚ) * ((200 : Nat) : ℚ) +
        (1 - 10000000000) * ((0 : Nat) : ℚ) + 1 / 2)) 0 exDst11.maxval = 100) := by
  refine ⟨⟨exGray45_WF, exOne11_WF, by unfold ValidRect exGray45 exOne11; decide, by decide,
    by decide, ?_, ?_⟩, ⟨by unfold Image.WF Image.Shaped exDst11; decide, exSrc11_WF,
    by unfold ValidRect exDst11 exSrc11; decide, by decide, by decide, ?_, ?_⟩⟩
  · have hb : blendInt 0 45 (5404319552844595 / 18014398509481984) = 31 := by
      rw [blendInt_eq, blendDouble_example]
      have ht : truncQ (9007199254740991 / 281474976710656 : ℚ) = 31 := by
        rw [truncQ_of_nonneg (by norm_num), Int.floor_eq_iff]
        constructor <;> norm_num
      simp only [toInt32, ht, INT_MIN, INT_MAX]
      decide
    show ImageBlend ⟨1, 1, 100, [45]⟩ 0 0 ⟨1, 1, 255, [0]⟩ _ = _
    rw [blend_1x1]
    simp only [blendLevel, hb]
    rfl
  · have ht : truncQ ((5404319552844595 / 18014398509481984 : ℚ) * ((0 : Nat) : ℚ) +
        (1 - 5404319552844595 / 18014398509481984) * ((45 : Nat) : ℚ) + 1 / 2) = 32 := by
      rw [truncQ_of_nonneg (by norm_num), Int.floor_eq_iff]
      constructor <;> norm_num
    rw [ht]
    decide
  · have hb : blendInt 200 0 10000000000 = -2147483648 := by
      rw [blendInt_eq, blendDouble_example_big]
      have ht : truncQ (4000000000001 / 2 : ℚ) = 2000000000000 := by
        rw [truncQ_of_nonneg (by norm_num), Int.floor_eq_iff]
        constructor <;> norm_num
      simp only [toInt32, ht, INT_MIN, INT_MAX]
      decide
    show ImageBlend ⟨1, 1, 100, [0]⟩ 0 0 ⟨1, 1, 255, [200]⟩ _ = _
    rw [blend_1x1]
    simp only [blendLevel, hb]
    rfl
  · have ht : truncQ ((10000000000 : ℚ) * ((200 : Nat) : ℚ) +
        (1 - 10000000000) * ((0 : Nat) : ℚ) + 1 / 2) = 2000000000000 := by
      rw [truncQ_of_nonneg (by norm_num), Int.floor_eq_iff]
      constructor <;> norm_num
    rw [ht]
    decide

/-- C6 (amended): for every destination, source and fitting position and every
`alpha` with `|alpha| ≤ 10^6`, `ImageBlend` completes and sets each covered pixel to
`clamp(trunc(v), 0, maxval(dst))`, where `v` is the binary64 value of
`src*alpha + dst_old*(1-alpha) + 0.5` (every operation rounded to nearest), `trunc(v)`
fits an `int`, and `v` is within `2^-20` of the exact value
`E = alpha*src + (1-alpha)*dst_old + 1/2`.  The stored pixel is the
`clamp(trunc(E), 0, maxval(dst))` of the claim whenever `E` is farther than `2^-20` from
every integer, and whenever `alpha = m / 2^k` with `k ≤ 20` (the computation is then
exact).  The other pixels and the width, height and maxval of the destination are
unchanged. -/
theorem C6_blend_spec (dst src : Image) (x y : Int) (alpha : ℚ) (hd : dst.WF) (hs : src.WF)
    (hrect : ValidRect dst x y src.width src.height) (ha : |alpha| ≤ 1000000) :
    ∃ dst', ImageBlend dst x y src alpha = some dst' ∧
      dst'.width = dst.width ∧ dst'.height = dst.height ∧ dst'.maxval = dst.maxval ∧
      (∀ i j : Int, 0 ≤ i → i < src.width → 0 ≤ j → j < src.height →
        ∃ (ps pd pr : Nat) (v : ℚ), ImageGetPixel src i j = some ps ∧
          ImageGetPixel dst (x + i) (y + j) = some pd ∧
          ImageGetPixel dst' (x + i) (y + j) = some pr ∧
          blendDouble ps pd alpha = some v ∧
          (-2147483648 ≤ truncQ v ∧ truncQ v ≤ 2147483647) ∧
          (pr : Int) = clamp (truncQ v) 0 dst.maxval ∧
          |v - (alpha * (ps : ℚ) + (1 - alpha) * (pd : ℚ) + 1 / 2)| ≤ 1 / 1048576 ∧
          ((∀ z : Int,
              1 / 1048576 < |alpha * (ps : ℚ) + (1 - alpha) * (pd : ℚ) + 1 / 2 - (z : ℚ)|) →
            (pr : Int) =
              clamp (truncQ (alpha * (ps : ℚ) + (1 - alpha) * (pd : ℚ) + 1 / 2)) 0 dst.maxval) ∧
          ((∃ (m : Int) (k : Nat), k ≤ 20 ∧ alpha = (m : ℚ) / (2 : ℚ) ^ k) →
            (pr : Int) =
              clamp (truncQ (alpha * (ps : ℚ) + (1 - alpha) * (pd : ℚ) + 1 / 2)) 0
                dst.maxval)) ∧
      (∀ u v : Int, ¬ (x ≤ u ∧ u < x + src.width ∧ y ≤ v ∧ v < y + src.height) →
        ImageGetPixel dst' u v = ImageGetPixel dst u v) := by
  obtain ⟨dst', hrun, hsh, hin, hout⟩ :=
    blend_spec dst src x y alpha hd.1 hs.1 hd.2.2.2.2.1 hd.2.2.2.2.2.1 hrect
  refine ⟨dst', hrun, hsh.1, hsh.2.1, hsh.2.2.1, ?_, hout⟩
  intro i j hi0 hi hj0 hj
  obtain ⟨p2, p1, e2, e1, e⟩ := hin i j hi0 hi hj0 hj
  have h2 : p2 < 256 := hs.2.2.2.1 p2 (getPixel_mem e2)
  have h1 : p1 < 256 := hd.2.2.2.1 p1 (getPixel_mem e1)
  obtain ⟨v, ev, lv, uv⟩ := blendDouble_bounded h2 h1 ha
  obtain ⟨v', ev', herr⟩ := blendDouble_err h2 h1 ha
  obtain rfl : v' = v := Option.some.inj (ev'.symm.trans ev)
  have hr := truncQ_abs_le (B := 510000256) (by push_cast; linarith) (by push_cast; linarith)
  have hrange : -2147483648 ≤ truncQ v' ∧ truncQ v' ≤ 2147483647 := by omega
  have hint : blendInt p2 p1 alpha = truncQ v' := by
    rw [blendInt_eq, ev]
    simp only [toInt32, INT_MIN, INT_MAX]
    rw [if_pos hrange]
  have hpr : ((blendLevel p2 p1 alpha dst.maxval : Nat) : Int) =
      clamp (truncQ v') 0 dst.maxval := by
    rw [blendLevel_clamp p2 p1 alpha hd.2.1.le hd.2.2.1, hint]
  refine ⟨p2, p1, _, v', e2, e1, e, ev, hrange, hpr, herr, ?_, ?_⟩
  · intro hz
    rw [hpr, truncQ_eq_of_close herr hz]
  · rintro ⟨m, k, hk, rfl⟩
    rw [blendDouble_dyadic h2 h1 m k hk ha] at ev
    rw [hpr, ← Option.some.inj ev]

/-- C6 (amended) at a concrete input: a 1×1 source blended into a 2×1 destination with
`alpha = -3`. -/
theorem C6_blend_spec_witness :
    exDst21.WF ∧ exSrc11.WF ∧ ValidRect exDst21 0 0 exSrc11.width exSrc11.height ∧
    |(-3 : ℚ)| ≤ 1000000 ∧
    ∃ dst', ImageBlend exDst21 0 0 exSrc11 (-3) = some dst' ∧
      dst'.width = exDst21.width ∧ dst'.height = exDst21.height ∧
      dst'.maxval = exDst21.maxval ∧
      (∀ i j : Int, 0 ≤ i → i < exSrc11.width → 0 ≤ j → j < exSrc11.height →
        ∃ (ps pd pr : Nat) (v : ℚ), ImageGetPixel exSrc11 i j = some ps ∧
          ImageGetPixel exDst21 (0 + i) (0 + j) = some pd ∧
          ImageGetPixel dst' (0 + i) (0 + j) = some pr ∧
          blendDouble ps pd (-3) = some v ∧
          (-2147483648 ≤ truncQ v ∧ truncQ v ≤ 2147483647) ∧
          (pr : Int) = clamp (truncQ v) 0 exDst21.maxval ∧
          |v - ((-3 : ℚ) * (ps : ℚ) + (1 - (-3 : ℚ)) * (pd : ℚ) + 1 / 2)| ≤ 1 / 1048576 ∧
          ((∀ z : Int,
              1 / 1048576 < |(-3 : ℚ) * (ps : ℚ) + (1 - (-3 : ℚ)) * (pd : ℚ) + 1 / 2 - (z : ℚ)|) →
            (pr : Int) =
              clamp (truncQ ((-3 : ℚ) * (ps : ℚ) + (1 - (-3 : ℚ)) * (pd : ℚ) + 1 / 2)) 0
                exDst21.maxval) ∧
          ((∃ (m : Int) (k : Nat), k ≤ 20 ∧ (-3 : ℚ) = (m : ℚ) / (2 : ℚ) ^ k) →
            (pr : Int) =
              clamp (truncQ ((-3 : ℚ) * (ps : ℚ) + (1 - (-3 : ℚ)) * (pd : ℚ) + 1 / 2)) 0
                exDst21.maxval)) ∧
      (∀ u v : Int, ¬ (0 ≤ u ∧ u < 0 + exSrc11.width ∧ 0 ≤ v ∧ v < 0 + exSrc11.height) →
        ImageGetPixel dst' u v = ImageGetPixel exDst21 u v) :=
  ⟨exDst21_WF, exSrc11_WF, by unfold ValidRect exDst21 exSrc11; decide, by norm_num,
    C6_blend_spec exDst21 exSrc11 0 0 (-3) exDst21_WF exSrc11_WF
      (by unfold ValidRect exDst21 exSrc11; decide) (by norm_num)⟩

/-- C7 as stated fails: both images have their pixels inside their own range, the
1×1 source fits at `(0,0)`, and blending with `alpha = 1` stores 100 where the source
holds 200. -/
theorem C7_blend_alpha_one_counterexample :
    exDst11.WF ∧ exSrc11.WF ∧ exDst11.InRange ∧ exSrc11.InRange ∧
    ValidRect exDst11 0 0 exSrc11.width exSrc11.height ∧
    ImageValidRect exDst11 0 0 exSrc11.width exSrc11.height = true ∧
    ImageBlend exDst11 0 0 exSrc11 1 = some ⟨1, 1, 100, [100]⟩ ∧
    ImageGetPixel ⟨1, 1, 100, [100]⟩ (0 + 0) (0 + 0) = some 100 ∧
    ImageGetPixel exSrc11 0 0 = some 200 := by
  refine ⟨by unfold Image.WF Image.Shaped exDst11; decide, exSrc11_WF,
    by unfold Image.InRange exDst11; decide, by unfold Image.InRange exSrc11; decide,
    by unfold ValidRect exDst11 exSrc11; decide, by decide, ?_, by decide, by decide⟩
  show ImageBlend ⟨1, 1, 100, [0]⟩ 0 0 ⟨1, 1, 255, [200]⟩ 1 = _
  rw [blend_1x1]
  have h := blendLevel_one 200 0 (M := 100) (by norm_num) (by norm_num) (by norm_num)
  have h' : blendLevel 200 0 1 100 = 100 := by
    have e : min ((200 : Nat) : Int) 100 = 100 := by decide
    rw [e] at h
    exact_mod_cast h
  rw [h']

/-- C7 (amended): for every destination, source and fitting position, `ImageBlend`
with `alpha = 1` completes and stores `min(src(i,j), maxval(dst))` at `(x+i, y+j)`; so
it copies the source pixel exactly wherever that pixel is at most `maxval(dst)`. -/
theorem C7_blend_alpha_one (dst src : Image) (x y : Int) (hd : dst.WF) (hs : src.WF)
    (hrect : ValidRect dst x y src.width src.height) :
    ∃ dst', ImageBlend dst x y src 1 = some dst' ∧
      ∀ i j : Int, 0 ≤ i → i < src.width → 0 ≤ j → j < src.height →
        ∃ ps pr : Nat, ImageGetPixel src i j = some ps ∧
          ImageGetPixel dst' (x + i) (y + j) = some pr ∧
          (pr : Int) = min (ps : Int) dst.maxval ∧
          ((ps : Int) ≤ dst.maxval →
            ImageGetPixel dst' (x + i) (y + j) = ImageGetPixel src i j) := by
  obtain ⟨dst', hrun, -, hin, -⟩ :=
    blend_spec dst src x y 1 hd.1 hs.1 hd.2.2.2.2.1 hd.2.2.2.2.2.1 hrect
  refine ⟨dst', hrun, ?_⟩
  intro i j hi0 hi hj0 hj
  obtain ⟨p2, p1, e2, e1, e⟩ := hin i j hi0 hi hj0 hj
  have h2 : p2 < 256 := hs.2.2.2.1 p2 (getPixel_mem e2)
  have hlev := blendLevel_one p2 p1 (by omega) hd.2.1.le hd.2.2.1
  refine ⟨p2, _, e2, e, hlev, ?_⟩
  intro hle
  rw [e, e2]
  congr 1
  omega

/-- C7 (amended) at a concrete input: the source pixel 200 exceeds `maxval(dst) = 100`. -/
theorem C7_blend_alpha_one_witness :
    exDst21.WF ∧ exSrc11.WF ∧ ValidRect exDst21 0 0 exSrc11.width exSrc11.height ∧
    ∃ dst', ImageBlend exDst21 0 0 exSrc11 1 = some dst' ∧
      ∀ i j : Int, 0 ≤ i → i < exSrc11.width → 0 ≤ j → j < exSrc11.height →
        ∃ ps pr : Nat, ImageGetPixel exSrc11 i j = some ps ∧
          ImageGetPixel dst' (0 + i) (0 + j) = some pr ∧
          (pr : Int) = min (ps : Int) exDst21.maxval ∧
          ((ps : Int) ≤ exDst21.maxval →
            ImageGetPixel dst' (0 + i) (0 + j) = ImageGetPixel exSrc11 i j) :=
  ⟨exDst21_WF, exSrc11_WF, by unfold ValidRect exDst21 exSrc11; decide,
    C7_blend_alpha_one exDst21 exSrc11 0 0 exDst21_WF exSrc11_WF
      (by unfold ValidRect exDst21 exSrc11; decide)⟩

/-- C8 as stated fails: on the one-row image of 16843010 pixels of level 255, blurred
with `dx = 16843009`, `dy = 0`, the window of pixel `(0,0)` holds every pixel; their
sum `S = 4294967550` does not fit the `int` accumulator, which holds 254 after the
loop, and the code stores 0 where `floor(S/n + 1/2) = 255`.  And with `dx = INT_MAX`
the test `j <= dx` of the window loop never fails, so the call on a 1×1 image does not
return. -/
theorem C8_blur_sum_overflow_counterexample :
    exWideWhite.WF ∧ (0 : Int) ≤ 16843009 ∧ (0 : Int) ≤ 0 ∧
    windowSum exWideWhite 16843009 0 0 0 = 4294967550 ∧
    windowCount exWideWhite 16843009 0 0 0 = 16843010 ∧
    ⌊((4294967550 : Int) : ℚ) / ((16843010 : Int) : ℚ) + 1 / 2⌋ = 255 ∧
    (∃ r, ImageBlur exWideWhite 16843009 0 = some r ∧ ImageGetPixel r 0 0 = some 0) ∧
    exOne11.WF ∧ (0 : Int) ≤ 2147483647 ∧ ImageBlur exOne11 2147483647 0 = none := by
  obtain ⟨hn, hS⟩ := constRow_window 16843010 255 255 0 (le_refl 0) (by norm_num)
  have hn' : windowCount exWideWhite 16843009 0 0 0 = 16843010 := hn
  have hS' : windowSum exWideWhite 16843009 0 0 0 = 4294967550 := hS
  refine ⟨exWideWhite_WF, by norm_num, le_refl 0, hS', hn', ?_, ?_, exOne11_WF, by norm_num,
    blur_dx_max_1x1⟩
  · rw [Int.floor_eq_iff]; constructor <;> norm_num
  · obtain ⟨r, hrun, -, hpx⟩ := blur_body_wrap exWideWhite exWideWhite_WF.1
      exWideWhite_WF.2.1 exWideWhite_WF.2.2.1 16843009 0 (by norm_num) (le_refl 0)
      (by show (16843009 : Int) + 16843010 ≤ 2147483647; norm_num)
      (by show (0 : Int) + 1 ≤ 2147483647; norm_num)
    refine ⟨r, hrun, ?_⟩
    rw [hpx 0 0 (le_refl 0) (by show (0 : Int) < 16843010; norm_num) (le_refl 0)
      (by show (0 : Int) < 1; norm_num), hS', hn']
    have w1 : wrapInt 4294967550 = 254 := by decide
    have w2 : wrapInt 16843010 = 16843010 := by decide
    rw [w1, w2, mean_double (by norm_num) (by norm_num) (by norm_num) (by norm_num)]
    have hf : ⌊((254 : Int) : ℚ) / ((16843010 : Int) : ℚ) + 1 / 2⌋ = 0 := by
      rw [Int.floor_eq_iff]; constructor <;> norm_num
    rw [hf, toInt32_intCast (by norm_num) (by norm_num)]
    rfl

/-- C8 (amended): for every image and all `dx, dy ≥ 0` such that `dx + width` and
`dy + height` fit an `int` and, at every pixel, 255 times the number of valid window
positions fits an `int`, `ImageBlur` completes, keeps width, height and maxval, and
each pixel `(x,y)` becomes `floor(S/n + 1/2)` where `S` and `n` are the sum and the
count of the original pixels at the valid positions of the window
`[x-dx, x+dx] × [y-dy, y+dy]`. -/
theorem C8_blur_mean (img : Image) (dx dy : Int) (hwf : img.WF) (hdx : 0 ≤ dx)
    (hdy : 0 ≤ dy) (hbx : dx + img.width ≤ 2147483647) (hby : dy + img.height ≤ 2147483647)
    (hcnt : ∀ x y : Int, 0 ≤ x → x < img.width → 0 ≤ y → y < img.height →
      255 * windowCount img dx dy x y ≤ 2147483647) :
    ∃ img', ImageBlur img dx dy = some img' ∧
      img'.width = img.width ∧ img'.height = img.height ∧ img'.maxval = img.maxval ∧
      ∀ x y : Int, 0 ≤ x → x < img.width → 0 ≤ y → y < img.height →
        0 < windowCount img dx dy x y ∧
        ∃ p : Nat, ImageGetPixel img' x y = some p ∧
          (p : Int) =
            ⌊(windowSum img dx dy x y : ℚ) / (windowCount img dx dy x y : ℚ) + 1 / 2⌋ := by
  obtain ⟨hs, hm0, hm, hpix, -⟩ := hwf
  have hB : ∀ p ∈ img.pixel, (p : Int) ≤ 255 := fun p hp => by
    have := hpix p hp; omega
  obtain ⟨img', hrun, hsh, hpx⟩ := blur_body_spec img hs hm0 hm 255 (by norm_num)
    (le_refl _) hB dx dy hdx hdy hbx hby hcnt
  refine ⟨img', hrun, hsh.1, hsh.2.1, hsh.2.2.1, ?_⟩
  intro x y hx0 hx hy0 hy
  have hn := windowCount_pos img dx dy x y hdx hdy hx0 hx hy0 hy
  obtain ⟨-, e2, -⟩ := mean_round (windowSum_nonneg img dx dy x y) hn
    (windowSum_le (by norm_num) hB dx dy x y)
  exact ⟨hn, _, hpx x y hx0 hx hy0 hy, Int.toNat_of_nonneg e2⟩

/-- C8 (amended) at a concrete input: a 3×1 image blurred with `dx = 1`, `dy = 0`. -/
theorem C8_blur_mean_witness :
    exRow31.WF ∧ (0 : Int) ≤ 1 ∧ (0 : Int) ≤ 0 ∧ 1 + exRow31.width ≤ 2147483647 ∧
    0 + exRow31.height ≤ 2147483647 ∧
    (∀ x y : Int, 0 ≤ x → x < exRow31.width → 0 ≤ y → y < exRow31.height →
      255 * windowCount exRow31 1 0 x y ≤ 2147483647) ∧
    ∃ img', ImageBlur exRow31 1 0 = some img' ∧
      img'.width = exRow31.width ∧ img'.height = exRow31.height ∧
      img'.maxval = exRow31.maxval ∧
      ∀ x y : Int, 0 ≤ x → x < exRow31.width → 0 ≤ y → y < exRow31.height →
        0 < windowCount exRow31 1 0 x y ∧
        ∃ p : Nat, ImageGetPixel img' x y = some p ∧
          (p : Int) =
            ⌊(windowSum exRow31 1 0 x y : ℚ) / (windowCount exRow31 1 0 x y : ℚ) + 1 / 2⌋ :=
  have hcnt : ∀ x y : Int, 0 ≤ x → x < exRow31.width → 0 ≤ y → y < exRow31.height →
      255 * windowCount exRow31 1 0 x y ≤ 2147483647 := fun x y _ _ _ _ => by
    have h := windowCount_le exRow31 exRow31_WF.1 1 0 x y
    have e : exRow31.width * exRow31.height = 3 := by decide
    rw [e] at h
    omega
  ⟨exRow31_WF, by decide, by decide, by decide, by decide, hcnt,
    C8_blur_mean exRow31 1 0 exRow31_WF (by decide) (by decide) (by decide) (by decide) hcnt⟩

/-- C9 as stated fails for `ImageBlur`: on the one-row image of 21474837 pixels of
level 100 with `maxval = 100` (every pixel in range), blurred with `dx = 21474836`,
`dy = 0`, the sum of the window of pixel `(0,0)` is `2147483700 > INT_MAX`; the `int`
accumulator holds `-2147483596`, the mean converts to `-99`, and the code stores its low
byte 157, above `maxval`. -/
theorem C9_blur_out_of_range_counterexample :
    exWideGray.WF ∧ exWideGray.InRange ∧ (0 : Int) ≤ 21474836 ∧ (0 : Int) ≤ 0 ∧
    ∃ r, ImageBlur exWideGray 21474836 0 = some r ∧ r.maxval = 100 ∧
      ImageGetPixel r 0 0 = some 157 ∧ ¬ r.InRange := by
  obtain ⟨hn, hS⟩ := constRow_window 21474837 100 100 0 (le_refl 0) (by norm_num)
  have hn' : windowCount exWideGray 21474836 0 0 0 = 21474837 := hn
  have hS' : windowSum exWideGray 21474836 0 0 0 = 2147483700 := hS
  refine ⟨exWideGray_WF, exWideGray_InRange, by norm_num, le_refl 0, ?_⟩
  obtain ⟨r, hrun, hsh, hpx⟩ := blur_body_wrap exWideGray exWideGray_WF.1
    exWideGray_WF.2.1 exWideGray_WF.2.2.1 21474836 0 (by norm_num) (le_refl 0)
    (by show (21474836 : Int) + 21474837 ≤ 2147483647; norm_num)
    (by show (0 : Int) + 1 ≤ 2147483647; norm_num)
  have hp : ImageGetPixel r 0 0 = some 157 := by
    rw [hpx 0 0 (le_refl 0) (by show (0 : Int) < 21474837; norm_num) (le_refl 0)
      (by show (0 : Int) < 1; norm_num), hS', hn']
    have w1 : wrapInt 2147483700 = -2147483596 := by decide
    have w2 : wrapInt 21474837 = 21474837 := by decide
    rw [w1, w2, mean_double_neg (k := 100) (by norm_num) (by norm_num) (by norm_num)
      (by norm_num) (by norm_num), toInt32_intCast (by norm_num) (by norm_num)]
    rfl
  have hm : r.maxval = 100 := hsh.2.2.1
  refine ⟨r, hrun, hm, hp, ?_⟩
  intro hr
  have := hr 157 (getPixel_mem hp)
  rw [hm] at this
  omega

/-- C9 (amended): on an image whose pixels all lie in `[0, maxval]`, each of
`ImageNegative`, `ImageThreshold` (any `thr` in 0..255), `ImageBlend` into the image
(any fitting source, any `alpha` with `|alpha| ≤ 10^6`) and `ImageBlur` (any
`dx, dy ≥ 0` such that `dx + width` and `dy + height` fit an `int` and, at every pixel,
`maxval` times the number of valid window positions fits an `int`) completes and leaves
every pixel in `[0, maxval]`. -/
theorem C9_pixel_range_invariant (img : Image) (hwf : img.WF) (hr : img.InRange) :
    (∃ r, ImageNegative img = some r ∧ r.maxval = img.maxval ∧ r.InRange) ∧
    (∀ thr : Nat, thr ≤ 255 →
      ∃ r, ImageThreshold img thr = some r ∧ r.maxval = img.maxval ∧ r.InRange) ∧
    (∀ (x y : Int) (src : Image) (alpha : ℚ), src.WF →
      ValidRect img x y src.width src.height → |alpha| ≤ 1000000 →
      ∃ r, ImageBlend img x y src alpha = some r ∧ r.maxval = img.maxval ∧ r.InRange) ∧
    (∀ dx dy : Int, 0 ≤ dx → 0 ≤ dy → dx + img.width ≤ 2147483647 →
      dy + img.height ≤ 2147483647 →
      (∀ x y : Int, 0 ≤ x → x < img.width → 0 ≤ y → y < img.height →
        img.maxval * windowCount img dx dy x y ≤ 2147483647) →
      ∃ r, ImageBlur img dx dy = some r ∧ r.maxval = img.maxval ∧ r.InRange) := by
  obtain ⟨hs, hm0, hm, hpix, hW, hH, -⟩ := hwf
  refine ⟨?_, ?_, ?_, ?_⟩
  · obtain ⟨r, hrun, hsh, hpx⟩ := negative_spec img hs
    refine ⟨r, hrun, hsh.2.2.1, inRange_of_pointwise hs hsh _ hpx ?_⟩
    intro p hp
    have := hr p hp
    rw [toUint8_of_range (Int.ofNat_nonneg _) (by omega)]
    omega
  · intro thr _
    obtain ⟨r, hrun, hsh, hpx⟩ := threshold_spec img thr hs
    refine ⟨r, hrun, hsh.2.2.1, inRange_of_pointwise hs hsh _ hpx ?_⟩
    intro p _
    split_ifs
    · rw [one_mul, toUint8_of_range hm0.le (by omega)]
    · rw [zero_mul, toUint8_of_range (le_refl 0) (by norm_num)]; omega
  · intro x y src alpha hsrc hrect _
    obtain ⟨r, hrun, hsh, hin, hout⟩ := blend_spec img src x y alpha hs hsrc.1 hW hH hrect
    refine ⟨r, hrun, hsh.2.2.1, ?_⟩
    unfold Image.InRange
    rw [hsh.2.2.1]
    apply inRange_of_get (hsh.shaped hs)
    intro u v hu0 hu hv0 hv
    rw [hsh.1] at hu
    rw [hsh.2.1] at hv
    by_cases hcov : x ≤ u ∧ u < x + src.width ∧ y ≤ v ∧ v < y + src.height
    · obtain ⟨p2, p1, _, _, e⟩ := hin (u - x) (v - y) (by omega) (by omega) (by omega)
        (by omega)
      rw [show x + (u - x) = u by ring, show y + (v - y) = v by ring] at e
      refine ⟨_, e, ?_⟩
      rw [blendLevel_clamp p2 p1 alpha hm0.le hm]
      unfold clamp
      omega
    · obtain ⟨p, e⟩ := getPixel_some hs hu0 hu hv0 hv
      exact ⟨p, (hout u v hcov).trans e, hr p (getPixel_mem e)⟩
  · intro dx dy hdx hdy hbx hby hcnt
    obtain ⟨r, hrun, hsh, hpx⟩ := blur_body_spec img hs hm0 hm img.maxval (by omega) hm hr
      dx dy hdx hdy hbx hby hcnt
    refine ⟨r, hrun, hsh.2.2.1, ?_⟩
    unfold Image.InRange
    rw [hsh.2.2.1]
    apply inRange_of_get (hsh.shaped hs)
    intro x y hx0 hx hy0 hy
    rw [hsh.1] at hx
    rw [hsh.2.1] at hy
    refine ⟨_, hpx x y hx0 hx hy0 hy, ?_⟩
    obtain ⟨-, e2, e3⟩ := mean_round (windowSum_nonneg img dx dy x y)
      (windowCount_pos img dx dy x y hdx hdy hx0 hx hy0 hy)
      (windowSum_le hm0.le hr dx dy x y)
    rw [Int.toNat_of_nonneg e2]
    exact e3

/-- C9 (amended) at a concrete input: the 2×1 image with pixels 50 and 7 and
`maxval = 100`. -/
theorem C9_pixel_range_invariant_witness :
    exDst21.WF ∧ exDst21.InRange ∧
    ((∃ r, ImageNegative exDst21 = some r ∧ r.maxval = exDst21.maxval ∧ r.InRange) ∧
    (∀ thr : Nat, thr ≤ 255 →
      ∃ r, ImageThreshold exDst21 thr = some r ∧ r.maxval = exDst21.maxval ∧ r.InRange) ∧
    (∀ (x y : Int) (src : Image) (alpha : ℚ), src.WF →
      ValidRect exDst21 x y src.width src.height → |alpha| ≤ 1000000 →
      ∃ r, ImageBlend exDst21 x y src alpha = some r ∧ r.maxval = exDst21.maxval ∧
        r.InRange) ∧
    (∀ dx dy : Int, 0 ≤ dx → 0 ≤ dy → dx + exDst21.width ≤ 2147483647 →
      dy + exDst21.height ≤ 2147483647 →
      (∀ x y : Int, 0 ≤ x → x < exDst21.width → 0 ≤ y → y < exDst21.height →
        exDst21.maxval * windowCount exDst21 dx dy x y ≤ 2147483647) →
      ∃ r, ImageBlur exDst21 dx dy = some r ∧ r.maxval = exDst21.maxval ∧ r.InRange)) :=
  ⟨exDst21_WF, by unfold Image.InRange exDst21; decide,
    C9_pixel_range_invariant exDst21 exDst21_WF (by unfold Image.InRange exDst21; decide)⟩

/-- C10: for every `img1` and every `img2` with at least one pixel,
`ImageLocateSubImage` returns 0 or 1; when it returns 1 the reported position matches
and no candidate before it in the x-ascending-then-y-ascending order matches; when it
returns 0 no candidate matches and `(px,py)` are the values held on entry. -/
theorem C10_locate_first_match (img1 img2 : Image) (px py : Int) (h1 : img1.WF)
    (h2 : img2.WF) (hne : 0 < img2.width * img2.height) :
    ∃ r qx qy : Int, ImageLocateSubImage img1 px py img2 = some (r, qx, qy) ∧
      (r = 1 ∨ r = 0) ∧
      (r = 1 → ImageMatchSubImage img1 qx qy img2 = some 1 ∧
        ∀ x' y' : Int, 0 ≤ x' → x' < img1.width - img2.width →
          0 ≤ y' → y' < img1.height - img2.height →
          (x' < qx ∨ (x' = qx ∧ y' < qy)) → ImageMatchSubImage img1 x' y' img2 = some 0) ∧
      (r = 0 → qx = px ∧ qy = py ∧
        ∀ x' y' : Int, 0 ≤ x' → x' < img1.width - img2.width →
          0 ≤ y' → y' < img1.height - img2.height →
          ImageMatchSubImage img1 x' y' img2 = some 0) := by
  have hw : 0 < img2.width := by
    rcases eq_or_lt_of_le h2.1.1 with h | h
    · rw [← h] at hne; simp at hne
    · exact h
  have hh : 0 < img2.height := by
    rcases eq_or_lt_of_le h2.1.2.1 with h | h
    · rw [← h] at hne; simp at hne
    · exact h
  rcases locate_spec img1 img2 px py h1.1 h2.1 hw hh with ⟨e, hall⟩ |
    ⟨qx, qy, _, _, e, hm, hbefore⟩
  · exact ⟨0, px, py, e, Or.inr rfl, fun h => absurd h (by decide), fun _ => ⟨rfl, rfl, hall⟩⟩
  · exact ⟨1, qx, qy, e, Or.inl rfl, fun _ => ⟨hm, hbefore⟩, fun h => absurd h (by decide)⟩

/-- C10 at a concrete input: `exGray22` is searched inside `exHay33`. -/
theorem C10_locate_first_match_witness :
    exHay33.WF ∧ exGray22.WF ∧ 0 < exGray22.width * exGray22.height ∧
    ∃ r qx qy : Int, ImageLocateSubImage exHay33 (-1) (-1) exGray22 = some (r, qx, qy) ∧
      (r = 1 ∨ r = 0) ∧
      (r = 1 → ImageMatchSubImage exHay33 qx qy exGray22 = some 1 ∧
        ∀ x' y' : Int, 0 ≤ x' → x' < exHay33.width - exGray22.width →
          0 ≤ y' → y' < exHay33.height - exGray22.height →
          (x' < qx ∨ (x' = qx ∧ y' < qy)) →
          ImageMatchSubImage exHay33 x' y' exGray22 = some 0) ∧
      (r = 0 → qx = -1 ∧ qy = -1 ∧
        ∀ x' y' : Int, 0 ≤ x' → x' < exHay33.width - exGray22.width →
          0 ≤ y' → y' < exHay33.height - exGray22.height →
          ImageMatchSubImage exHay33 x' y' exGray22 = some 0) :=
  ⟨by unfold Image.WF Image.Shaped exHay33; decide,
    by unfold Image.WF Image.Shaped exGray22; decide, by decide,
    C10_locate_first_match exHay33 exGray22 (-1) (-1)
      (by unfold Image.WF Image.Shaped exHay33; decide)
      (by unfold Image.WF Image.Shaped exGray22; decide) (by decide)⟩

/-- C11: for every `img1` and `img2` with `width(img2) ≥ width(img1)` or
`height(img2) ≥ height(img1)`, `ImageLocateSubImage` returns 0 and leaves `(px,py)`
untouched; its nested loop ends without running its body whatever that body is (even
one that always aborts), so no pixel is read and no assertion can fail.  The images
are arbitrary records: nothing is assumed about their pixel arrays. -/
theorem C11_locate_empty_range (img1 img2 : Image) (px py : Int)
    (h : img2.width ≥ img1.width ∨ img2.height ≥ img1.height) :
    ImageLocateSubImage img1 px py img2 = some (0, px, py) ∧
    ∀ body : Nat → Nat → Option (Option (Int × Int × Int)),
      searchLoop (ImageWidth img1 - ImageWidth img2).toNat
        (fun i => searchLoop (ImageHeight img1 - ImageHeight img2).toNat (body i)) =
      some none := by
  have hnm : (ImageWidth img1 - ImageWidth img2).toNat = 0 ∨
      (ImageHeight img1 - ImageHeight img2).toNat = 0 := by
    simp only [ImageWidth, ImageHeight]
    omega
  refine ⟨?_, fun body => searchLoop2_empty _ _ hnm body⟩
  unfold ImageLocateSubImage
  rw [searchLoop2_empty _ _ hnm]
  rfl

/-- C11 at a concrete input: the 3×3 image is searched inside the 2×2 image. -/
theorem C11_locate_empty_range_witness :
    (exBlack33.width ≥ exGray22.width ∨ exBlack33.height ≥ exGray22.height) ∧
    (ImageLocateSubImage exGray22 (-1) (-1) exBlack33 = some (0, -1, -1) ∧
    ∀ body : Nat → Nat → Option (Option (Int × Int × Int)),
      searchLoop (ImageWidth exGray22 - ImageWidth exBlack33).toNat
        (fun i => searchLoop (ImageHeight exGray22 - ImageHeight exBlack33).toNat (body i)) =
      some none) :=
  ⟨Or.inl (by decide), C11_locate_empty_range exGray22 exBlack33 (-1) (-1) (Or.inl (by decide))⟩

/-- C12: when `img2` fits inside `img1` at `(x,y)`, `ImageMatchSubImage` returns 1 or
0, and it returns 1 exactly when `img2(i,j) = img1(x+i, y+j)` for every pixel `(i,j)`
of `img2`. -/
theorem C12_match_iff (img1 img2 : Image) (x y : Int) (h1 : img1.WF) (h2 : img2.WF)
    (hpos : ImageValidPos img1 x y = true) (hxw : x + img2.width ≤ img1.width)
    (hyh : y + img2.height ≤ img1.height) :
    ∃ r : Int, ImageMatchSubImage img1 x y img2 = some r ∧ (r = 1 ∨ r = 0) ∧
      (r = 1 ↔ ∀ i j : Int, 0 ≤ i → i < img2.width → 0 ≤ j → j < img2.height →
        ImageGetPixel img2 i j = ImageGetPixel img1 (x + i) (y + j)) := by
  obtain ⟨⟨hx0, hx⟩, hy0, hy⟩ := (validPos_iff _ _ _).1 hpos
  rcases match_spec img1 img2 h1.1 h2.1 x y hx0 hx hy0 hy hxw hyh with ⟨e, hall⟩ |
    ⟨e, i, j, ⟨hi0, hi⟩, ⟨hj0, hj⟩, hne⟩
  · refine ⟨1, e, Or.inl rfl, fun _ => ?_, fun _ => rfl⟩
    intro i j hi0 hi hj0 hj
    rw [add_comm x i, add_comm y j]
    exact hall i j hi0 hi hj0 hj
  · refine ⟨0, e, Or.inr rfl, fun h => absurd h (by decide), fun hall => ?_⟩
    exfalso
    apply hne
    rw [add_comm i x, add_comm j y]
    exact hall i j hi0 hi hj0 hj

/-- C12 at a concrete input: `exGray22` against `exHay33` at `(1,1)`, the last position
where it fits. -/
theorem C12_match_iff_witness :
    exHay33.WF ∧ exGray22.WF ∧ ImageValidPos exHay33 1 1 = true ∧
    1 + exGray22.width ≤ exHay33.width ∧ 1 + exGray22.height ≤ exHay33.height ∧
    ∃ r : Int, ImageMatchSubImage exHay33 1 1 exGray22 = some r ∧ (r = 1 ∨ r = 0) ∧
      (r = 1 ↔ ∀ i j : Int, 0 ≤ i → i < exGray22.width → 0 ≤ j → j < exGray22.height →
        ImageGetPixel exGray22 i j = ImageGetPixel exHay33 (1 + i) (1 + j)) :=
  ⟨exHay33_WF, exGray22_WF, by decide, by decide, by decide,
    C12_match_iff exHay33 exGray22 1 1 exHay33_WF exGray22_WF (by decide) (by decide)
      (by decide)⟩

/-- C14: for every destination, source and fitting position, `ImagePaste` completes;
afterwards `dst(x+i, y+j) = src(i,j)` for every pixel of the source (the stored value
is the source value itself), every pixel outside the rectangle is unchanged, and so are
width, height and maxval. -/
theorem C14_paste_spec (dst src : Image) (x y : Int) (hd : dst.WF) (hs : src.WF)
    (hrect : ValidRect dst x y src.width src.height) :
    ∃ dst', ImagePaste dst x y src = some dst' ∧
      dst'.width = dst.width ∧ dst'.height = dst.height ∧ dst'.maxval = dst.maxval ∧
      (∀ i j : Int, 0 ≤ i → i < src.width → 0 ≤ j → j < src.height →
        ∃ p : Nat, ImageGetPixel src i j = some p ∧
          ImageGetPixel dst' (x + i) (y + j) = some p) ∧
      (∀ u v : Int, ¬ (x ≤ u ∧ u < x + src.width ∧ y ≤ v ∧ v < y + src.height) →
        ImageGetPixel dst' u v = ImageGetPixel dst u v) := by
  obtain ⟨dst', hrun, hsh, hin, hout⟩ := paste_spec dst src x y hd.1 hs.1
    hd.2.2.2.2.1 hd.2.2.2.2.2.1 hrect
  exact ⟨dst', hrun, hsh.1, hsh.2.1, hsh.2.2.1, hin, hout⟩

/-- C14 at a concrete input: a source with pixel 200 pasted into a destination with
`maxval = 100`. -/
theorem C14_paste_spec_witness :
    exDst21.WF ∧ exSrc11.WF ∧ ValidRect exDst21 1 0 exSrc11.width exSrc11.height ∧
    ∃ dst', ImagePaste exDst21 1 0 exSrc11 = some dst' ∧
      dst'.width = exDst21.width ∧ dst'.height = exDst21.height ∧
      dst'.maxval = exDst21.maxval ∧
      (∀ i j : Int, 0 ≤ i → i < exSrc11.width → 0 ≤ j → j < exSrc11.height →
        ∃ p : Nat, ImageGetPixel exSrc11 i j = some p ∧
          ImageGetPixel dst' (1 + i) (0 + j) = some p) ∧
      (∀ u v : Int, ¬ (1 ≤ u ∧ u < 1 + exSrc11.width ∧ 0 ≤ v ∧ v < 0 + exSrc11.height) →
        ImageGetPixel dst' u v = ImageGetPixel exDst21 u v) :=
  ⟨exDst21_WF, exSrc11_WF, by unfold ValidRect exDst21 exSrc11; decide,
    C14_paste_spec exDst21 exSrc11 1 0 exDst21_WF exSrc11_WF
      (by unfold ValidRect exDst21 exSrc11; decide)⟩

/-- C16: for every image, `ImageMirror` returns an image with the same width, height
and maxval whose pixel at every valid position `(x,y)` is the source pixel
`(width-1-x, y)`. -/
theorem C16_mirror_spec (img : Image) (hwf : img.WF) :
    ∃ r, ImageMirror img = some r ∧
      r.width = img.width ∧ r.height = img.height ∧ r.maxval = img.maxval ∧
      ∀ x y : Int, 0 ≤ x → x < img.width → 0 ≤ y → y < img.height →
        ∃ p : Nat, ImageGetPixel r x y = some p ∧
          ImageGetPixel img (img.width - 1 - x) y = some p := by
  obtain ⟨r, hrun, hsh, hpx⟩ := mirror_spec img hwf.1 hwf.2.1 hwf.2.2.1
  refine ⟨r, hrun, hsh.1, hsh.2.1, hsh.2.2.1, ?_⟩
  intro x y hx0 hx hy0 hy
  obtain ⟨p, e1, e2⟩ := hpx x y hx0 hx hy0 hy
  exact ⟨p, e2, e1⟩

/-- C16 at a concrete input: the 3×1 image `exRow31`. -/
theorem C16_mirror_spec_witness :
    exRow31.WF ∧
    ∃ r, ImageMirror exRow31 = some r ∧
      r.width = exRow31.width ∧ r.height = exRow31.height ∧ r.maxval = exRow31.maxval ∧
      ∀ x y : Int, 0 ≤ x → x < exRow31.width → 0 ≤ y → y < exRow31.height →
        ∃ p : Nat, ImageGetPixel r x y = some p ∧
          ImageGetPixel exRow31 (exRow31.width - 1 - x) y = some p :=
  ⟨exRow31_WF, C16_mirror_spec exRow31 exRow31_WF⟩

/-- C17: for every image, mirroring twice completes and gives an image with the same
width, height, maxval and the same pixel at every position: the image itself. -/
theorem C17_mirror_involutive (img : Image) (hwf : img.WF) :
    ∃ r1 r2, ImageMirror img = some r1 ∧ ImageMirror r1 = some r2 ∧
      r2.width = img.width ∧ r2.height = img.height ∧ r2.maxval = img.maxval ∧
      (∀ x y : Int, ImageGetPixel r2 x y = ImageGetPixel img x y) ∧ r2 = img := by
  obtain ⟨r1, hrun1, hsh1, hpx1⟩ := mirror_spec img hwf.1 hwf.2.1 hwf.2.2.1
  have hs1 : r1.Shaped := hsh1.shaped hwf.1
  obtain ⟨r2, hrun2, hsh2, hpx2⟩ := mirror_spec r1 hs1 (by rw [hsh1.2.2.1]; exact hwf.2.1)
    (by rw [hsh1.2.2.1]; exact hwf.2.2.1)
  have hsh : SameShape r2 img := hsh2.trans hsh1
  have hvalid : ∀ x y : Int, 0 ≤ x → x < img.width → 0 ≤ y → y < img.height →
      ImageGetPixel r2 x y = ImageGetPixel img x y := by
    intro x y hx0 hx hy0 hy
    obtain ⟨p, e1, e2⟩ := hpx2 x y hx0 (by rw [hsh1.1]; exact hx) hy0 (by rw [hsh1.2.1]; exact hy)
    obtain ⟨q, e3, e4⟩ := hpx1 (img.width - 1 - x) y (by omega) (by omega) hy0 hy
    rw [hsh1.1] at e1
    rw [show img.width - 1 - (img.width - 1 - x) = x by ring] at e3
    rw [e2, e3, ← e4, e1]
  have heq : r2 = img := image_ext hsh hwf.1 hvalid
  exact ⟨r1, r2, hrun1, hrun2, hsh.1, hsh.2.1, hsh.2.2.1, fun x y => by rw [heq], heq⟩

/-- C17 at a concrete input: the 3×1 image `exRow31`. -/
theorem C17_mirror_involutive_witness :
    exRow31.WF ∧
    ∃ r1 r2, ImageMirror exRow31 = some r1 ∧ ImageMirror r1 = some r2 ∧
      r2.width = exRow31.width ∧ r2.height = exRow31.height ∧
      r2.maxval = exRow31.maxval ∧
      (∀ x y : Int, ImageGetPixel r2 x y = ImageGetPixel exRow31 x y) ∧ r2 = exRow31 :=
  ⟨exRow31_WF, C17_mirror_involutive exRow31 exRow31_WF⟩

/-- C18: on an image whose pixels all lie in `[0, maxval]`, `ImageNegative` replaces
each pixel `p` by `maxval - p`, and applying it twice restores every pixel: the result
is the image itself. -/
theorem C18_negative_involutive (img : Image) (hwf : img.WF) (hr : img.InRange) :
    ∃ r1 r2, ImageNegative img = some r1 ∧ ImageNegative r1 = some r2 ∧
      (∀ x y : Int, 0 ≤ x → x < img.width → 0 ≤ y → y < img.height →
        ∃ p : Nat, ImageGetPixel img x y = some p ∧
          ImageGetPixel r1 x y = some (img.maxval - p).toNat ∧
          ImageGetPixel r2 x y = some p) ∧
      r2 = img := by
  obtain ⟨hs, hm0, hm, -⟩ := hwf
  obtain ⟨r1, hrun1, hsh1, hpx1⟩ := negative_spec img hs
  have hs1 : r1.Shaped := hsh1.shaped hs
  obtain ⟨r2, hrun2, hsh2, hpx2⟩ := negative_spec r1 hs1
  have hvalid : ∀ x y : Int, 0 ≤ x → x < img.width → 0 ≤ y → y < img.height →
      ∃ p : Nat, ImageGetPixel img x y = some p ∧
        ImageGetPixel r1 x y = some (img.maxval - p).toNat ∧
        ImageGetPixel r2 x y = some p := by
    intro x y hx0 hx hy0 hy
    obtain ⟨p, e1, e2⟩ := hpx1 x y hx0 hx hy0 hy
    obtain ⟨q, e3, e4⟩ := hpx2 x y hx0 (by rw [hsh1.1]; exact hx) hy0 (by rw [hsh1.2.1]; exact hy)
    have hp : (p : Int) ≤ img.maxval := hr p (getPixel_mem e1)
    rw [negLevel_eq hp hm] at e2
    rw [e2] at e3
    cases e3
    refine ⟨p, e1, e2, ?_⟩
    rw [e4, hsh1.2.2.1, negLevel_eq (by omega) hm]
    congr 1
    omega
  refine ⟨r1, r2, hrun1, hrun2, hvalid, image_ext (hsh2.trans hsh1) hs ?_⟩
  intro x y hx0 hx hy0 hy
  obtain ⟨p, e1, _, e3⟩ := hvalid x y hx0 hx hy0 hy
  rw [e1, e3]

/-- C18 at a concrete input: the 2×1 image with pixels 50 and 7 and `maxval = 100`. -/
theorem C18_negative_involutive_witness :
    exDst21.WF ∧ exDst21.InRange ∧
    ∃ r1 r2, ImageNegative exDst21 = some r1 ∧ ImageNegative r1 = some r2 ∧
      (∀ x y : Int, 0 ≤ x → x < exDst21.width → 0 ≤ y → y < exDst21.height →
        ∃ p : Nat, ImageGetPixel exDst21 x y = some p ∧
          ImageGetPixel r1 x y = some (exDst21.maxval - p).toNat ∧
          ImageGetPixel r2 x y = some p) ∧
      r2 = exDst21 :=
  ⟨exDst21_WF, by unfold Image.InRange exDst21; decide,
    C18_negative_involutive exDst21 exDst21_WF (by unfold Image.InRange exDst21; decide)⟩

/-- C19: on an image whose pixels all lie in `[0, maxval]` and for every threshold `t`
in 0..255, `ImageThreshold` replaces each pixel `p` by `maxval` if `p ≥ t` and by 0
otherwise, and applying it a second time gives exactly the image obtained after the
first application. -/
theorem C19_threshold_idempotent (img : Image) (t : Nat) (hwf : img.WF) (hr : img.InRange)
    (ht : t ≤ 255) :
    ∃ r1 r2, ImageThreshold img t = some r1 ∧ ImageThreshold r1 t = some r2 ∧
      (∀ x y : Int, 0 ≤ x → x < img.width → 0 ≤ y → y < img.height →
        ∃ p : Nat, ImageGetPixel img x y = some p ∧
          ImageGetPixel r1 x y = some (if p ≥ t then img.maxval.toNat else 0) ∧
          ImageGetPixel r2 x y = ImageGetPixel r1 x y) ∧
      r2 = r1 := by
  obtain ⟨hs, hm0, hm, -⟩ := hwf
  obtain ⟨r1, hrun1, hsh1, hpx1⟩ := threshold_spec img t hs
  have hs1 : r1.Shaped := hsh1.shaped hs
  obtain ⟨r2, hrun2, hsh2, hpx2⟩ := threshold_spec r1 t hs1
  have hvalid : ∀ x y : Int, 0 ≤ x → x < img.width → 0 ≤ y → y < img.height →
      ∃ p : Nat, ImageGetPixel img x y = some p ∧
        ImageGetPixel r1 x y = some (if p ≥ t then img.maxval.toNat else 0) ∧
        ImageGetPixel r2 x y = ImageGetPixel r1 x y := by
    intro x y hx0 hx hy0 hy
    obtain ⟨p, e1, e2⟩ := hpx1 x y hx0 hx hy0 hy
    obtain ⟨q, e3, e4⟩ := hpx2 x y hx0 (by rw [hsh1.1]; exact hx) hy0 (by rw [hsh1.2.1]; exact hy)
    have hp : (p : Int) ≤ img.maxval := hr p (getPixel_mem e1)
    rw [thrLevel_eq p t hm0.le hm] at e2
    rw [e2] at e3
    cases e3
    refine ⟨p, e1, e2, ?_⟩
    rw [e4, e2, hsh1.2.2.1, thrLevel_eq _ t hm0.le hm]
    congr 1
    by_cases hpt : p ≥ t
    · have : img.maxval.toNat ≥ t := by omega
      simp only [hpt, if_true, this]
    · have : ¬ (0 ≥ t) := by omega
      simp only [hpt, if_false, this]
  refine ⟨r1, r2, hrun1, hrun2, hvalid, image_ext hsh2 hs1 ?_⟩
  intro x y hx0 hx hy0 hy
  obtain ⟨_, _, _, e⟩ := hvalid x y hx0 (by rw [← hsh1.1]; exact hx) hy0
    (by rw [← hsh1.2.1]; exact hy)
  exact e

/-- C19 at a concrete input: the 2×1 image with pixels 50 and 7, threshold 50. -/
theorem C19_threshold_idempotent_witness :
    exDst21.WF ∧ exDst21.InRange ∧ 50 ≤ 255 ∧
    ∃ r1 r2, ImageThreshold exDst21 50 = some r1 ∧ ImageThreshold r1 50 = some r2 ∧
      (∀ x y : Int, 0 ≤ x → x < exDst21.width → 0 ≤ y → y < exDst21.height →
        ∃ p : Nat, ImageGetPixel exDst21 x y = some p ∧
          ImageGetPixel r1 x y = some (if p ≥ 50 then exDst21.maxval.toNat else 0) ∧
          ImageGetPixel r2 x y = ImageGetPixel r1 x y) ∧
      r2 = r1 :=
  ⟨exDst21_WF, by unfold Image.InRange exDst21; decide, by decide,
    C19_threshold_idempotent exDst21 50 exDst21_WF (by unfold Image.InRange exDst21; decide)
      (by decide)⟩

/-- C20: for every image, `ImageBlur` with `dx = dy = 0` completes and changes
nothing: width, height, maxval and every pixel are as before, the result is the image
itself. -/
theorem C20_blur_zero_identity (img : Image) (hwf : img.WF) :
    ∃ r, ImageBlur img 0 0 = some r ∧
      r.width = img.width ∧ r.height = img.height ∧ r.maxval = img.maxval ∧
      (∀ x y : Int, ImageGetPixel r x y = ImageGetPixel img x y) ∧ r = img := by
  obtain ⟨hs, hm0, hm, hpix, hW, hH, -⟩ := hwf
  have hB : ∀ p ∈ img.pixel, (p : Int) ≤ 255 := fun p hp => by
    have := hpix p hp; omega
  have hcnt : ∀ x y : Int, 0 ≤ x → x < img.width → 0 ≤ y → y < img.height →
      windowCount img 0 0 x y = 1 := fun x y hx0 hx hy0 hy => by
    simp [windowCount, window_zero img x y hx0 hx hy0 hy]
  obtain ⟨r, hrun, hsh, hpx⟩ := blur_body_spec img hs hm0 hm 255 (by norm_num) (le_refl _)
    hB 0 0 (le_refl 0) (le_refl 0) (by omega) (by omega)
    (fun x y hx0 hx hy0 hy => by rw [hcnt x y hx0 hx hy0 hy]; norm_num)
  have hvalid : ∀ x y : Int, 0 ≤ x → x < img.width → 0 ≤ y → y < img.height →
      ImageGetPixel r x y = ImageGetPixel img x y := by
    intro x y hx0 hx hy0 hy
    obtain ⟨p, e⟩ := getPixel_some hs hx0 hx hy0 hy
    have hS : windowSum img 0 0 x y = (p : Int) := by
      simp [windowSum, window_zero img x y hx0 hx hy0 hy, pixelAt, e]
    rw [hpx x y hx0 hx hy0 hy, e, hS, hcnt x y hx0 hx hy0 hy]
    have ht : ⌊((p : Int) : ℚ) / ((1 : Int) : ℚ) + 1 / 2⌋ = (p : Int) := by
      have h0 : (0 : ℚ) ≤ (p : ℚ) := Nat.cast_nonneg p
      have hq : ((p : Int) : ℚ) / ((1 : Int) : ℚ) + 1 / 2 = (p : ℚ) + 1 / 2 := by
        push_cast; ring
      rw [hq, Int.floor_eq_iff]
      push_cast
      constructor <;> linarith
    rw [ht]
    rfl
  have heq : r = img := image_ext hsh hs hvalid
  exact ⟨r, hrun, hsh.1, hsh.2.1, hsh.2.2.1, fun x y => by rw [heq], heq⟩

/-- C20 at a concrete input: the 3×1 image `exRow31`. -/
theorem C20_blur_zero_identity_witness :
    exRow31.WF ∧
    ∃ r, ImageBlur exRow31 0 0 = some r ∧
      r.width = exRow31.width ∧ r.height = exRow31.height ∧ r.maxval = exRow31.maxval ∧
      (∀ x y : Int, ImageGetPixel r x y = ImageGetPixel exRow31 x y) ∧ r = exRow31 :=
  ⟨exRow31_WF, C20_blur_zero_identity exRow31 exRow31_WF⟩

/-- C21 as stated fails: for the 3×3 image and `(x,y,w,h) = (1,1,INT_MAX,1)` the sum
`x + w` does not fit an `int`; the code compares the wrapped sum `INT_MIN` with the
width and returns 1, although `x + w ≤ width` is false. -/
theorem C21_validRect_overflow_counterexample :
    ImageValidRect exBlack33 1 1 2147483647 1 = true ∧
    ¬ ((0 : Int) < 2147483647 ∧ (0 : Int) < 1 ∧ ((0 : Int) ≤ 1 ∧ 1 < exBlack33.width) ∧
      ((0 : Int) ≤ 1 ∧ 1 < exBlack33.height) ∧
      (1 : Int) + 2147483647 ≤ exBlack33.width ∧ (1 : Int) + 1 ≤ exBlack33.height) := by
  decide

/-- C21 (amended): for every image and all `x, y, w, h` such that `x + w` and `y + h`
fit an `int`, `ImageValidRect` is true exactly when `w > 0`, `h > 0`, `0 ≤ x < width`,
`0 ≤ y < height`, `x + w ≤ width` and `y + h ≤ height`; for all `x, y, w, h` it is
false whenever `w ≤ 0` or `h ≤ 0`. -/
theorem C21_validRect_iff (img : Image) (x y w h : Int) :
    (x + w ≤ 2147483647 → y + h ≤ 2147483647 →
      (ImageValidRect img x y w h = true ↔
        (0 < w ∧ 0 < h ∧ (0 ≤ x ∧ x < img.width) ∧ (0 ≤ y ∧ y < img.height) ∧
          x + w ≤ img.width ∧ y + h ≤ img.height))) ∧
    ((w ≤ 0 ∨ h ≤ 0) → ImageValidRect img x y w h = false) :=
  ⟨fun h1 h2 => validRect_iff_of_noOverflow img x y w h h1 h2,
    fun hwh => validRect_nonpos img x y w h hwh⟩

/-- C21 (amended) at concrete inputs: the rectangle `(1,1,2,2)` of the 3×3 image, and
a rectangle of width 0. -/
theorem C21_validRect_iff_witness :
    ((1 : Int) + 2 ≤ 2147483647 ∧ (1 : Int) + 2 ≤ 2147483647 ∧
      (ImageValidRect exBlack33 1 1 2 2 = true ↔
        ((0 : Int) < 2 ∧ (0 : Int) < 2 ∧ ((0 : Int) ≤ 1 ∧ 1 < exBlack33.width) ∧
          ((0 : Int) ≤ 1 ∧ 1 < exBlack33.height) ∧
          (1 : Int) + 2 ≤ exBlack33.width ∧ (1 : Int) + 2 ≤ exBlack33.height))) ∧
    (((0 : Int) ≤ 0 ∨ (2 : Int) ≤ 0) ∧ ImageValidRect exBlack33 1 1 0 2 = false) :=
  ⟨⟨by decide, by decide, (C21_validRect_iff exBlack33 1 1 2 2).1 (by decide) (by decide)⟩,
    Or.inl (by decide), (C21_validRect_iff exBlack33 1 1 0 2).2 (Or.inl (by decide))⟩

/-- C22 as stated fails: for the 1×1 image and the image without pixels, both
well-formed, `ImageLocateSubImage` aborts (its read of pixel `(0,0)` of `img2` is
outside `img2`), while the plain search finds the vacuous match at `(0,0)`. -/
theorem C22_precheck_counterexample :
    exOne11.WF ∧ exEmpty00.WF ∧
    ImageLocateSubImage exOne11 (-1) (-1) exEmpty00 = none ∧
    ImageMatchSubImage exOne11 0 0 exEmpty00 = some 1 ∧
    plainLocateSubImage exOne11 (-1) (-1) exEmpty00 = some (1, 0, 0) :=
  ⟨exOne11_WF, exEmpty00_WF, by decide, by decide, by decide⟩

/-- C22 (amended): for every `img1` and every `img2` with at least one pixel,
`ImageLocateSubImage` and the plain search complete with the same outcome: the same
returned value and the same `(px,py)`. -/
theorem C22_precheck_equivalent (img1 img2 : Image) (px py : Int) (h1 : img1.WF)
    (h2 : img2.WF) (hne : 0 < img2.width * img2.height) :
    ∃ res, ImageLocateSubImage img1 px py img2 = some res ∧
      plainLocateSubImage img1 px py img2 = some res := by
  have hw : 0 < img2.width := by
    rcases eq_or_lt_of_le h2.1.1 with h | h
    · rw [← h] at hne; simp at hne
    · exact h
  have hh : 0 < img2.height := by
    rcases eq_or_lt_of_le h2.1.2.1 with h | h
    · rw [← h] at hne; simp at hne
    · exact h
  have heq : ImageLocateSubImage img1 px py img2 = plainLocateSubImage img1 px py img2 := by
    unfold ImageLocateSubImage plainLocateSubImage
    rw [searchLoop2_congr _ _ _ _ (fun i hi j hj => locate_body_eq img1 img2 h1.1 h2.1 hw hh
      i j hi hj)]
  rcases locate_spec img1 img2 px py h1.1 h2.1 hw hh with ⟨e, _⟩ | ⟨qx, qy, _, _, e, _⟩
  · exact ⟨_, e, heq ▸ e⟩
  · exact ⟨_, e, heq ▸ e⟩

/-- C22 (amended) at a concrete input: `exGray22` searched inside `exHay33`. -/
theorem C22_precheck_equivalent_witness :
    exHay33.WF ∧ exGray22.WF ∧ 0 < exGray22.width * exGray22.height ∧
    ∃ res, ImageLocateSubImage exHay33 (-1) (-1) exGray22 = some res ∧
      plainLocateSubImage exHay33 (-1) (-1) exGray22 = some res :=
  ⟨exHay33_WF, exGray22_WF, by decide,
    C22_precheck_equivalent exHay33 exGray22 (-1) (-1) exHay33_WF exGray22_WF (by decide)⟩

/-- C23: for every square image (`width = height = n`), `ImageRotate` completes (no
assertion of `ImageGetPixel` or `ImageSetPixel` fails) and returns an `n×n` image with
the same maxval in which `result(x,y) = source(n-1-y, x)`; the top-left pixel of the
source is the bottom-left pixel of the result. -/
theorem C23_rotate_square (img : Image) (hwf : img.WF) (hsq : img.width = img.height) :
    ∃ r, ImageRotate img = some r ∧
      r.width = img.width ∧ r.height = img.width ∧ r.maxval = img.maxval ∧
      (∀ x y : Int, 0 ≤ x → x < img.width → 0 ≤ y → y < img.width →
        ∃ p : Nat, ImageGetPixel r x y = some p ∧
          ImageGetPixel img (img.width - 1 - y) x = some p) ∧
      (0 < img.width →
        ∃ p : Nat, ImageGetPixel img 0 0 = some p ∧
          ImageGetPixel r 0 (img.width - 1) = some p) := by
  obtain ⟨r, hrun, -, hw, hh, hm, hpx⟩ :=
    rotate_square_spec img hwf.1 hwf.2.1 hwf.2.2.1 hsq
  refine ⟨r, hrun, by rw [hw, hsq], hh, hm, ?_, ?_⟩
  · intro x y hx0 hx hy0 hy
    obtain ⟨p, e1, e2⟩ := hpx x y hx0 hx hy0 (by omega)
    rw [← hsq] at e1
    exact ⟨p, e2, e1⟩
  · intro hpos
    obtain ⟨p, e1, e2⟩ := hpx 0 (img.width - 1) (le_refl 0) hpos (by omega) (by omega)
    rw [show img.height - 1 - (img.width - 1) = 0 by omega] at e1
    exact ⟨p, e1, e2⟩

/-- C23 at a concrete input: the 3×3 image `exHay33`. -/
theorem C23_rotate_square_witness :
    exHay33.WF ∧ exHay33.width = exHay33.height ∧
    ∃ r, ImageRotate exHay33 = some r ∧
      r.width = exHay33.width ∧ r.height = exHay33.width ∧ r.maxval = exHay33.maxval ∧
      (∀ x y : Int, 0 ≤ x → x < exHay33.width → 0 ≤ y → y < exHay33.width →
        ∃ p : Nat, ImageGetPixel r x y = some p ∧
          ImageGetPixel exHay33 (exHay33.width - 1 - y) x = some p) ∧
      (0 < exHay33.width →
        ∃ p : Nat, ImageGetPixel exHay33 0 0 = some p ∧
          ImageGetPixel r 0 (exHay33.width - 1) = some p) :=
  ⟨exHay33_WF, by decide, C23_rotate_square exHay33 exHay33_WF (by decide)⟩

/-- C24: for every `img1` and every `img2` with `width(img2) ≥ 1` and
`height(img2) ≥ 1`, `ImageLocateSubImage` runs to completion, and every candidate
`(i,j)` of its scan is a valid position of `img1` at which `img2` fits; there the two
reads of the pre-check succeed, `ImageMatchSubImage` completes, and every pixel that
`ImageMatchSubImage` reads is at a valid position of the image it is read from. -/
theorem C24_locate_safe (img1 img2 : Image) (px py : Int) (h1 : img1.WF) (h2 : img2.WF)
    (hw : 1 ≤ img2.width) (hh : 1 ≤ img2.height) :
    (∃ res, ImageLocateSubImage img1 px py img2 = some res) ∧
    ∀ i j : Int, 0 ≤ i → i < ImageWidth img1 - ImageWidth img2 →
      0 ≤ j → j < ImageHeight img1 - ImageHeight img2 →
      ImageValidPos img1 i j = true ∧
      i + img2.width ≤ img1.width ∧ j + img2.height ≤ img1.height ∧
      (∃ a, ImageGetPixel img1 i j = some a) ∧
      (∃ b, ImageGetPixel img2 0 0 = some b) ∧
      (∃ m, ImageMatchSubImage img1 i j img2 = some m) ∧
      ∀ a b : Int, 0 ≤ a → a < img2.width → 0 ≤ b → b < img2.height →
        ImageValidPos img2 a b = true ∧ ImageValidPos img1 (a + i) (b + j) = true ∧
        (∃ p2, ImageGetPixel img2 a b = some p2) ∧
        (∃ p1, ImageGetPixel img1 (a + i) (b + j) = some p1) := by
  constructor
  · rcases locate_spec img1 img2 px py h1.1 h2.1 (by omega) (by omega) with ⟨e, _⟩ |
      ⟨qx, qy, _, _, e, _⟩
    · exact ⟨_, e⟩
    · exact ⟨_, e⟩
  · intro i j hi0 hi hj0 hj
    simp only [ImageWidth, ImageHeight] at hi hj
    refine ⟨(validPos_iff _ _ _).2 ⟨⟨hi0, by omega⟩, hj0, by omega⟩, by omega, by omega,
      getPixel_some h1.1 hi0 (by omega) hj0 (by omega),
      getPixel_some h2.1 (le_refl 0) (by omega) (le_refl 0) (by omega), ?_, ?_⟩
    · rcases match_spec img1 img2 h1.1 h2.1 i j hi0 (by omega) hj0 (by omega) (by omega)
        (by omega) with ⟨e, _⟩ | ⟨e, _⟩
      · exact ⟨_, e⟩
      · exact ⟨_, e⟩
    · intro a b ha0 ha hb0 hb
      exact ⟨(validPos_iff _ _ _).2 ⟨⟨ha0, ha⟩, hb0, hb⟩,
        (validPos_iff _ _ _).2 ⟨⟨by omega, by omega⟩, by omega, by omega⟩,
        getPixel_some h2.1 ha0 ha hb0 hb,
        getPixel_some h1.1 (by omega) (by omega) (by omega) (by omega)⟩

/-- C24 at a concrete input: `exGray22` searched inside `exHay33`. -/
theorem C24_locate_safe_witness :
    exHay33.WF ∧ exGray22.WF ∧ 1 ≤ exGray22.width ∧ 1 ≤ exGray22.height ∧
    ((∃ res, ImageLocateSubImage exHay33 (-1) (-1) exGray22 = some res) ∧
    ∀ i j : Int, 0 ≤ i → i < ImageWidth exHay33 - ImageWidth exGray22 →
      0 ≤ j → j < ImageHeight exHay33 - ImageHeight exGray22 →
      ImageValidPos exHay33 i j = true ∧
      i + exGray22.width ≤ exHay33.width ∧ j + exGray22.height ≤ exHay33.height ∧
      (∃ a, ImageGetPixel exHay33 i j = some a) ∧
      (∃ b, ImageGetPixel exGray22 0 0 = some b) ∧
      (∃ m, ImageMatchSubImage exHay33 i j exGray22 = some m) ∧
      ∀ a b : Int, 0 ≤ a → a < exGray22.width → 0 ≤ b → b < exGray22.height →
        ImageValidPos exGray22 a b = true ∧ ImageValidPos exHay33 (a + i) (b + j) = true ∧
        (∃ p2, ImageGetPixel exGray22 a b = some p2) ∧
        (∃ p1, ImageGetPixel exHay33 (a + i) (b + j) = some p1)) :=
  ⟨exHay33_WF, exGray22_WF, by decide, by decide,
    C24_locate_safe exHay33 exGray22 (-1) (-1) exHay33_WF exGray22_WF (by decide) (by decide)⟩

end Image8bit
